import Mathlib

/-!
Verification of the configuration document model of the
cirro-configure-workflow application (`src/app.py`).

The development shallowly embeds the pure data manipulation of the app:

* `Json` models Python dict/list/str/bool/int values.  Objects are
  insertion-ordered association lists, as CPython dicts are; updating an
  existing key keeps its position, adding a new key appends, matching
  CPython semantics.
* Fallible Python code (KeyError, AttributeError, failed `assert`) is
  modelled with `Except String`.
* Each `load` / `dump` method of the configuration elements is translated
  to a Lean function over explicit state structures.
-/

set_option maxRecDepth 8192

inductive Json where
  | null
  | bool (b : Bool)
  | num (n : Int)
  | str (s : String)
  | arr (items : List Json)
  | obj (fields : List (String × Json))
  deriving Repr

namespace Json

mutual

def beq : Json → Json → Bool
  | .null, .null => true
  | .bool a, .bool b => a == b
  | .num a, .num b => a == b
  | .str a, .str b => a == b
  | .arr a, .arr b => beqL a b
  | .obj a, .obj b => beqO a b
  | _, _ => false

def beqL : List Json → List Json → Bool
  | [], [] => true
  | x :: xs, y :: ys => beq x y && beqL xs ys
  | _, _ => false

def beqO : List (String × Json) → List (String × Json) → Bool
  | [], [] => true
  | (k1, v1) :: xs, (k2, v2) :: ys => k1 == k2 && beq v1 v2 && beqO xs ys
  | _, _ => false

end

mutual

theorem beq_iff : ∀ a b : Json, beq a b = true ↔ a = b
  | .null, .null => by simp [beq]
  | .null, .bool _ => by simp [beq]
  | .null, .num _ => by simp [beq]
  | .null, .str _ => by simp [beq]
  | .null, .arr _ => by simp [beq]
  | .null, .obj _ => by simp [beq]
  | .bool _, .null => by simp [beq]
  | .bool _, .bool _ => by simp [beq]
  | .bool _, .num _ => by simp [beq]
  | .bool _, .str _ => by simp [beq]
  | .bool _, .arr _ => by simp [beq]
  | .bool _, .obj _ => by simp [beq]
  | .num _, .null => by simp [beq]
  | .num _, .bool _ => by simp [beq]
  | .num _, .num _ => by simp [beq]
  | .num _, .str _ => by simp [beq]
  | .num _, .arr _ => by simp [beq]
  | .num _, .obj _ => by simp [beq]
  | .str _, .null => by simp [beq]
  | .str _, .bool _ => by simp [beq]
  | .str _, .num _ => by simp [beq]
  | .str _, .str _ => by simp [beq]
  | .str _, .arr _ => by simp [beq]
  | .str _, .obj _ => by simp [beq]
  | .arr _, .null => by simp [beq]
  | .arr _, .bool _ => by simp [beq]
  | .arr _, .num _ => by simp [beq]
  | .arr _, .str _ => by simp [beq]
  | .arr a, .arr b => by simp [beq, beqL_iff a b]
  | .arr _, .obj _ => by simp [beq]
  | .obj _, .null => by simp [beq]
  | .obj _, .bool _ => by simp [beq]
  | .obj _, .num _ => by simp [beq]
  | .obj _, .str _ => by simp [beq]
  | .obj _, .arr _ => by simp [beq]
  | .obj a, .obj b => by simp [beq, beqO_iff a b]

theorem beqL_iff : ∀ a b : List Json, beqL a b = true ↔ a = b
  | [], [] => by simp [beqL]
  | [], _ :: _ => by simp [beqL]
  | _ :: _, [] => by simp [beqL]
  | x :: xs, y :: ys => by simp [beqL, beq_iff x y, beqL_iff xs ys]

theorem beqO_iff : ∀ a b : List (String × Json), beqO a b = true ↔ a = b
  | [], [] => by simp [beqO]
  | [], _ :: _ => by simp [beqO]
  | _ :: _, [] => by simp [beqO]
  | (k1, v1) :: xs, (k2, v2) :: ys => by
      simp [beqO, beq_iff v1 v2, beqO_iff xs ys, and_assoc]

end

instance : DecidableEq Json := fun a b =>
  decidable_of_iff (beq a b = true) (beq_iff a b)

end Json

/-- Dict read, `d[k]` / `d.get(k)`: `none` when the key is absent or the
value is not a dict. -/
def jget : Json → String → Option Json
  | .obj fs, k => fs.lookup k
  | _, _ => none

/-- Dict read with default, `d.get(k, dflt)`. -/
def jgetD (j : Json) (k : String) (dflt : Json) : Json :=
  (jget j k).getD dflt

/-- Key update on an association list: an existing key is overwritten in
place, a new key is appended, exactly like assignment into a CPython
dict. -/
def setA : List (String × Json) → String → Json → List (String × Json)
  | [], k, v => [(k, v)]
  | (k', v') :: rest, k, v =>
      if k' = k then (k, v) :: rest else (k', v') :: setA rest k v

/-- Dict assignment, `d[k] = v`.  On a non-dict value this returns the
value unchanged; every use in the development is guarded so that the
non-dict case (a TypeError in Python) is unreachable. -/
def jset : Json → String → Json → Json
  | .obj fs, k, v => .obj (setA fs k v)
  | j, _, _ => j

/-- Dict deletion, `del d[k]` (no error when the key is absent; the only
use in the source is guarded by a membership test). -/
def jdel : Json → String → Json
  | .obj fs, k => .obj (fs.filter (fun p => p.1 ≠ k))
  | j, _ => j

/-- Dict membership test, `k in d` (for dict values). -/
def jhas (j : Json) (k : String) : Bool :=
  (jget j k).isSome

/-- `".".join(parts)` -/
def joinDot : List String → String
  | [] => ""
  | [x] => x
  | x :: y :: xs => x ++ "." ++ joinDot (y :: xs)

/-- `str.upper()`, restricted to the ASCII case mapping. -/
def pyUpper (s : String) : String :=
  String.mk (s.data.map Char.toUpper)

/-- `s.startswith(pre)` -/
def pyStartsWith (s pre : String) : Bool :=
  pre.data.isPrefixOf s.data

/-- `s[n:]` for a string and a non-negative index. -/
def pyDrop (s : String) (n : Nat) : String :=
  String.mk (s.data.drop n)

/-- `s.split(sep)` for a single-character separator: always returns at
least one piece, and `"".split(sep) == [""]`. -/
def splitOnChar (sep : Char) (cs : List Char) : List String :=
  match cs with
  | [] => [""]
  | c :: rest =>
    let r := splitOnChar sep rest
    if c = sep then "" :: r
    else
      match r with
      | [] => [String.mk [c]]
      | s :: ss => String.mk (c :: s.data) :: ss

/-- `s.replace(c, d)` for single characters. -/
def pyReplace (s : String) (c : Char) (d : Char) : String :=
  String.mk (s.data.map (fun x => if x = c then d else x))

/-! ## Parameter binding classification (`Param.__init__` / `Param.dump`)

`Param.__init__` (src/app.py:615-690) classifies the binding expression
string of one parameter:
1. exact match against one of the three values of `input_type_values`;
2. otherwise, prefix match against `"$.params.dataset.paramJson."`
   gives "Form Entry";
3. otherwise "Hardcoded Value".
-/

/-- The five parameter kinds of `Param.input_type_options`. -/
inductive InputType where
  | datasetName
  | formEntry
  | hardcodedValue
  | inputDirectory
  | outputDirectory
  deriving DecidableEq, Repr

/-- `Param.input_type_values["Output Directory"]` -/
def outputDirectoryValue : String := "$.params.dataset.s3|/data/"

/-- `Param.input_type_values["Input Directory"]` -/
def inputDirectoryValue : String := "$.params.inputs[0].s3|/data/"

/-- `Param.input_type_values["Dataset Name"]` -/
def datasetNameValue : String := "$.params.dataset.name"

/-- The marker recognised for "Form Entry" bindings. -/
def paramJsonMarker : String := "$.params.dataset.paramJson."

/-- The fixed expression dumped for the three enum kinds
(`Param.input_type_values`), `none` for the other two kinds. -/
def input_type_value : InputType → Option String
  | .outputDirectory => some outputDirectoryValue
  | .inputDirectory => some inputDirectoryValue
  | .datasetName => some datasetNameValue
  | _ => none

/-- Binding-expression classification of `Param.__init__` for a string
value: exact match against the three fixed expressions first, then the
`paramJson` prefix, then the hardcoded fallback. -/
def classify_input_type (s : String) : InputType :=
  if s = outputDirectoryValue then .outputDirectory
  else if s = inputDirectoryValue then .inputDirectory
  else if s = datasetNameValue then .datasetName
  else if pyStartsWith s paramJsonMarker then .formEntry
  else .hardcodedValue

/-- The expression string `Param.dump` stores into `config["input"]`:
the fixed expression for the three enum kinds, the parameter's own value
otherwise (src/app.py:772-777). -/
def dump_input_value (t : InputType) (value : String) : String :=
  (input_type_value t).getD value

theorem classify_fixed_distinct :
    outputDirectoryValue ≠ inputDirectoryValue ∧
    outputDirectoryValue ≠ datasetNameValue ∧
    inputDirectoryValue ≠ datasetNameValue ∧
    ¬ pyStartsWith outputDirectoryValue paramJsonMarker ∧
    ¬ pyStartsWith inputDirectoryValue paramJsonMarker ∧
    ¬ pyStartsWith datasetNameValue paramJsonMarker := by
  decide

/-- C2: classification is total with first-match precedence - an
expression equal to one of the three fixed expressions gets the matching
enum kind, otherwise the `"$.params.dataset.paramJson."` prefix gives
Form Entry, otherwise Hardcoded Value; and re-classifying the expression
that `Param.dump` writes for a classified parameter returns the same
kind. -/
theorem classify_input_type_total_and_roundtrip (s : String) :
    (classify_input_type s = .outputDirectory ↔ s = outputDirectoryValue) ∧
    (classify_input_type s = .inputDirectory ↔
      s ≠ outputDirectoryValue ∧ s = inputDirectoryValue) ∧
    (classify_input_type s = .datasetName ↔
      s ≠ outputDirectoryValue ∧ s ≠ inputDirectoryValue ∧
      s = datasetNameValue) ∧
    (classify_input_type s = .formEntry ↔
      s ≠ outputDirectoryValue ∧ s ≠ inputDirectoryValue ∧
      s ≠ datasetNameValue ∧ pyStartsWith s paramJsonMarker) ∧
    (classify_input_type s = .hardcodedValue ↔
      s ≠ outputDirectoryValue ∧ s ≠ inputDirectoryValue ∧
      s ≠ datasetNameValue ∧ ¬ pyStartsWith s paramJsonMarker) ∧
    classify_input_type (dump_input_value (classify_input_type s) s) =
      classify_input_type s := by
  obtain ⟨h1, h2, h3, h4, h5, h6⟩ := classify_fixed_distinct
  unfold classify_input_type dump_input_value input_type_value
  by_cases e1 : s = outputDirectoryValue
  · subst e1
    simp [h1, h2, h4]
  · by_cases e2 : s = inputDirectoryValue
    · subst e2
      simp [Ne.symm h1, h3, h5, e1]
    · by_cases e3 : s = datasetNameValue
      · subst e3
        simp [Ne.symm h2, Ne.symm h3, h6, e1, e2]
      · by_cases e4 : pyStartsWith s paramJsonMarker
        · simp [e1, e2, e3, e4]
        · simp [e1, e2, e3, e4]

/-! ## Output token extraction and overlap regex (`OutputConfig`)

`OutputConfig.TOKEN_REGEX` is the pattern `\[([A-Za-z]+)\]`.
`OutputConfig.tokens` is `re.findall` of it over the source template;
`OutputConfig.matches_regex` substitutes every token occurrence by
`"(.*)"` and runs an unanchored `re.search` over the other source.
The matcher below handles the constructs that can appear in a source
template: substituted token groups (match any substring), the `.`
metacharacter (any single character), and literal characters.  Other
regex metacharacters in a source template are treated as literals.
-/

/-- One item of a derived matching pattern. -/
inductive RItem where
  | lit (c : Char)
  | dot
  | wild
  deriving DecidableEq, Repr

/-- Fuel-driven scanner for `re.findall(r"\[([A-Za-z]+)\]", s)`: each
step consumes at least one character, so fuel equal to the length of the
input never runs out before the scan completes. -/
def findTokensGo : Nat → List Char → List String
  | 0, _ => []
  | _ + 1, [] => []
  | n + 1, c :: rest =>
    if c = '[' then
      let letters := rest.takeWhile Char.isAlpha
      match rest.dropWhile Char.isAlpha with
      | ']' :: rest' =>
        if letters = [] then findTokensGo n rest
        else String.mk letters :: findTokensGo n rest'
      | _ => findTokensGo n rest
    else findTokensGo n rest

/-- `re.findall(TOKEN_REGEX, source)`: the ordered list of bracketed
alphabetic tokens. -/
def tokensOf (source : String) : List String :=
  findTokensGo source.data.length source.data

/-- `re.sub(TOKEN_REGEX, "(.*)", source)`, already split into matcher
items: token occurrences become wildcard groups, `.` stays the any-char
metacharacter, everything else is a literal. -/
def parseItemsGo : Nat → List Char → List RItem
  | 0, _ => []
  | _ + 1, [] => []
  | n + 1, c :: rest =>
    if c = '[' then
      let letters := rest.takeWhile Char.isAlpha
      match rest.dropWhile Char.isAlpha with
      | ']' :: rest' =>
        if letters = [] then .lit c :: parseItemsGo n rest
        else .wild :: parseItemsGo n rest'
      | _ => .lit c :: parseItemsGo n rest
    else (if c = '.' then .dot else .lit c) :: parseItemsGo n rest

def parseItems (source : String) : List RItem :=
  parseItemsGo source.data.length source.data

/-- Match a pattern against a prefix of the input (the rest of the input
may remain, as `re.search` does not anchor the end). -/
def matchAt : List RItem → List Char → Bool
  | [], _ => true
  | .lit c :: ps, ds =>
    match ds with
    | [] => false
    | d :: ds' => c = d && matchAt ps ds'
  | .dot :: ps, ds =>
    match ds with
    | [] => false
    | _ :: ds' => matchAt ps ds'
  | .wild :: ps, ds =>
    (List.range (ds.length + 1)).any fun k => matchAt ps (ds.drop k)

/-- Unanchored search: try a match at every start position. -/
def searchAt (ps : List RItem) : List Char → Bool
  | [] => matchAt ps []
  | d :: ds' => matchAt ps (d :: ds') || searchAt ps ds'

/-- `OutputConfig.matches_regex(self, source)` (src/app.py:1570-1573):
derive a regex from `source` by substituting tokens with `"(.*)"` and
search it inside `selfSource` (`self.source`). -/
def matches_regex (source : String) (selfSource : String) : Bool :=
  searchAt (parseItems source) selfSource.data

/-! ## Output specifications (`OutputConfig`, `OutputsConfig`) -/

/-- `OutputConfig.source_prefix` -/
def source_prefix_value : String := "$data_directory/"

/-- `OutputConfig.commands[0]` -/
def hotParquet : String := "hot.Parquet"

/-- State of one `OutputConcatConfig` (token plus display name and
description, either taken over from a prior concat entry or defaulted to
the token text). -/
structure ConcatState where
  token : String
  name : Json
  desc : Json
  deriving DecidableEq, Repr

/-- State of one `OutputMeltConfig`: the enabled flag and the four
tracked flattened fields (`key_name`, `key_desc`, `value_name`,
`value_desc`).  `OutputMeltConfig.__init__` flattens `dat` with dynamic
attribute names; only these four are ever read back by `dump`. -/
structure MeltState where
  enabled : Bool
  key_name : Option Json
  key_desc : Option Json
  value_name : Option Json
  value_desc : Option Json
  deriving DecidableEq, Repr

/-- State of one `OutputConfig`.  `file_config` is the underlying
document entry (mutated in place by the Python code), `colDeleted` the
deletion flags of the `OutputColumnConfig` wrappers.  The UI-only `id`
field is omitted. -/
structure OutputState where
  file_config : Json
  deleted : Bool
  delimiter : Json
  colDeleted : List Bool
  melt : MeltState
  concat : List ConcatState
  deriving DecidableEq, Repr

/-- `j.get(k, dflt)` where `j` must support `.get` (be a dict). -/
def pyGetAttr (j : Json) (k : String) (dflt : Json) : Except String Json :=
  match j with
  | .obj _ => .ok (jgetD j k dflt)
  | _ => .error "AttributeError: get"

/-- `OutputConfig.source` (src/app.py:1583-1587):
`file_config["params"].get("source", source_prefix)[len(source_prefix):]`.
A non-string source value is reported as an error (Python would fail
slightly later, inside `re.findall`). -/
def output_source (fc : Json) : Except String String := do
  let params ← match jget fc "params" with
    | some p => .ok p
    | none => .error "KeyError: params"
  let src ← pyGetAttr params "source" (.str source_prefix_value)
  match src with
  | .str s => .ok (pyDrop s 16)
  | _ => .error "TypeError: source is not a string"

/-- Total variant of `OutputConfig.source` used by the overlap filter;
construction of an `OutputConfig` guarantees the fallible variant
succeeds, so the default is never observable there. -/
def sourceD (o : OutputState) : String :=
  ((output_source o.file_config).toOption).getD ""

/-- Lookup into `{i["token"]: i for i in entries if isinstance(i, dict)
and "token" in i}`: the last qualifying entry with the given token wins,
as later comprehension items overwrite earlier ones. -/
def concat_lookup (entries : List Json) (token : String) : Option Json :=
  entries.reverse.find? fun e =>
    match e with
    | .obj _ => jget e "token" = some (.str token)
    | _ => false

/-- `OutputConfig.parse_concat_tokens` (src/app.py:1536-1568): no concat
sub-structure when the source has no tokens; otherwise one entry per
token occurrence, with name and description taken from the existing
`params["concat"]` entry keyed by the token, defaulting to the token
text. -/
def parse_concat_tokens (fc : Json) : Except String (List ConcatState) := do
  let src ← output_source fc
  let tokens := tokensOf src
  if tokens = [] then .ok []
  else do
    let params := jgetD fc "params" (.obj [])
    let entries ← match jgetD params "concat" (.arr []) with
      | .arr l => .ok l
      | .obj _ => .ok []
      | .str _ => .ok []
      | _ => .error "TypeError: concat is not iterable"
    if entries.any (fun e =>
        match e with
        | .obj _ =>
          match jget e "token" with
          | some (.arr _) => true
          | some (.obj _) => true
          | _ => false
        | _ => false) then
      .error "TypeError: unhashable token"
    else
      .ok (tokens.map fun t =>
        { token := t
          name := jgetD ((concat_lookup entries t).getD (.obj [])) "name" (.str t)
          desc := jgetD ((concat_lookup entries t).getD (.obj [])) "desc" (.str t) })

/-- `OutputMeltConfig.__init__` field flattening for the four fields the
`dump` method reads back.  `dat` items whose values are not dicts raise
in Python. -/
def load_melt_fields (fields : List (String × Json)) :
    Except String MeltState := do
  let init : MeltState := ⟨true, none, none, none, none⟩
  List.foldlM (fun st (kw1, v1) =>
    match v1 with
    | .obj inner =>
      .ok (List.foldl (fun st (kw2, v2) =>
        let k := kw1 ++ "_" ++ kw2
        if k = "key_name" then { st with key_name := some v2 }
        else if k = "key_desc" then { st with key_desc := some v2 }
        else if k = "value_name" then { st with value_name := some v2 }
        else if k = "value_desc" then { st with value_desc := some v2 }
        else st) st inner)
    | _ => .error "AttributeError: items") init fields

/-- `OutputMeltConfig.__init__` (src/app.py:1248-1257): disabled when
`file_config.get("melt")` is absent or `None`, otherwise flatten the
nested dict. -/
def load_melt (dat : Option Json) : Except String MeltState :=
  match dat with
  | none => .ok ⟨false, none, none, none, none⟩
  | some .null => .ok ⟨false, none, none, none, none⟩
  | some (.obj fields) => load_melt_fields fields
  | some _ => .error "AttributeError: items"

/-- `OutputMeltConfig.dump` (src/app.py:1305-1315). -/
def dump_melt (m : MeltState) : Json :=
  .obj [("key", .obj [("name", m.key_name.getD (.str "")),
                      ("desc", m.key_desc.getD (.str ""))]),
        ("value", .obj [("name", m.value_name.getD (.str "")),
                        ("desc", m.value_desc.getD (.str ""))])]

/-- `OutputConcatConfig.dump` (src/app.py:1386-1391). -/
def dump_concat (c : ConcatState) : Json :=
  .obj [("token", .str c.token), ("name", c.name), ("desc", c.desc)]

/-- `OutputConfig.__init__` (src/app.py:1473-1527): assert the command
is present and recognized, default `params`/`cols`/`name` in place, read
the delimiter, wrap the columns, the melt and the concat structures. -/
def load_output (fc : Json) : Except String OutputState := do
  let _ ← match fc with
    | .obj _ => .ok fc
    | _ => .error "AttributeError: not a dict"
  let cmd ← match jget fc "command" with
    | some c => .ok c
    | none => .error "AssertionError: Missing 'command'"
  if cmd ≠ .str hotParquet then .error "AssertionError: Unrecognized command"
  else do
    let fc := if jhas fc "params" then fc else jset fc "params" (.obj [])
    let params0 := jgetD fc "params" (.obj [])
    let _ ← match params0 with
      | .obj _ => .ok params0
      | _ => .error "TypeError: params is not a dict"
    let params1 := if jhas params0 "cols" then params0
                   else jset params0 "cols" (.arr [])
    let params2 := if jhas params1 "name" then params1
                   else jset params1 "name" (.str "Output File")
    let fc := jset fc "params" params2
    let rc ← pyGetAttr params2 "read_csv" (.obj [])
    let ps ← pyGetAttr rc "parse" (.obj [])
    let delim ← pyGetAttr ps "delimiter" (.str ",")
    let cols ← match jget params2 "cols" with
      | some (.arr l) => .ok l
      | some _ => .error "TypeError: cols is not a list"
      | none => .error "KeyError: cols"
    let melt ← load_melt (jget fc "melt")
    let concat ← parse_concat_tokens fc
    .ok { file_config := fc
          deleted := false
          delimiter := delim
          colDeleted := List.replicate cols.length false
          melt := melt
          concat := concat }

/-- Indices `j ≠ i` (numbering the scanned list from `j0`) whose source
matches the regex derived from `src`; the inner comprehension of
`OutputsConfig.matching_regex`. -/
def matchingIdx (src : String) (i : Nat) : Nat → List OutputState → List Nat
  | _, [] => []
  | j, o :: rest =>
    (if j ≠ i ∧ matches_regex src (sourceD o) then [j] else []) ++
      matchingIdx src i (j + 1) rest

/-- Outer scan of `OutputsConfig.matching_regex` (src/app.py:1874-1895):
the first output with at least one token whose derived regex matches some
other output determines the result. -/
def matching_regex_from (outputs : List OutputState) :
    Nat → List OutputState → List Nat
  | _, [] => []
  | i, o :: rest =>
    if tokensOf (sourceD o) ≠ [] then
      let m := matchingIdx (sourceD o) i 0 outputs
      if m ≠ [] then m else matching_regex_from outputs (i + 1) rest
    else matching_regex_from outputs (i + 1) rest

/-- `OutputsConfig.matching_regex`: indices of outputs matched by another
output's token regex (empty when there is no conflict). -/
def matching_regex (outputs : List OutputState) : List Nat :=
  matching_regex_from outputs 0 outputs

/-- `[output for i, output in enumerate(outputs) if i not in m]` -/
def removeIdx (m : List Nat) : Nat → List OutputState → List OutputState
  | _, [] => []
  | i, o :: rest =>
    (if i ∈ m then [] else [o]) ++ removeIdx m (i + 1) rest

/-- The `while` loop of `OutputsConfig.load` (src/app.py:1813-1819),
driven by fuel: each iteration with a conflict removes at least one
output, so fuel equal to the initial list length suffices to reach the
fixed point (`overlap_filter_reaches_fixpoint` below). -/
def overlap_filter_go : Nat → List OutputState → List OutputState
  | 0, outs => outs
  | n + 1, outs =>
    if matching_regex outs = [] then outs
    else overlap_filter_go n (removeIdx (matching_regex outs) 0 outs)

def overlap_filter (outs : List OutputState) : List OutputState :=
  overlap_filter_go outs.length outs

/-- Number of filter passes the `while` loop executes. -/
def overlap_passes_go : Nat → List OutputState → Nat
  | 0, _ => 0
  | n + 1, outs =>
    if matching_regex outs = [] then 0
    else overlap_passes_go n (removeIdx (matching_regex outs) 0 outs) + 1

def overlap_passes (outs : List OutputState) : Nat :=
  overlap_passes_go outs.length outs

/-- The comprehension of `OutputsConfig.load` (src/app.py:1807-1811):
entries whose `command` is not `hot.Parquet` (including a missing
command and the `hot.Manifest` marker) are skipped; the remaining ones
are constructed. -/
def pick_outputs : List Json → Except String (List OutputState)
  | [] => .ok []
  | e :: rest => do
    let cmd ← match e with
      | .obj _ => .ok (jget e "command")
      | _ => .error "AttributeError: get"
    if cmd = some (.str hotParquet) then do
      let o ← load_output e
      let os ← pick_outputs rest
      .ok (o :: os)
    else pick_outputs rest

/-- `OutputsConfig.load` (src/app.py:1801-1819): wrap the recognized
entries of `config["output"]["commands"]`, then filter out outputs
matched by another output's token regex until a fixed point. -/
def load_outputs (config : Json) : Except String (List OutputState) := do
  let out ← match jget config "output" with
    | some v => .ok v
    | none => .error "KeyError: output"
  let cmds ← pyGetAttr out "commands" (.arr [])
  let entries ← match cmds with
    | .arr l => .ok l
    | .obj [] => .ok []
    | .str ⟨[]⟩ => .ok []
    | _ => .error "TypeError: commands is not a list"
  let picked ← pick_outputs entries
  .ok (overlap_filter picked)

/-- `OutputConfig.target` (src/app.py:1589-1592):
`source.replace("/", "_") + ".parquet"`. -/
def output_target (src : String) : String :=
  pyReplace src '/' '_' ++ ".parquet"

/-- `OutputConfig.dump` (src/app.py:1761-1796): re-derive `target` and
`read_csv` from the state, write or delete the melt block, write the
concat block when tokens exist, and drop deleted columns. -/
def dump_output (o : OutputState) : Except String Json := do
  let cmd ← match jget o.file_config "command" with
    | some c => .ok c
    | none => .error "KeyError: command"
  if cmd = .str hotParquet then do
    let src ← output_source o.file_config
    let params ← match jget o.file_config "params" with
      | some (.obj pf) => .ok (Json.obj pf)
      | some _ => .error "TypeError: params is not a dict"
      | none => .error "KeyError: params"
    let params := jset params "target" (.str (output_target src))
    let params := jset params "read_csv"
      (.obj [("parse", .obj [("delimiter", o.delimiter)])])
    let cols ← match jget params "cols" with
      | some (.arr l) => .ok l
      | some _ => .error "TypeError: cols is not a list"
      | none => .error "KeyError: cols"
    let newCols := (o.colDeleted.zip cols).filterMap fun p =>
      if p.1 then none else some p.2
    let params := jset params "cols" (.arr newCols)
    let fc := jset o.file_config "params" params
    let fc := if o.melt.enabled then jset fc "melt" (dump_melt o.melt)
              else if jhas fc "melt" then jdel fc "melt" else fc
    let fc := if o.concat ≠ [] then
                jset fc "concat" (.arr (o.concat.map dump_concat))
              else fc
    .ok fc
  else .ok o.file_config

/-- The trailing `hot.Manifest` marker appended by `OutputsConfig.dump`. -/
def manifestCommand : Json :=
  .obj [("command", .str "hot.Manifest"), ("params", .obj [])]

/-- Dump of the non-deleted outputs, in order. -/
def dump_output_list : List OutputState → Except String (List Json)
  | [] => .ok []
  | o :: rest =>
    if o.deleted then dump_output_list rest
    else do
      let d ← dump_output o
      let ds ← dump_output_list rest
      .ok (d :: ds)

/-- `OutputsConfig.dump` (src/app.py:1821-1837): replace the `output`
section with the dumped non-deleted outputs plus the manifest marker. -/
def dump_outputs (outputs : List OutputState) (config : Json) :
    Except String Json := do
  let ds ← dump_output_list outputs
  .ok (jset config "output" (.obj [("commands", .arr (ds ++ [manifestCommand]))]))

theorem matchingIdx_mem_lt {src : String} {i : Nat} :
    ∀ (j : Nat) (l : List OutputState) (x : Nat),
      x ∈ matchingIdx src i j l → j ≤ x ∧ x < j + l.length
  | j, [], x => by simp [matchingIdx]
  | j, o :: rest, x => by
    intro hx
    simp only [matchingIdx, List.mem_append] at hx
    rcases hx with hx | hx
    · have : x = j := by
        by_cases h : j ≠ i ∧ matches_regex src (sourceD o)
        · simpa [h] using hx
        · simp [h] at hx
      subst this
      simp only [List.length_cons]
      omega
    · have := matchingIdx_mem_lt (j + 1) rest x hx
      constructor <;> [omega; (simp only [List.length_cons]; omega)]

theorem matching_regex_from_mem_lt (outputs : List OutputState) :
    ∀ (i : Nat) (rest : List OutputState) (x : Nat),
      x ∈ matching_regex_from outputs i rest → x < outputs.length
  | i, [], x => by simp [matching_regex_from]
  | i, o :: rest, x => by
    intro hx
    simp only [matching_regex_from] at hx
    by_cases ht : tokensOf (sourceD o) ≠ []
    · simp only [if_pos ht] at hx
      by_cases hm : matchingIdx (sourceD o) i 0 outputs ≠ []
      · simp only [if_pos hm] at hx
        have := matchingIdx_mem_lt 0 outputs x hx
        omega
      · simp only [if_neg hm] at hx
        exact matching_regex_from_mem_lt outputs (i + 1) rest x hx
    · simp only [if_neg ht] at hx
      exact matching_regex_from_mem_lt outputs (i + 1) rest x hx

theorem matching_regex_mem_lt {outputs : List OutputState} {x : Nat}
    (hx : x ∈ matching_regex outputs) : x < outputs.length :=
  matching_regex_from_mem_lt outputs 0 outputs x hx

theorem removeIdx_length_le (m : List Nat) :
    ∀ (j : Nat) (l : List OutputState),
      (removeIdx m j l).length ≤ l.length
  | j, [] => by simp [removeIdx]
  | j, o :: rest => by
    have := removeIdx_length_le m (j + 1) rest
    by_cases h : j ∈ m <;>
      simp [removeIdx, h] <;> omega

theorem removeIdx_length_lt (m : List Nat) :
    ∀ (j : Nat) (l : List OutputState) (x : Nat),
      x ∈ m → j ≤ x → x < j + l.length →
      (removeIdx m j l).length < l.length
  | j, [], x => by
    intro _ h1 h2
    simp at h2
    omega
  | j, o :: rest, x => by
    intro hm h1 h2
    by_cases hj : j ∈ m
    · have := removeIdx_length_le m (j + 1) rest
      simp [removeIdx, hj]
      omega
    · have hne : x ≠ j := fun h => hj (h ▸ hm)
      have := removeIdx_length_lt m (j + 1) rest x hm (by omega)
        (by simp at h2 ⊢; omega)
      simp [removeIdx, hj]
      omega

theorem matching_regex_nil : matching_regex [] = [] := rfl

theorem remove_matching_length_lt {outs : List OutputState}
    (h : matching_regex outs ≠ []) :
    (removeIdx (matching_regex outs) 0 outs).length < outs.length := by
  obtain ⟨x, hx⟩ := List.exists_mem_of_ne_nil _ h
  exact removeIdx_length_lt _ 0 outs x hx (Nat.zero_le x)
    (by simpa using matching_regex_mem_lt hx)

theorem overlap_filter_go_fixpoint :
    ∀ (n : Nat) (outs : List OutputState), outs.length ≤ n →
      matching_regex (overlap_filter_go n outs) = []
  | 0, outs => by
    intro h
    have : outs = [] := List.eq_nil_of_length_eq_zero (Nat.le_zero.mp h)
    subst this
    simp [overlap_filter_go, matching_regex_nil]
  | n + 1, outs => by
    intro h
    by_cases hm : matching_regex outs = []
    · simp [overlap_filter_go, hm]
    · have hlt := remove_matching_length_lt hm
      have : (removeIdx (matching_regex outs) 0 outs).length ≤ n := by omega
      simpa [overlap_filter_go, hm] using
        overlap_filter_go_fixpoint n _ this

theorem overlap_passes_go_le :
    ∀ (n : Nat) (outs : List OutputState), overlap_passes_go n outs ≤ n
  | 0, _ => Nat.le_refl 0
  | n + 1, outs => by
    by_cases hm : matching_regex outs = []
    · simp [overlap_passes_go, hm]
    · have := overlap_passes_go_le n (removeIdx (matching_regex outs) 0 outs)
      simp [overlap_passes_go, hm]
      omega

/-- C9: for every finite list of output specs the overlap-filter loop of
`OutputsConfig.load` terminates at a conflict-free fixed point, and the
number of passes is bounded by the initial number of specs (each
conflicting pass removes at least one spec, see
`remove_matching_length_lt`). -/
theorem overlap_filter_terminates (outs : List OutputState) :
    matching_regex (overlap_filter outs) = [] ∧
    overlap_passes outs ≤ outs.length :=
  ⟨overlap_filter_go_fixpoint outs.length outs (Nat.le_refl _),
   overlap_passes_go_le outs.length outs⟩

/-- Output entry with the token-bearing source `[Sample]/counts.csv`. -/
def tokenSpecEntry : Json :=
  .obj [("command", .str hotParquet),
        ("params", .obj [("source", .str "$data_directory/[Sample]/counts.csv")])]

/-- Output entry with the concrete source `sample1/counts.csv`. -/
def concreteSpecEntry : Json :=
  .obj [("command", .str hotParquet),
        ("params", .obj [("source", .str "$data_directory/sample1/counts.csv")])]

/-- Document whose output list holds the two overlapping specs. -/
def overlapDoc : Json :=
  .obj [("output", .obj [("commands", .arr [tokenSpecEntry, concreteSpecEntry])])]

/-- C3: loading a working set with sources `[Sample]/counts.csv` (token
bearing) and `sample1/counts.csv` (concrete) constructs both specs, and
the overlap filter then removes the concrete spec (it matches the token
spec's derived wildcard regex) and keeps the token-bearing one. -/
theorem overlap_filter_keeps_token_spec :
    (pick_outputs [tokenSpecEntry, concreteSpecEntry]).toOption.map
        (fun l => l.map sourceD) =
      some ["[Sample]/counts.csv", "sample1/counts.csv"] ∧
    (load_outputs overlapDoc).toOption.map (fun l => l.map sourceD) =
      some ["[Sample]/counts.csv"] := by
  decide

@[simp] theorem except_ok_bind {e : Type} {a b : Type} (x : a)
    (f : a → Except e b) : (Except.ok x : Except e a) >>= f = f x := rfl

@[simp] theorem except_error_bind {e : Type} {a b : Type} (err : e)
    (f : a → Except e b) :
    (Except.error err : Except e a) >>= f = .error err := rfl

instance {e a : Type} [DecidableEq e] [DecidableEq a] :
    DecidableEq (Except e a) := fun
  | .ok x, .ok y =>
    if h : x = y then .isTrue (by rw [h])
    else .isFalse (fun hh => h (Except.ok.inj hh))
  | .error x, .error y =>
    if h : x = y then .isTrue (by rw [h])
    else .isFalse (fun hh => h (Except.error.inj hh))
  | .ok _, .error _ => .isFalse (fun hh => Except.noConfusion hh)
  | .error _, .ok _ => .isFalse (fun hh => Except.noConfusion hh)

/-- An output list entry with an unrecognized command, and one with no
command at all. -/
def badCommandsDoc : Json :=
  .obj [("output", .obj [("commands",
    .arr [.obj [("command", .str "hot.Bogus")],
          .obj [("params", .obj [])]])])]

/-- C8 counterexample: loading a document whose output list contains an
entry with an unrecognized command and an entry without a command is NOT
a fatal error - `OutputsConfig.load` silently drops both entries and
succeeds with an empty working set, contradicting the claim that such a
document aborts the recompute. -/
theorem load_outputs_unrecognized_not_fatal :
    load_outputs badCommandsDoc = .ok [] := by
  decide

/-- C8 amended: `OutputsConfig.load` silently skips (does not construct,
does not fail on) any output entry whose `command` is missing or not
`hot.Parquet`; the fail-fast assertions live in `OutputConfig.__init__`
and fire only when an `OutputConfig` is built directly for such an
entry. -/
theorem load_outputs_skips_unrecognized
    (pf : List (String × Json)) (rest : List Json)
    (hc : jget (.obj pf) "command" ≠ some (.str hotParquet)) :
    pick_outputs (Json.obj pf :: rest) = pick_outputs rest ∧
    (∀ c, jget (.obj pf) "command" = some c →
      load_output (.obj pf) = .error "AssertionError: Unrecognized command") ∧
    (jget (.obj pf) "command" = none →
      load_output (.obj pf) = .error "AssertionError: Missing 'command'") := by
  refine ⟨?_, ?_, ?_⟩
  · simp only [pick_outputs, except_ok_bind]
    simp [hc]
  · intro c hcmd
    have hne : c ≠ .str hotParquet := by
      intro h
      exact hc (by rw [hcmd, h])
    simp only [load_output, except_ok_bind, hcmd]
    simp [hne]
  · intro hcmd
    simp only [load_output, except_ok_bind, hcmd]
    rfl

theorem load_outputs_skips_unrecognized_witness :
    (jget (.obj [("command", Json.str "hot.Bogus")]) "command" ≠
        some (.str hotParquet)) ∧
    (pick_outputs [Json.obj [("command", Json.str "hot.Bogus")]] =
        pick_outputs [] ∧
      (∀ c, jget (.obj [("command", Json.str "hot.Bogus")]) "command" = some c →
        load_output (.obj [("command", Json.str "hot.Bogus")]) =
          .error "AssertionError: Unrecognized command") ∧
      (jget (.obj [("command", Json.str "hot.Bogus")]) "command" = none →
        load_output (.obj [("command", Json.str "hot.Bogus")]) =
          .error "AssertionError: Missing 'command'")) :=
  ⟨by decide,
   load_outputs_skips_unrecognized [("command", Json.str "hot.Bogus")] []
     (by decide)⟩

/-! ## History stack (`WorkflowConfig.save_config` / `save_history` /
`undo` / `redo`)

The session state holds the current document (`st.session_state["config"]`,
absent before the first save), the undo stack (`"history"`) and the redo
stack (`"future"`).  The document type is kept abstract; snapshot
equality is structural equality of the document values, as in Python.
-/

structure Session (α : Type) where
  config : Option α
  history : List α
  future : List α
  deriving DecidableEq, Repr

/-- `WorkflowConfig.save_history` (src/app.py:1971-1987): push the
current document onto the history when there is one and it differs from
the history head; the future is cleared only inside that branch. -/
def save_history {α : Type} [DecidableEq α] (s : Session α) : Session α :=
  match s.config with
  | none => s
  | some c =>
    if s.history = [] ∨ s.history.head? ≠ some c then
      { s with history := c :: s.history, future := [] }
    else s

/-- `WorkflowConfig.save_config` (src/app.py:1962-1969): save the
history, then store the freshly recomputed document. -/
def save_config {α : Type} [DecidableEq α] (d : α) (s : Session α) :
    Session α :=
  let s' := save_history s
  { s' with config := some d }

/-- `WorkflowConfig.undo` (src/app.py:2220-2236): the current document is
prepended to the future, then `history.pop(0)` is attempted - raising
IndexError on an empty history AFTER the future was already mutated.  A
missing current document raises KeyError before any mutation. -/
def undo {α : Type} (s : Session α) : Session α × Option String :=
  match s.config with
  | none => (s, some "KeyError: config")
  | some c =>
    let s1 := { s with future := c :: s.future }
    match s1.history with
    | [] => (s1, some "IndexError: pop from empty list")
    | hd :: t => ({ s1 with config := some hd, history := t }, none)

/-- `WorkflowConfig.redo` (src/app.py:2238-2253): the current document is
prepended to the history, then `future.pop(0)` is attempted - raising
IndexError on an empty future AFTER the history was already mutated. -/
def redo {α : Type} (s : Session α) : Session α × Option String :=
  match s.config with
  | none => (s, some "KeyError: config")
  | some c =>
    let s1 := { s with history := c :: s.history }
    match s1.future with
    | [] => (s1, some "IndexError: pop from empty list")
    | hd :: t => ({ s1 with config := some hd, future := t }, none)

/-- Session states reachable through the app's state-changing history
operations, starting from the fresh session.  Undo and redo are only
offered by the interface when their source stack is non-empty
(src/app.py:2194-2218), hence the guards. -/
inductive Reachable {α : Type} [DecidableEq α] : Session α → Prop where
  | init : Reachable ⟨none, [], []⟩
  | save {s : Session α} (d : α) : Reachable s → Reachable (save_config d s)
  | undo_step {s : Session α} (h : s.history ≠ []) :
      Reachable s → Reachable (undo s).1
  | redo_step {s : Session α} (h : s.future ≠ []) :
      Reachable s → Reachable (redo s).1

/-- Invariant of reachable session states: a missing document means a
fresh session; adjacent history snapshots differ; a non-empty future
means the history head differs from the current document; and the redo
chain (current document followed by the future, last entry dropped) has
pairwise-different adjacent entries. -/
def SessionInv {α : Type} [DecidableEq α] (s : Session α) : Prop :=
  (s.config = none → s.future = [] ∧ s.history = []) ∧
  List.Chain' (fun a b => a ≠ b) s.history ∧
  (s.future ≠ [] → s.history.head? ≠ s.config) ∧
  (∀ c, s.config = some c →
    List.Chain' (fun a b => a ≠ b) ((c :: s.future).dropLast))

theorem dropLast_cons_cons {α : Type} (a b : α) (l : List α) :
    (a :: b :: l).dropLast = a :: (b :: l).dropLast := rfl

theorem head?_dropLast_cons {α : Type} (a b : α) (l : List α) :
    ((a :: b :: l).dropLast).head? = some a := by
  rw [dropLast_cons_cons]
  rfl

theorem reachable_inv {α : Type} [DecidableEq α] {s : Session α}
    (hr : Reachable s) : SessionInv s := by
  induction hr with
  | init =>
    exact ⟨fun _ => ⟨rfl, rfl⟩, List.chain'_nil, fun h => absurd rfl h,
      fun c hc => by simp at hc⟩
  | save d hr ih =>
    obtain ⟨hA, hC, hB, hH⟩ := ih
    rename_i s
    match hcfg : s.config with
    | none =>
      obtain ⟨hf, hh⟩ := hA hcfg
      simp only [save_config, save_history, hcfg]
      refine ⟨fun h => by simp at h, hC, ?_, ?_⟩
      · intro hne
        simp [hf] at hne
      · intro c hc
        simp [hf]
    | some c =>
      by_cases hpush : s.history = [] ∨ s.history.head? ≠ some c
      · simp only [save_config, save_history, hcfg, if_pos hpush]
        refine ⟨fun h => by simp at h, ?_, fun hne => absurd rfl hne, ?_⟩
        · refine List.chain'_cons'.mpr ⟨?_, hC⟩
          intro y hy he
          rcases hpush with hp | hp
          · rw [hp] at hy
            simp at hy
          · exact hp (by rw [hy, he])
        · intro c' hc'
          simp
      · simp only [save_config, save_history, hcfg, if_neg hpush]
        push_neg at hpush
        obtain ⟨hne, hhead⟩ := hpush
        have hfut : s.future = [] := by
          by_contra hfne
          exact (hB hfne) (by rw [hhead, hcfg])
        refine ⟨fun h => by simp at h, hC, ?_, ?_⟩
        · intro hne'
          simp [hfut] at hne'
        · intro c' hc'
          simp [hfut]
  | undo_step hne hr ih =>
    obtain ⟨hA, hC, hB, hH⟩ := ih
    rename_i s
    match hcfg : s.config with
    | none => exact absurd (hA hcfg).2 hne
    | some c =>
      match hh : s.history with
      | [] => exact absurd hh hne
      | hd :: t =>
        simp only [undo, hcfg, hh]
        have hCt : List.Chain' (fun a b => a ≠ b) (hd :: t) := hh ▸ hC
        refine ⟨fun h => by simp at h, (List.chain'_cons'.mp hCt).2, ?_, ?_⟩
        · intro _
          cases ht : t with
          | nil => simp
          | cons t0 ts =>
            have := (List.chain'_cons'.mp (ht ▸ hCt)).1 t0 (by simp)
            simp only [List.head?_cons, ne_eq, Option.some.injEq]
            exact fun he => this (he.symm)
        · intro c' hc'
          simp only [Option.some.injEq] at hc'
          subst hc'
          cases hf : s.future with
          | nil => simp
          | cons f0 fs =>
            have hbc : (hd :: t).head? ≠ some c := by
              have := hB (by rw [hf]; simp)
              rwa [hh, hcfg] at this
            simp only [List.head?_cons, ne_eq, Option.some.injEq] at hbc
            have hHc := hH c hcfg
            rw [hf] at hHc
            rw [dropLast_cons_cons]
            refine List.chain'_cons'.mpr ⟨?_, hHc⟩
            intro y hy
            rw [head?_dropLast_cons] at hy
            simp only [Option.mem_def, Option.some.injEq] at hy
            subst hy
            exact fun he => hbc he
  | redo_step hne hr ih =>
    obtain ⟨hA, hC, hB, hH⟩ := ih
    rename_i s
    match hcfg : s.config with
    | none => exact absurd (hA hcfg).1 hne
    | some c =>
      match hf : s.future with
      | [] => exact absurd hf hne
      | f0 :: fs =>
        simp only [redo, hcfg, hf]
        have hbc : s.history.head? ≠ some c := by
          have := hB (by rw [hf]; simp)
          rwa [hcfg] at this
        have hHc := hH c hcfg
        rw [hf] at hHc
        refine ⟨fun h => by simp at h, ?_, ?_, ?_⟩
        · refine List.chain'_cons'.mpr ⟨?_, hC⟩
          intro y hy he
          exact hbc (by rw [hy, he])
        · intro hfs
          cases hfs2 : fs with
          | nil => simp [hfs2] at hfs
          | cons g0 gs =>
            rw [hfs2] at hHc
            rw [dropLast_cons_cons] at hHc
            have hcf : c ≠ f0 := by
              have := (List.chain'_cons'.mp hHc).1
              intro he
              exact this f0 (by simp [head?_dropLast_cons]) he
            simp only [List.head?_cons, ne_eq, Option.some.injEq]
            exact hcf
        · intro c' hc'
          simp only [Option.some.injEq] at hc'
          subst hc'
          simp only
          cases hfs2 : fs with
          | nil => simp
          | cons g0 gs =>
            rw [hfs2, dropLast_cons_cons] at hHc
            exact (List.chain'_cons'.mp hHc).2

/-- C5: for every accepted edit (a `save_config` from a reachable session
state with a current document), the current document is pushed onto the
past stack if and only if it differs structurally from the past stack's
head (an empty past counts as differing), and the future stack is empty
after the edit.  The latter holds even though `save_history` clears the
future only inside the push branch: in every reachable state where the
push is suppressed the future is already empty. -/
theorem save_config_push_and_clears_future {α : Type} [DecidableEq α]
    (s : Session α) (c d : α) (hr : Reachable s) (hc : s.config = some c) :
    ((save_config d s).history = c :: s.history ↔ s.history.head? ≠ some c) ∧
    ((save_config d s).history = s.history ↔ s.history.head? = some c) ∧
    (save_config d s).future = [] := by
  obtain ⟨hA, hC, hB, hH⟩ := reachable_inv hr
  by_cases hpush : s.history = [] ∨ s.history.head? ≠ some c
  · have hhead : s.history.head? ≠ some c := by
      rcases hpush with hp | hp
      · rw [hp]
        simp
      · exact hp
    have h1 : save_config d s =
        { config := some d, history := c :: s.history, future := [] } := by
      simp only [save_config, save_history, hc, if_pos hpush]
    rw [h1]
    exact ⟨⟨fun _ => hhead, fun _ => rfl⟩,
      ⟨fun h => absurd h (List.cons_ne_self _ _), fun h => absurd h hhead⟩,
      rfl⟩
  · push_neg at hpush
    obtain ⟨hne, hhead⟩ := hpush
    have hfut : s.future = [] := by
      by_contra hfne
      exact (hB hfne) (by rw [hhead, hc])
    have h1 : save_config d s =
        { config := some d, history := s.history, future := s.future } := by
      simp only [save_config, save_history, hc]
      rw [if_neg (by
        intro hor
        rcases hor with hor | hor
        · exact hne hor
        · exact hor hhead)]
    rw [h1]
    exact ⟨⟨fun h => absurd h.symm (List.cons_ne_self _ _),
        fun h => absurd hhead h⟩,
      ⟨fun _ => hhead, fun _ => rfl⟩, hfut⟩

theorem save_config_push_and_clears_future_witness :
    (Reachable (save_config (Json.str "a") ⟨none, [], []⟩) ∧
      (save_config (Json.str "a") ⟨none, [], []⟩).config =
        some (Json.str "a")) ∧
    (((save_config (Json.str "b")
          (save_config (Json.str "a") ⟨none, [], []⟩)).history =
        Json.str "a" ::
          (save_config (Json.str "a") ⟨none, [], []⟩).history ↔
      (save_config (Json.str "a") ⟨none, [], []⟩).history.head? ≠
        some (Json.str "a")) ∧
    ((save_config (Json.str "b")
          (save_config (Json.str "a") ⟨none, [], []⟩)).history =
        (save_config (Json.str "a") ⟨none, [], []⟩).history ↔
      (save_config (Json.str "a") ⟨none, [], []⟩).history.head? =
        some (Json.str "a")) ∧
    (save_config (Json.str "b")
        (save_config (Json.str "a") ⟨none, [], []⟩)).future = []) :=
  ⟨⟨Reachable.save _ Reachable.init, by decide⟩,
    save_config_push_and_clears_future _ _ (Json.str "b")
      (Reachable.save _ Reachable.init) (by decide)⟩

/-- Session with a current document but empty undo and redo stacks. -/
def emptyStacksSession : Session Json :=
  ⟨some (.str "doc"), [], []⟩

/-- C6 counterexample: undo with an empty past stack is not a reported
no-op - it raises (IndexError) after prepending the current document to
the future stack, so the state is changed; redo with an empty future
stack likewise raises after prepending the current document to the past
stack. -/
theorem undo_redo_empty_stack_cx :
    (undo emptyStacksSession).2 ≠ none ∧
    (undo emptyStacksSession).1 ≠ emptyStacksSession ∧
    (redo emptyStacksSession).2 ≠ none ∧
    (redo emptyStacksSession).1 ≠ emptyStacksSession := by
  decide

/-- C6 amended: undo invoked with an empty past stack raises IndexError
after the current document was already prepended to the future stack
(the current document itself is unchanged); redo invoked with an empty
future stack raises IndexError after the current document was already
prepended to the past stack.  The interface avoids both cases by hiding
the buttons when the source stack is empty. -/
theorem undo_redo_empty_stack_behavior {α : Type} (s : Session α) (c : α)
    (hc : s.config = some c) :
    (s.history = [] →
      undo s = ({ s with future := c :: s.future },
                 some "IndexError: pop from empty list")) ∧
    (s.future = [] →
      redo s = ({ s with history := c :: s.history },
                 some "IndexError: pop from empty list")) := by
  constructor
  · intro hh
    simp [undo, hc, hh]
  · intro hf
    simp [redo, hc, hf]

theorem undo_redo_empty_stack_behavior_witness :
    (emptyStacksSession.config = some (Json.str "doc") ∧
     emptyStacksSession.history = [] ∧ emptyStacksSession.future = []) ∧
    ((emptyStacksSession.history = [] →
      undo emptyStacksSession =
        ({ emptyStacksSession with
            future := Json.str "doc" :: emptyStacksSession.future },
         some "IndexError: pop from empty list")) ∧
    (emptyStacksSession.future = [] →
      redo emptyStacksSession =
        ({ emptyStacksSession with
            history := Json.str "doc" :: emptyStacksSession.history },
         some "IndexError: pop from empty list"))) :=
  ⟨⟨by decide, by decide, by decide⟩,
   undo_redo_empty_stack_behavior emptyStacksSession (Json.str "doc")
     (by decide)⟩

/-! ## Import of uploaded files (`WorkflowConfig.load_from_uploaded_files`)

`load_from_uploaded_files` (src/app.py:2272-2307) merges uploaded
artifact files into the current session document.  The `config` local is
the session's own dict (aliased) when one exists, so merges performed
before a failing file persist in the session even though the final
assignment is skipped.  When no document exists yet, a fresh
`empty_config` copy is used and discarded on error.
-/

/-- `s.endswith(suf)` -/
def pyEndsWith (s suf : String) : Bool :=
  suf.data.isSuffixOf s.data

/-- `s[:-n]` for a non-negative count. -/
def pyDropRight (s : String) (n : Nat) : String :=
  String.mk (s.data.take (s.data.length - n))

/-- `WorkflowConfig.empty_config` (src/app.py:1989-2005). -/
def empty_config : Json :=
  .obj [("dynamo", .obj [("code", .obj [])]),
        ("form", .obj [("form", .obj []), ("ui", .obj [])]),
        ("input", .obj []),
        ("output", .obj []),
        ("compute", .str ""),
        ("preprocess", .str "")]

/-- One uploaded file: its name, its text (`file.read().decode()`), and
its parsed content (`json.load(file)`, `none` when not valid JSON). -/
structure UploadedFile where
  name : String
  text : String
  parsed : Option Json
  deriving DecidableEq, Repr

/-- The assertion message raised for an unexpected upload name. -/
def errUpload (f : UploadedFile) : String :=
  "AssertionError: Did not expect input: " ++ f.name

/-- The body of the upload loop for a single file: either merge one
section (returning the updated document and `modified := true`), ignore
the file (a `process-*` name that is neither the compute config nor a
`.json` file falls through every branch), or fail. -/
def import_one (config : Json) (f : UploadedFile) :
    Except String (Json × Bool) :=
  if pyStartsWith f.name "process-" = false then
    if f.name = "preprocess.py" then
      .ok (jset config "preprocess" (.str f.text), true)
    else .error (errUpload f)
  else if f.name = "process-compute.config" then
    .ok (jset config "compute" (.str f.text), true)
  else if pyEndsWith f.name ".json" then
    let key := pyDropRight (pyDrop f.name 8) 5
    if key = "dynamo" ∨ key = "form" ∨ key = "input" ∨ key = "output" then
      match f.parsed with
      | some j => .ok (jset config key j, true)
      | none => .error "JSONDecodeError"
    else .error (errUpload f)
  else .ok (config, false)

/-- The upload loop: files are merged left to right; the first failing
file stops the loop, leaving the merges performed so far in place. -/
def import_files : Json → Bool → List UploadedFile →
    Json × Bool × Option String
  | c, m, [] => (c, m, none)
  | c, m, f :: fs =>
    match import_one c f with
    | .ok (c', m') => import_files c' (m || m') fs
    | .error e => (c, m, some e)

/-- `WorkflowConfig.load_from_uploaded_files`: returns the session
document after the import attempt together with the raised error, if
any.  When the session already holds a document the loop mutates that
very dict, so on error the partially merged document remains the session
document; when it does not, the scratch copy is discarded and nothing
changes. -/
def load_from_uploaded_files (session : Option Json)
    (files : List UploadedFile) : Option Json × Option String :=
  let c0 := session.getD empty_config
  let r := import_files c0 false files
  match r.2.2 with
  | some e => (if session.isSome then some r.1 else session, some e)
  | none => (if r.2.1 then some r.1 else session, none)

/-- Recognized artifact names that merge a section (with parseable JSON
where needed). -/
def GoodUploadB (f : UploadedFile) : Bool :=
  f.name = "preprocess.py" || f.name = "process-compute.config" ||
    ((f.name = "process-dynamo.json" || f.name = "process-form.json" ||
      f.name = "process-input.json" || f.name = "process-output.json") &&
     f.parsed.isSome)

/-- Names the import loop rejects with an assertion error: a name that
does not start with `process-` and is not `preprocess.py`, or a
`process-*.json` whose middle part is not a recognized section. -/
def BadUploadB (f : UploadedFile) : Bool :=
  (pyStartsWith f.name "process-" = false && f.name ≠ "preprocess.py") ||
  (pyStartsWith f.name "process-" && f.name ≠ "process-compute.config" &&
   pyEndsWith f.name ".json" &&
   ¬(pyDropRight (pyDrop f.name 8) 5 = "dynamo" ∨
     pyDropRight (pyDrop f.name 8) 5 = "form" ∨
     pyDropRight (pyDrop f.name 8) 5 = "input" ∨
     pyDropRight (pyDrop f.name 8) 5 = "output"))

theorem good_import_one (c : Json) (f : UploadedFile)
    (h : GoodUploadB f = true) : ∃ c' m', import_one c f = .ok (c', m') := by
  simp only [GoodUploadB, Bool.or_eq_true, Bool.and_eq_true,
    decide_eq_true_eq] at h
  rcases h with (h | h) | ⟨hn, hp⟩
  · rw [import_one, h]
    exact ⟨_, _, rfl⟩
  · rw [import_one, h]
    exact ⟨_, _, rfl⟩
  · obtain ⟨j, hj⟩ := Option.isSome_iff_exists.mp hp
    rcases hn with ((h | h) | h) | h <;> rw [import_one, h, hj] <;>
      exact ⟨_, _, rfl⟩

theorem good_import_files_no_error (files : List UploadedFile) :
    ∀ (c : Json) (m : Bool), (∀ f ∈ files, GoodUploadB f = true) →
      (import_files c m files).2.2 = none := by
  induction files with
  | nil => intro c m _; rfl
  | cons f fs ih =>
    intro c m hall
    obtain ⟨c', m', hone⟩ := good_import_one c f (hall f (by simp))
    simp only [import_files, hone]
    exact ih c' (m || m') (fun g hg => hall g (by simp [hg]))

theorem bad_import_one (c : Json) (f : UploadedFile)
    (h : BadUploadB f = true) : import_one c f = .error (errUpload f) := by
  simp only [BadUploadB, Bool.or_eq_true, Bool.and_eq_true,
    decide_eq_true_eq] at h
  rcases h with ⟨h1, h2⟩ | ⟨⟨⟨h1, h2⟩, h3⟩, h4⟩
  · rw [import_one, h1, if_neg h2]
    rfl
  · rw [import_one, h1]
    rw [if_neg (by simp), if_neg h2, h3, if_pos rfl, if_neg h4]

theorem import_files_stops_at_bad (f : UploadedFile) (rest : List UploadedFile)
    (hf : BadUploadB f = true) :
    ∀ (pre : List UploadedFile) (c : Json) (m : Bool),
      (∀ g ∈ pre, GoodUploadB g = true) →
      import_files c m (pre ++ f :: rest) =
        ((import_files c m pre).1, (import_files c m pre).2.1,
          some (errUpload f)) := by
  intro pre
  induction pre with
  | nil =>
    intro c m _
    simp only [List.nil_append, import_files, bad_import_one c f hf]
  | cons g gs ih =>
    intro c m hall
    obtain ⟨c', m', hone⟩ := good_import_one c g (hall g (by simp))
    simp only [List.cons_append, import_files, hone]
    exact ih c' (m || m') (fun x hx => hall x (by simp [hx]))

/-- C4 amended: a batch of recognized artifact names (subset of the six,
with parseable JSON) imports without error; a `process-*` name that is
neither `process-compute.config` nor a `.json` file is silently ignored
(not rejected); and a batch containing a rejected name fails at that
file with the merges of the preceding files already applied to the
session document (partial merge, because the loop mutates the session's
own dict). -/
theorem load_from_uploaded_files_behavior :
    (∀ (d : Json) (files : List UploadedFile),
      (∀ f ∈ files, GoodUploadB f = true) →
      (load_from_uploaded_files (some d) files).2 = none) ∧
    (∀ (c : Json) (f : UploadedFile),
      pyStartsWith f.name "process-" = true →
      f.name ≠ "process-compute.config" →
      pyEndsWith f.name ".json" = false →
      import_one c f = .ok (c, false)) ∧
    (∀ (d : Json) (pre : List UploadedFile) (f : UploadedFile)
        (rest : List UploadedFile),
      (∀ g ∈ pre, GoodUploadB g = true) →
      BadUploadB f = true →
      load_from_uploaded_files (some d) (pre ++ f :: rest) =
        (some (import_files d false pre).1, some (errUpload f))) := by
  refine ⟨?_, ?_, ?_⟩
  · intro d files hall
    simp only [load_from_uploaded_files, Option.getD_some]
    rw [good_import_files_no_error files d false hall]
  · intro c f h1 h2 h3
    rw [import_one, h1]
    rw [if_neg (by simp), if_neg h2, h3, if_neg (by simp)]
  · intro d pre f rest hall hf
    simp only [load_from_uploaded_files, Option.getD_some]
    rw [import_files_stops_at_bad f rest hf pre d false hall]
    rfl

/-- A stray upload name that matches no recognized artifact name but is
silently ignored by the import loop. -/
def strayUpload : UploadedFile := ⟨"process-notes.txt", "x", none⟩

/-- C4 counterexample: a batch containing only `process-notes.txt` - a
file whose name matches none of the six recognized artifact names - is
NOT rejected: the import returns without error (and without merging
anything), contradicting the claim that any unrecognized name is a fatal
input error for the whole batch. -/
theorem import_unrecognized_name_not_rejected :
    load_from_uploaded_files (some empty_config) [strayUpload] =
      (some empty_config, none) := by
  decide

theorem load_from_uploaded_files_behavior_witness :
    ((∀ f ∈ [(⟨"process-input.json", "", some (.obj [])⟩ : UploadedFile)],
        GoodUploadB f = true) ∧
      (load_from_uploaded_files (some empty_config)
        [⟨"process-input.json", "", some (.obj [])⟩]).2 = none) ∧
    (pyStartsWith strayUpload.name "process-" = true ∧
      strayUpload.name ≠ "process-compute.config" ∧
      pyEndsWith strayUpload.name ".json" = false ∧
      import_one empty_config strayUpload = .ok (empty_config, false)) ∧
    (BadUploadB (⟨"bad.txt", "", none⟩ : UploadedFile) = true ∧
      load_from_uploaded_files (some empty_config)
          ([⟨"process-input.json", "", some (.obj [])⟩] ++
            (⟨"bad.txt", "", none⟩ : UploadedFile) :: []) =
        (some (import_files empty_config false
            [⟨"process-input.json", "", some (.obj [])⟩]).1,
          some (errUpload ⟨"bad.txt", "", none⟩))) :=
  ⟨⟨by decide,
    load_from_uploaded_files_behavior.1 empty_config _ (by decide)⟩,
   ⟨by decide, by decide, by decide,
    load_from_uploaded_files_behavior.2.1 empty_config strayUpload
      (by decide) (by decide) (by decide)⟩,
   ⟨by decide,
    load_from_uploaded_files_behavior.2.2 empty_config _ _ []
      (by decide) (by decide)⟩⟩

/-! ## Form element traversal (`Param.get_form_element`) -/

theorem setA_lookup_self (fs : List (String × Json)) (k : String) (v : Json) :
    (setA fs k v).lookup k = some v := by
  induction fs with
  | nil => simp [setA, List.lookup]
  | cons p rest ih =>
    by_cases h : p.1 = k
    · simp [setA, h, List.lookup]
    · have hb : (k == p.1) = false := beq_eq_false_iff_ne.mpr (Ne.symm h)
      simp only [setA, if_neg h, List.lookup, hb]
      exact ih

theorem setA_lookup_ne (fs : List (String × Json)) (k k' : String) (v : Json)
    (h : k' ≠ k) : (setA fs k v).lookup k' = fs.lookup k' := by
  have hb : (k' == k) = false := beq_eq_false_iff_ne.mpr h
  induction fs with
  | nil => simp [setA, List.lookup, hb]
  | cons p rest ih =>
    by_cases hp : p.1 = k
    · have hb2 : (k' == p.1) = false := beq_eq_false_iff_ne.mpr (by
        intro he
        exact h (by rw [he, hp]))
      simp [setA, hp, List.lookup, hb, hb2]
    · simp only [setA, if_neg hp, List.lookup]
      cases hk : k' == p.1 <;> simp [ih]

theorem setA_setA_same (fs : List (String × Json)) (k : String) (v w : Json) :
    setA (setA fs k v) k w = setA fs k w := by
  induction fs with
  | nil => simp [setA]
  | cons p rest ih =>
    by_cases hp : p.1 = k
    · simp [setA, hp]
    · simp [setA, hp, ih]

theorem jget_jset_self (fs : List (String × Json)) (k : String) (v : Json) :
    jget (jset (.obj fs) k v) k = some v := by
  simp [jget, jset, setA_lookup_self]

theorem jget_jset_ne (f : Json) (k k' : String) (v : Json) (h : k' ≠ k) :
    jget (jset f k v) k' = jget f k' := by
  cases f <;> simp [jget, jset]
  exact setA_lookup_ne _ _ _ _ h

theorem jset_jset_same (f : Json) (k : String) (v w : Json) :
    jset (jset f k v) k w = jset f k w := by
  cases f <;> simp [jset]
  exact setA_setA_same _ _ _ _

theorem jget_some_obj {f : Json} {k : String} {v : Json}
    (h : jget f k = some v) : ∃ fs, f = .obj fs := by
  cases f <;> simp [jget] at h
  exact ⟨_, rfl⟩

/-- `{kw: val for kw, val in form.items() if kw != "properties"}` -/
def strip_properties (form : Json) : Except String Json :=
  match form with
  | .obj fs => .ok (.obj (fs.filter (fun p => p.1 ≠ "properties")))
  | _ => .error "AttributeError: items"

/-- The default string leaf synthesized for a missing terminal path
segment (src/app.py:708-712). -/
def synth_leaf (kw : String) : Json :=
  .obj [("type", .str "string"), ("default", .str kw), ("title", .str kw)]

/-- The object node synthesized for a missing internal path segment
(src/app.py:718-721). -/
def synth_object : Json :=
  .obj [("properties", .obj []), ("type", .str "object")]

/-- The traversal loop of `Param.get_form_element` (src/app.py:696-729):
at each segment read `form["properties"]` (KeyError when absent),
synthesize the segment's node when missing (a string leaf at the
terminal position of the full form key, an object node otherwise),
descend, and finally return the addressed node stripped of its
`properties` entry.  The tree is threaded functionally; Python mutates
it in place. -/
def get_form_element_go (formKeyLen pathLen : Nat) :
    Nat → Json → List String → Except String (Json × Json)
  | _, form, [] => do
    let stripped ← strip_properties form
    .ok (form, stripped)
  | ix, form, kw :: rest => do
    let props ← match jget form "properties" with
      | some p => .ok p
      | none => .error "KeyError: properties"
    let props ← match props with
      | .obj pf => .ok (Json.obj pf)
      | _ => .error "TypeError: membership test on a non-container"
    let props :=
      if jhas props kw then props
      else if pathLen = formKeyLen ∧ ix = pathLen - 1 then
        jset props kw (synth_leaf kw)
      else jset props kw synth_object
    let child := jgetD props kw .null
    let (child', elem) ←
      get_form_element_go formKeyLen pathLen (ix + 1) child rest
    .ok (jset form "properties" (jset props kw child'), elem)

/-- `Param.get_form_element` itself: resolve `param_config["form"]["form"]`
and run the traversal, writing the possibly extended tree back. -/
def get_form_element (formKeyLen : Nat) (param_config : Json)
    (path : List String) : Except String (Json × Json) := do
  let form ← match jget param_config "form" with
    | some v => .ok v
    | none => .error "KeyError: form"
  let ff ← match jget form "form" with
    | some v => .ok v
    | none => .error "KeyError: form"
  let (ff', elem) ←
    get_form_element_go formKeyLen path.length 0 ff path
  .ok (jset param_config "form" (jset form "form" ff'), elem)

/-- Precondition for a raise-free traversal: every node that already
exists along the path (the root included) carries a dict `properties`
entry, and the addressed node, when it already exists, is a dict.
Missing nodes need nothing - they are synthesized. -/
def formPathOkB : Json → List String → Bool
  | form, [] =>
    match form with
    | .obj _ => true
    | _ => false
  | form, kw :: rest =>
    match jget form "properties" with
    | some (.obj pf) =>
      match pf.lookup kw with
      | some child => formPathOkB child rest
      | none => true
    | _ => false

/-- Sibling preservation along a path: at every traversed level the
non-`properties` fields and the sibling entries of `properties` are
unchanged, and the traversal continues below the path entry when it
already existed. -/
def PreservesSiblings : Json → Json → List String → Prop
  | _, _, [] => True
  | f, f', kw :: rest =>
    (∀ k, k ≠ "properties" → jget f' k = jget f k) ∧
    (∀ k, k ≠ kw → jget (jgetD f' "properties" (.obj [])) k =
                   jget (jgetD f "properties" (.obj [])) k) ∧
    (∀ child child',
      jget (jgetD f "properties" (.obj [])) kw = some child →
      jget (jgetD f' "properties" (.obj [])) kw = some child' →
      PreservesSiblings child child' rest)

/-- Synthesis specification along a path: every path segment exists in
the resulting tree; a segment that already existed is traversed further;
a missing terminal segment (of the full form-key path) becomes the
default string leaf; any other missing segment becomes an object node
under which the traversal continues as from a fresh object node. -/
def SynthesizedOk (formKeyLen pathLen : Nat) :
    Nat → Json → Json → List String → Prop
  | _, _, _, [] => True
  | ix, f, f', kw :: rest =>
    ∃ child', jget (jgetD f' "properties" (.obj [])) kw = some child' ∧
      (match jget (jgetD f "properties" (.obj [])) kw with
       | some child =>
         SynthesizedOk formKeyLen pathLen (ix + 1) child child' rest
       | none =>
         if pathLen = formKeyLen ∧ ix = pathLen - 1 then
           child' = synth_leaf kw
         else
           (∃ props, child' = .obj [("properties", props),
                                    ("type", .str "object")]) ∧
           SynthesizedOk formKeyLen pathLen (ix + 1) synth_object child' rest)


@[simp] theorem jgetD_def (f : Json) (k : String) (d : Json) :
    jgetD f k d = (jget f k).getD d := rfl

theorem go_cons_step (formKeyLen pathLen ix : Nat) (kw : String)
    (rest : List String) (fs pf : List (String × Json))
    (hpf : jget (.obj fs) "properties" = some (.obj pf)) :
    get_form_element_go formKeyLen pathLen ix (.obj fs) (kw :: rest) =
      (get_form_element_go formKeyLen pathLen (ix + 1)
        (jgetD (if jhas (.obj pf) kw then (.obj pf)
                else if pathLen = formKeyLen ∧ ix = pathLen - 1 then
                  jset (.obj pf) kw (synth_leaf kw)
                else jset (.obj pf) kw synth_object) kw .null) rest).bind
        (fun p => .ok (jset (.obj fs) "properties"
          (jset (if jhas (.obj pf) kw then (.obj pf)
                 else if pathLen = formKeyLen ∧ ix = pathLen - 1 then
                   jset (.obj pf) kw (synth_leaf kw)
                 else jset (.obj pf) kw synth_object) kw p.1), p.2)) := by
  simp only [get_form_element_go, hpf, except_ok_bind]
  rfl

theorem get_form_element_go_spec (formKeyLen pathLen : Nat) :
    ∀ (path : List String) (ix : Nat) (f : Json),
      ix + path.length = pathLen →
      formPathOkB f path = true →
      ∃ f' elem,
        get_form_element_go formKeyLen pathLen ix f path = .ok (f', elem) ∧
        (path ≠ [] → ∃ X, f' = jset f "properties" X) ∧
        PreservesSiblings f f' path ∧
        SynthesizedOk formKeyLen pathLen ix f f' path := by
  intro path
  induction path with
  | nil =>
    intro ix f hlen hwf
    match f, hwf with
    | .obj fs, _ =>
      exact ⟨.obj fs, .obj (fs.filter (fun p => p.1 ≠ "properties")),
        by simp [get_form_element_go, strip_properties],
        fun h => absurd rfl h, trivial, trivial⟩
  | cons kw rest ih =>
    intro ix f hlen hwf
    match hpf : jget f "properties" with
    | none => simp [formPathOkB, hpf] at hwf
    | some .null => simp [formPathOkB, hpf] at hwf
    | some (.bool b) => simp [formPathOkB, hpf] at hwf
    | some (.num n) => simp [formPathOkB, hpf] at hwf
    | some (.str s) => simp [formPathOkB, hpf] at hwf
    | some (.arr l) => simp [formPathOkB, hpf] at hwf
    | some (.obj pf) =>
      obtain ⟨fs, hf⟩ := jget_some_obj hpf
      subst hf
      match hc : pf.lookup kw with
      | some child =>
        have hwf' : formPathOkB child rest = true := by
          simpa [formPathOkB, hpf, hc] using hwf
        obtain ⟨child', elem, hgo, _, hps, hsy⟩ :=
          ih (ix + 1) child (by simp at hlen; omega) hwf'
        have hhas : jhas (.obj pf) kw = true := by simp [jhas, jget, hc]
        have hjp : jget (.obj pf) kw = some child := by simp [jget, hc]
        have hstep : get_form_element_go formKeyLen pathLen ix
            (.obj fs) (kw :: rest) =
            .ok (jset (.obj fs) "properties" (jset (.obj pf) kw child'),
                 elem) := by
          simp [get_form_element_go, hpf, hhas, hjp, hgo]
        refine ⟨_, _, hstep, fun _ => ⟨_, rfl⟩, ?_, ?_⟩
        · refine ⟨fun k hk => jget_jset_ne _ _ _ _ hk, fun k hk => ?_, ?_⟩
          · simp only [jgetD_def, jget_jset_self, Option.getD_some, hpf,
              jget_jset_ne _ _ _ _ hk]
          · intro c c' h1 h2
            simp only [jgetD_def, hpf, Option.getD_some, hjp,
              Option.some.injEq] at h1
            simp only [jgetD_def, jget_jset_self, Option.getD_some,
              jget_jset_self, Option.some.injEq] at h2
            rw [← h1, ← h2]
            exact hps
        · refine ⟨child', ?_, ?_⟩
          · simp only [jgetD_def, jget_jset_self, Option.getD_some,
              jget_jset_self]
          · simp only [jgetD_def, hpf, Option.getD_some, hjp]
            exact hsy
      | none =>
        have hhas : jhas (.obj pf) kw = false := by simp [jhas, jget, hc]
        have hjp : jget (.obj pf) kw = none := by simp [jget, hc]
        match rest, hlen with
        | [], hlen =>
          have hix : ix = pathLen - 1 := by simp at hlen; omega
          by_cases hfk : pathLen = formKeyLen
          · have hcond : pathLen = formKeyLen ∧ ix = pathLen - 1 :=
              ⟨hfk, hix⟩
            have hstep : get_form_element_go formKeyLen pathLen ix
                (.obj fs) [kw] =
                .ok (jset (.obj fs) "properties"
                      (jset (.obj pf) kw (synth_leaf kw)), synth_leaf kw) := by
              simp [get_form_element_go, hpf, hhas, if_pos hcond,
                jget_jset_self, jset_jset_same, strip_properties, synth_leaf]
            refine ⟨_, _, hstep, fun _ => ⟨_, rfl⟩, ?_, ?_⟩
            · refine ⟨fun k hk => jget_jset_ne _ _ _ _ hk, fun k hk => ?_, ?_⟩
              · simp only [jgetD_def, jget_jset_self, Option.getD_some, hpf,
                  jget_jset_ne _ _ _ _ hk]
              · intro c c' h1 _
                simp only [jgetD_def, hpf, Option.getD_some, hjp] at h1
                exact absurd h1 (by simp)
            · refine ⟨synth_leaf kw, ?_, ?_⟩
              · simp only [jgetD_def, jget_jset_self, Option.getD_some]
              · simp only [jgetD_def, hpf, Option.getD_some, hjp,
                  if_pos hcond]
          · have hterm : ¬(pathLen = formKeyLen ∧ ix = pathLen - 1) := by
              intro hh
              exact hfk hh.1
            have hstep : get_form_element_go formKeyLen pathLen ix
                (.obj fs) [kw] =
                .ok (jset (.obj fs) "properties"
                      (jset (.obj pf) kw synth_object),
                     .obj [("type", .str "object")]) := by
              simp [get_form_element_go, hpf, hhas, if_neg hterm,
                jget_jset_self, jset_jset_same, strip_properties,
                synth_object]
            refine ⟨_, _, hstep, fun _ => ⟨_, rfl⟩, ?_, ?_⟩
            · refine ⟨fun k hk => jget_jset_ne _ _ _ _ hk, fun k hk => ?_, ?_⟩
              · simp only [jgetD_def, jget_jset_self, Option.getD_some, hpf,
                  jget_jset_ne _ _ _ _ hk]
              · intro c c' h1 _
                simp only [jgetD_def, hpf, Option.getD_some, hjp] at h1
                exact absurd h1 (by simp)
            · refine ⟨synth_object, ?_, ?_⟩
              · simp only [jgetD_def, jget_jset_self, Option.getD_some]
              · simp only [jgetD_def, hpf, Option.getD_some, hjp,
                  if_neg hterm]
                exact ⟨⟨.obj [], rfl⟩, trivial⟩
        | r :: rs, hlen =>
          have hterm : ¬(pathLen = formKeyLen ∧ ix = pathLen - 1) := by
            rintro ⟨-, h2⟩
            simp at hlen
            omega
          have hwfsc : formPathOkB synth_object (r :: rs) = true := by
            simp [formPathOkB, synth_object, jget, List.lookup]
          obtain ⟨child', elem, hgo, hX, hps, hsy⟩ :=
            ih (ix + 1) synth_object (by simp at hlen ⊢; omega) hwfsc
          have hstep : get_form_element_go formKeyLen pathLen ix
              (.obj fs) (kw :: r :: rs) =
              .ok (jset (.obj fs) "properties"
                    (jset (.obj pf) kw child'), elem) := by
            rw [go_cons_step formKeyLen pathLen ix kw (r :: rs) fs pf hpf]
            simp only [hhas, Bool.false_eq_true, if_false, if_neg hterm,
              jgetD_def, jget_jset_self, Option.getD_some, hgo,
              except_ok_bind, jset_jset_same]
            rfl
          refine ⟨_, _, hstep, fun _ => ⟨_, rfl⟩, ?_, ?_⟩
          · refine ⟨fun k hk => jget_jset_ne _ _ _ _ hk, fun k hk => ?_, ?_⟩
            · simp only [jgetD_def, jget_jset_self, Option.getD_some, hpf,
                jget_jset_ne _ _ _ _ hk]
            · intro c c' h1 _
              simp only [jgetD_def, hpf, Option.getD_some, hjp] at h1
              exact absurd h1 (by simp)
          · refine ⟨child', ?_, ?_⟩
            · simp only [jgetD_def, jget_jset_self, Option.getD_some]
            · simp only [jgetD_def, hpf, Option.getD_some, hjp,
                if_neg hterm]
              refine ⟨?_, hsy⟩
              obtain ⟨X, hXeq⟩ := hX (by simp)
              refine ⟨X, ?_⟩
              rw [hXeq]
              simp [jset, synth_object, setA]

/-- C7 amended: provided every node that already exists along the path
(the root form node included) carries a dict `properties` entry and the
addressed node, when present, is a dict, traversal never raises: each
missing internal path segment is synthesized as an object node, a
missing terminal segment of the full form key is synthesized as a string
leaf with the segment text as its derived default and title, and
previously existing sibling content is preserved at every level.
Without that proviso the traversal can raise (see
`get_form_element_missing_properties_raises`). -/
theorem get_form_element_safe (formKeyLen : Nat) (cfg form ff : Json)
    (path : List String)
    (hform : jget cfg "form" = some form)
    (hff : jget form "form" = some ff)
    (hwf : formPathOkB ff path = true) :
    ∃ ff' elem,
      get_form_element formKeyLen cfg path =
        .ok (jset cfg "form" (jset form "form" ff'), elem) ∧
      PreservesSiblings ff ff' path ∧
      SynthesizedOk formKeyLen path.length 0 ff ff' path := by
  obtain ⟨ff', elem, hgo, _, hps, hsy⟩ :=
    get_form_element_go_spec formKeyLen path.length path 0 ff
      (by simp) hwf
  refine ⟨ff', elem, ?_, hps, hsy⟩
  simp only [get_form_element, hform, hff, except_ok_bind, hgo]

/-- C7 counterexample: on the default empty document (whose form tree is
the empty dict, without a `properties` entry) the traversal of
`Param.get_form_element` raises a KeyError instead of synthesizing the
missing node - the claim that path traversal never raises is false. -/
theorem get_form_element_missing_properties_raises :
    get_form_element 1 empty_config ["x"] =
      .error "KeyError: properties" := by
  decide

/-- Document whose (form) tree is an empty but well-formed properties
dict. -/
def c7doc : Json :=
  .obj [("form", .obj [("form", .obj [("properties", .obj [])]),
                       ("ui", .obj [])])]

theorem get_form_element_safe_witness :
    (jget c7doc "form" =
        some (.obj [("form", .obj [("properties", .obj [])]),
                    ("ui", .obj [])]) ∧
     jget (.obj [("form", .obj [("properties", .obj [])]),
                 ("ui", .obj [])]) "form" =
        some (.obj [("properties", .obj [])]) ∧
     formPathOkB (.obj [("properties", .obj [])]) ["x"] = true) ∧
    (∃ ff' elem,
      get_form_element 1 c7doc ["x"] =
        .ok (jset c7doc "form"
          (jset (.obj [("form", .obj [("properties", .obj [])]),
                       ("ui", .obj [])]) "form" ff'), elem) ∧
      PreservesSiblings (.obj [("properties", .obj [])]) ff' ["x"] ∧
      SynthesizedOk 1 (["x"] : List String).length 0
        (.obj [("properties", .obj [])]) ff' ["x"]) :=
  ⟨⟨by decide, by decide, by decide⟩,
   get_form_element_safe 1 c7doc _ _ ["x"] (by decide) (by decide)
     (by decide)⟩

/-! ## Source element (`SourceConfig`) -/

/-- State of `SourceConfig`: the seven `root_kwargs` attributes and the
four `code_kwargs` attributes. -/
structure SourceState where
  id : Json
  name : Json
  desc : Json
  executor : Json
  documentationUrl : Json
  childProcessIds : Json
  parentProcessIds : Json
  repository : Json
  script : Json
  uri : Json
  version : Json
  deriving DecidableEq, Repr

/-- The defaults installed by `SourceConfig.__init__` (src/app.py:298-315). -/
def default_source : SourceState :=
  { id := .str "unique-workflow-id"
    name := .str "My Workflow Name"
    desc := .str "Description of my workflow"
    executor := .str "NEXTFLOW"
    documentationUrl := .str ""
    childProcessIds := .arr []
    parentProcessIds := .arr []
    repository := .str "GITHUBPUBLIC"
    script := .str "main.nf"
    uri := .str "organization/repository_name"
    version := .str "main" }

/-- `SourceConfig.load` (src/app.py:317-332): read every attribute from
`config["dynamo"]` / `config["dynamo"]["code"]`, defaulting each one. -/
def load_source (config : Json) : Except String SourceState := do
  let dyn ← pyGetAttr config "dynamo" (.obj [])
  let code ← pyGetAttr dyn "code" (.obj [])
  .ok { id := jgetD dyn "id" default_source.id
        name := jgetD dyn "name" default_source.name
        desc := jgetD dyn "desc" default_source.desc
        executor := jgetD dyn "executor" default_source.executor
        documentationUrl :=
          jgetD dyn "documentationUrl" default_source.documentationUrl
        childProcessIds :=
          jgetD dyn "childProcessIds" default_source.childProcessIds
        parentProcessIds :=
          jgetD dyn "parentProcessIds" default_source.parentProcessIds
        repository := jgetD code "repository" default_source.repository
        script := jgetD code "script" default_source.script
        uri := jgetD code "uri" default_source.uri
        version := jgetD code "version" default_source.version }

/-- `SourceConfig.dump` (src/app.py:334-345): write every attribute into
`config["dynamo"]`, upper-casing the executor, and the code attributes
into `config["dynamo"]["code"]`. -/
def dump_source (s : SourceState) (config : Json) : Except String Json := do
  let dyn ← match jget config "dynamo" with
    | some d => .ok d
    | none => .error "KeyError: dynamo"
  let ex ← match s.executor with
    | .str e => .ok (Json.str (pyUpper e))
    | _ => .error "AttributeError: upper"
  let dyn := jset dyn "id" s.id
  let dyn := jset dyn "name" s.name
  let dyn := jset dyn "desc" s.desc
  let dyn := jset dyn "executor" ex
  let dyn := jset dyn "documentationUrl" s.documentationUrl
  let dyn := jset dyn "childProcessIds" s.childProcessIds
  let dyn := jset dyn "parentProcessIds" s.parentProcessIds
  let code ← match jget dyn "code" with
    | some c => .ok c
    | none => .error "KeyError: code"
  let code := jset code "repository" s.repository
  let code := jset code "script" s.script
  let code := jset code "uri" s.uri
  let code := jset code "version" s.version
  .ok (jset config "dynamo" (jset dyn "code" code))

/-! ## Parameter element (`Param`, `ParamsConfig`) -/

/-- The four options of `Param.form_type_options`. -/
inductive FormType where
  | cirroDataset
  | inputFile
  | cirroReference
  | userProvidedValue
  deriving DecidableEq, Repr

/-- State of one `Param`.  Optional fields model attributes that may be
absent from the Python object's `__dict__`. -/
structure ParamState where
  id : String
  value : Json
  input_type : InputType
  form_key : Option (List String)
  form_elements : Option (List (String × Json))
  form_type : Option FormType
  reference_id : Option String
  reference_file : Option String
  deleted : Bool
  deriving DecidableEq, Repr

/-- One reference type of the data catalog (name, storage directory and
the `saveAs` names of its validated files), the part of
`list_references()` that `Param` consumes. -/
structure RefEntry where
  name : String
  directory : String
  validation : List String
  deriving DecidableEq, Repr

/-- `Param.get_form_element` applied to every prefix of the form key in
order (the dict comprehension of src/app.py:642-650), threading the
document mutations. -/
def build_form_elements (formKeyLen : Nat) :
    List (List String) → Json → Except String (List (String × Json) × Json)
  | [], config => .ok ([], config)
  | pre :: rest, config => do
    let (config', elem) ← get_form_element formKeyLen config pre
    let (fes, config'') ← build_form_elements formKeyLen rest config'
    .ok ((joinDot pre, elem) :: fes, config'')

/-- The list of prefixes `form_key[:(i+1)]` for `i in range(len(fk))`. -/
def key_prefixes (fk : List String) : List (List String) :=
  (List.range fk.length).map (fun i => fk.take (i + 1))

/-- `Param.__init__` (src/app.py:615-690) for the parameter `kw` of the
given document: classify the binding expression, build the form elements
for a Form Entry (synthesizing missing nodes into the document), resolve
the form type, and parse reference id and file for a Cirro Reference.
Returns the parameter state and the possibly extended document. -/
def load_param (kw : String) (config : Json) :
    Except String (ParamState × Json) := do
  let inputSec ← match jget config "input" with
    | some v => .ok v
    | none => .error "KeyError: input"
  let v ← match jget inputSec kw with
    | some v => .ok v
    | none => .error "KeyError: param value"
  let base : ParamState :=
    { id := kw, value := v, input_type := .hardcodedValue,
      form_key := none, form_elements := none, form_type := none,
      reference_id := none, reference_file := none, deleted := false }
  if v = .str outputDirectoryValue then
    .ok ({ base with input_type := .outputDirectory }, config)
  else if v = .str inputDirectoryValue then
    .ok ({ base with input_type := .inputDirectory }, config)
  else if v = .str datasetNameValue then
    .ok ({ base with input_type := .datasetName }, config)
  else
    match v with
    | .str s =>
      if pyStartsWith s paramJsonMarker then do
        let fk := splitOnChar '.' (pyDrop s 27).data
        let (fes, config) ←
          build_form_elements fk.length (key_prefixes fk) config
        let fcEl ← match fes.lookup (joinDot fk) with
          | some e => .ok e
          | none => .error "KeyError: form_config"
        if jget fcEl "pathType" = some (.str "dataset") then
          if jhas fcEl "process" then
            .ok ({ base with
                    input_type := .formEntry
                    form_key := some fk
                    form_elements := some fes
                    form_type := some .cirroDataset }, config)
          else if jhas fcEl "file" then
            .ok ({ base with
                    input_type := .formEntry
                    form_key := some fk
                    form_elements := some fes
                    form_type := some .inputFile }, config)
          else .error "Exception: Expected process or form"
        else if jget fcEl "pathType" = some (.str "references") then do
          let fileJ ← match jget fcEl "file" with
            | some f => .ok f
            | none => .error "AssertionError: Expected file"
          let fileS ← match fileJ with
            | .str fstr => .ok fstr
            | _ => .error "AttributeError: startswith"
          if pyStartsWith fileS "**/" then
            .ok ({ base with
                    input_type := .formEntry
                    form_key := some fk
                    form_elements := some fes
                    form_type := some .cirroReference
                    reference_id :=
                      some ((splitOnChar '/' (pyDrop fileS 3).data).headD "")
                    reference_file :=
                      some ((splitOnChar '/' fileS.data).getLastD "") },
                config)
          else .error "AssertionError: Reference file must start with **/"
        else
          .ok ({ base with
                  input_type := .formEntry
                  form_key := some fk
                  form_elements := some fes
                  form_type := some .userProvidedValue }, config)
      else .ok (base, config)
    | _ => .error "AttributeError: startswith"

/-- `ParamsConfig.load` (src/app.py:1178-1195): one `Param` per key of
`config["input"]`, in order, threading the document (each constructed
parameter may synthesize form nodes into it). -/
def load_params_go : List String → Json → Except String (List ParamState × Json)
  | [], config => .ok ([], config)
  | k :: ks, config => do
    let (p, config') ← load_param k config
    let (ps, config'') ← load_params_go ks config'
    .ok (p :: ps, config'')

def load_params (config : Json) : Except String (List ParamState × Json) := do
  let inputSec ← match jget config "input" with
    | some v => .ok v
    | none => .error "AssertionError: input"
  let keys ← match inputSec with
    | .obj fields => .ok (fields.map Prod.fst)
    | _ => .error "AttributeError: keys"
  load_params_go keys config

/-- The pointer walk of `Param.dump` (src/app.py:758-770): ensure a
`properties` dict at every level, insert the stored form element for the
current prefix when the key is absent, and descend.  `acc` is the list
of segments already consumed. -/
def pointer_walk (fes : List (String × Json)) :
    List String → Json → List String → Except String Json
  | _, tree, [] => .ok tree
  | acc, tree, k :: rest => do
    let tree := if jhas tree "properties" then tree
                else jset tree "properties" (.obj [])
    let props := jgetD tree "properties" (.obj [])
    let pre := acc ++ [k]
    let val ← match fes.lookup (joinDot pre) with
      | some v => .ok v
      | none => .error "KeyError: form element"
    let props := if jhas props k then props else jset props k val
    let child := jgetD props k .null
    let child' ← pointer_walk fes pre child rest
    .ok (jset tree "properties" (jset props k child'))

/-- `Param.dump` (src/app.py:731-777): deleted parameters are skipped;
a Form Entry re-derives the reference `file` attribute from the catalog
when the form type is Cirro Reference, defaults `form_key` and
`form_elements` when absent, and inserts its form elements along the
form key into the document's form tree; the three enum kinds write their
fixed expression; finally the binding expression is stored under the
parameter id in `config["input"]`. -/
def write_input (p : ParamState) (config : Json) (v : Json) :
    Except String Json := do
  let inputSec ← match jget config "input" with
    | some i => .ok i
    | none => .error "KeyError: input"
  .ok (jset config "input" (jset inputSec p.id v))

/-- The Cirro Reference branch of `Param.dump` (src/app.py:739-747):
look the reference type up in the catalog, pick the selected file from
its display list, and store the re-derived `file` attribute into the
parameter's form element. -/
def reference_form_elements (refs : List RefEntry) (p : ParamState) :
    Except String (List (String × Json)) := do
  let fk ← match p.form_key with
    | some fk => .ok fk
    | none => .error "AttributeError: form_key"
  let fes ← match p.form_elements with
    | some fes => .ok fes
    | none => .error "AttributeError: form_elements"
  let fcEl ← match fes.lookup (joinDot fk) with
    | some e => .ok e
    | none => .error "KeyError: form_config"
  let rid ← match p.reference_id with
    | some r => .ok r
    | none => .error "AttributeError: reference_id"
  let rfile ← match p.reference_file with
    | some r => .ok r
    | none => .error "AttributeError: reference_file"
  let i ← match refs.findIdx? (fun r =>
      r.directory == rid || r.name == rid) with
    | some i => .ok i
    | none => .error "Exception: Could not find appropriate reference"
  let display ← match refs.get? i with
    | some r => .ok r.validation
    | none => .error "IndexError"
  let j := (display.findIdx? (· == rfile)).getD 0
  let fileName ← match display.get? j with
    | some f => .ok f
    | none => .error "IndexError: list index out of range"
  let file_str := "**/" ++ rid ++ "/**/" ++ fileName
  .ok (setA fes (joinDot fk) (jset fcEl "file" (.str file_str)))

/-- The Form Entry branch of `Param.dump` after the reference handling:
default `form_key` and `form_elements`, then insert the form elements
along the form key into the document's form tree and store the binding
expression. -/
def dump_param_form (p : ParamState) (fes0 : Option (List (String × Json)))
    (config : Json) : Except String Json := do
  let fk := p.form_key.getD [p.id]
  let fes := fes0.getD [(joinDot fk, .obj [])]
  let formSec ← match jget config "form" with
    | some f => .ok f
    | none => .error "KeyError: form"
  let ff ← match jget formSec "form" with
    | some f => .ok f
    | none => .error "KeyError: form"
  let ff' ← pointer_walk fes [] ff fk
  write_input p (jset config "form" (jset formSec "form" ff')) p.value

def dump_param (refs : List RefEntry) (p : ParamState) (config : Json) :
    Except String Json := do
  if p.deleted then .ok config
  else do
    match p.input_type with
    | .formEntry => do
      let ft ← match p.form_type with
        | some ft => .ok ft
        | none => .error "AttributeError: form_type"
      let refFes := if ft = .cirroReference then
          (reference_form_elements refs p).map some
        else .ok p.form_elements
      let fes0 ← refFes
      dump_param_form p fes0 config
    | .hardcodedValue => write_input p config p.value
    | .outputDirectory => write_input p config (.str outputDirectoryValue)
    | .inputDirectory => write_input p config (.str inputDirectoryValue)
    | .datasetName => write_input p config (.str datasetNameValue)

/-- `ParamsConfig.dump` (src/app.py:1197-1204). -/
def dump_params (refs : List RefEntry) :
    List ParamState → Json → Except String Json
  | [], config => .ok config
  | p :: ps, config => do
    let config' ← dump_param refs p config
    dump_params refs ps config'

/-! ## Preprocess / compute elements and the whole document
(`PreprocessConfig`, `ComputeConfig`, `WorkflowConfig`) -/

/-- `PreprocessConfig.load` (src/app.py:1900-1905). -/
def load_preprocess (config : Json) : Except String Json :=
  match jget config "preprocess" with
  | some v => .ok v
  | none => .error "KeyError: preprocess"

/-- `PreprocessConfig.dump` (src/app.py:1907-1912). -/
def dump_preprocess (v : Json) (config : Json) : Json :=
  jset config "preprocess" v

/-- `ComputeConfig.load` (src/app.py:1923-1928). -/
def load_compute (config : Json) : Except String Json :=
  match jget config "compute" with
  | some v => .ok v
  | none => .error "KeyError: compute"

/-- `ComputeConfig.dump` (src/app.py:1930-1935). -/
def dump_compute (v : Json) (config : Json) : Json :=
  jset config "compute" v

/-- State of the whole `WorkflowConfig`: one state per configuration
element, in the fixed element order Source, Params, Outputs, Preprocess,
Compute (src/app.py:1950-1960). -/
structure AppState where
  source : SourceState
  params : List ParamState
  outputs : List OutputState
  preprocess : Json
  compute : Json
  deriving DecidableEq, Repr

/-- `WorkflowConfig.format_config` (src/app.py:2007-2017): dump every
element into a fresh `empty_config`, in element order. -/
def format_config (refs : List RefEntry) (s : AppState) :
    Except String Json := do
  let c := empty_config
  let c ← dump_source s.source c
  let c ← dump_params refs s.params c
  let c ← dump_outputs s.outputs c
  let c := dump_preprocess s.preprocess c
  let c := dump_compute s.compute c
  .ok c

/-- Loading every element from a document, in element order
(`WorkflowConfig.populate_form`, src/app.py:2130-2146), threading the
document because `ParamsConfig.load` may synthesize form nodes into it. -/
def load_all (config : Json) : Except String AppState := do
  let source ← load_source config
  let (params, config) ← load_params config
  let outputs ← load_outputs config
  let preprocess ← load_preprocess config
  let compute ← load_compute config
  .ok { source := source
        params := params
        outputs := outputs
        preprocess := preprocess
        compute := compute }

theorem bind_ok_inv {e a b : Type} {x : Except e a} {f : a → Except e b}
    {r : b} (h : x >>= f = .ok r) : ∃ v, x = .ok v ∧ f v = .ok r := by
  cases x with
  | ok v => exact ⟨v, rfl, h⟩
  | error err => simp [except_error_bind] at h

/-- The document invariant behind C10: the document is a dict whose
`form` section is a dict holding an empty `ui` object. -/
def FormUI (c : Json) : Prop :=
  ∃ cs form, c = .obj cs ∧ jget c "form" = some form ∧
    (∃ gs, form = .obj gs) ∧ jget form "ui" = some (.obj [])

theorem FormUI_jset_other {c : Json} (k : String) (v : Json)
    (hk : k ≠ "form") (h : FormUI c) : FormUI (jset c k v) := by
  obtain ⟨cs, form, hc, hform, hobj, hui⟩ := h
  subst hc
  exact ⟨setA cs k v, form, rfl,
    by rw [jget_jset_ne _ _ _ _ (Ne.symm hk)]; exact hform, hobj, hui⟩

theorem FormUI_set_form_form {c form ff' : Json}
    (h : FormUI c) (hform : jget c "form" = some form) :
    FormUI (jset c "form" (jset form "form" ff')) := by
  obtain ⟨cs, form0, hc, hform0, ⟨gs, hgs⟩, hui⟩ := h
  rw [hform0] at hform
  injection hform with hform
  subst hform hc hgs
  exact ⟨_, _, rfl, jget_jset_self _ _ _,
    ⟨_, rfl⟩, by rw [jget_jset_ne _ _ _ _ (by decide)]; exact hui⟩

theorem dump_source_formui {s : SourceState} {c c' : Json}
    (h : dump_source s c = .ok c') (hui : FormUI c) : FormUI c' := by
  simp only [dump_source] at h
  match hd : jget c "dynamo" with
  | none => rw [hd] at h; simp at h
  | some dyn =>
    rw [hd] at h
    match he : s.executor with
    | .str e =>
      rw [he] at h
      simp only [except_ok_bind] at h
      obtain ⟨code, hcode, h⟩ := bind_ok_inv (x := (match jget
          (jset (jset (jset (jset (jset (jset (jset dyn "id" s.id)
            "name" s.name) "desc" s.desc) "executor" (Json.str (pyUpper e)))
            "documentationUrl" s.documentationUrl)
            "childProcessIds" s.childProcessIds)
            "parentProcessIds" s.parentProcessIds) "code" with
        | some c0 => Except.ok c0
        | none => Except.error "KeyError: code")) (by
          cases hjc : jget (jset (jset (jset (jset (jset (jset (jset dyn
              "id" s.id) "name" s.name) "desc" s.desc) "executor"
              (Json.str (pyUpper e))) "documentationUrl"
              s.documentationUrl) "childProcessIds" s.childProcessIds)
              "parentProcessIds" s.parentProcessIds) "code" with
          | some c0 => rw [hjc] at h; exact h
          | none => rw [hjc] at h; simp at h)
      injection h with h
      rw [← h]
      exact FormUI_jset_other _ _ (by decide) hui
    | .null => rw [he] at h; simp at h
    | .bool b => rw [he] at h; simp at h
    | .num n => rw [he] at h; simp at h
    | .arr l => rw [he] at h; simp at h
    | .obj o => rw [he] at h; simp at h

theorem write_input_formui {p : ParamState} {c v c' : Json}
    (h : write_input p c v = .ok c') (hui : FormUI c) : FormUI c' := by
  simp only [write_input] at h
  match hi : jget c "input" with
  | none => rw [hi] at h; simp at h
  | some inputSec =>
    rw [hi] at h
    simp only [except_ok_bind] at h
    injection h with h
    rw [← h]
    exact FormUI_jset_other _ _ (by decide) hui

theorem dump_param_form_formui {p : ParamState}
    {fes0 : Option (List (String × Json))} {c c' : Json}
    (h : dump_param_form p fes0 c = .ok c') (hui : FormUI c) : FormUI c' := by
  simp only [dump_param_form] at h
  match hfs : jget c "form" with
  | none => rw [hfs] at h; simp at h
  | some formSec =>
    rw [hfs] at h
    simp only [except_ok_bind] at h
    match hff : jget formSec "form" with
    | none => rw [hff] at h; simp at h
    | some ff =>
      rw [hff] at h
      simp only [except_ok_bind] at h
      obtain ⟨ff', _, h⟩ := bind_ok_inv h
      exact write_input_formui h (FormUI_set_form_form hui hfs)

theorem dump_param_formui {refs : List RefEntry} {p : ParamState}
    {c c' : Json} (h : dump_param refs p c = .ok c') (hui : FormUI c) :
    FormUI c' := by
  simp only [dump_param] at h
  by_cases hdel : p.deleted
  · simp only [hdel, if_true] at h
    injection h with h
    exact h ▸ hui
  · simp only [hdel, Bool.false_eq_true, if_false] at h
    match hit : p.input_type with
    | .hardcodedValue => rw [hit] at h; exact write_input_formui h hui
    | .outputDirectory => rw [hit] at h; exact write_input_formui h hui
    | .inputDirectory => rw [hit] at h; exact write_input_formui h hui
    | .datasetName => rw [hit] at h; exact write_input_formui h hui
    | .formEntry =>
      rw [hit] at h
      match hft : p.form_type with
      | none => rw [hft] at h; simp at h
      | some ft =>
        rw [hft] at h
        simp only [except_ok_bind] at h
        obtain ⟨fes0, _, h⟩ := bind_ok_inv h
        exact dump_param_form_formui h hui

theorem dump_params_formui {refs : List RefEntry} :
    ∀ (ps : List ParamState) (c c' : Json),
      dump_params refs ps c = .ok c' → FormUI c → FormUI c'
  | [], c, c' => by
    intro h hui
    simp only [dump_params] at h
    injection h with h
    exact h ▸ hui
  | p :: ps, c, c' => by
    intro h hui
    simp only [dump_params, except_ok_bind] at h
    obtain ⟨c1, h1, h2⟩ := bind_ok_inv h
    exact dump_params_formui ps c1 c' h2 (dump_param_formui h1 hui)

theorem dump_outputs_formui {outs : List OutputState} {c c' : Json}
    (h : dump_outputs outs c = .ok c') (hui : FormUI c) : FormUI c' := by
  simp only [dump_outputs] at h
  obtain ⟨ds, _, h⟩ := bind_ok_inv h
  injection h with h
  rw [← h]
  exact FormUI_jset_other _ _ (by decide) hui

/-- C10: every document produced by a recompute
(`WorkflowConfig.format_config`) has an empty object as its `form.ui`
section, whatever the element states hold - no element's dump writes to
`form.ui`, so any loaded ui content is discarded on the next accepted
edit. -/
theorem format_config_ui_empty (refs : List RefEntry) (s : AppState)
    (D : Json) (h : format_config refs s = .ok D) :
    ∃ form, jget D "form" = some form ∧
      jget form "ui" = some (.obj []) := by
  have hui0 : FormUI empty_config :=
    ⟨_, _, rfl, rfl, ⟨_, rfl⟩, rfl⟩
  simp only [format_config, except_ok_bind] at h
  obtain ⟨c1, h1, h⟩ := bind_ok_inv h
  obtain ⟨c2, h2, h⟩ := bind_ok_inv h
  obtain ⟨c3, h3, h⟩ := bind_ok_inv h
  injection h with h
  have hui3 : FormUI c3 :=
    dump_outputs_formui h3
      (dump_params_formui _ _ _ h2 (dump_source_formui h1 hui0))
  have huiD : FormUI D := by
    rw [← h]
    exact FormUI_jset_other _ _ (by decide)
      (FormUI_jset_other _ _ (by decide) hui3)
  obtain ⟨cs, form, _, hform, _, huiv⟩ := huiD
  exact ⟨form, hform, huiv⟩

/-- A minimal element state: defaults only. -/
def defaultAppState : AppState :=
  { source := default_source
    params := []
    outputs := []
    preprocess := .str ""
    compute := .str "" }

theorem format_config_ui_empty_witness :
    (∃ D, format_config [] defaultAppState = .ok D) ∧
    (∃ form,
      jget ((format_config [] defaultAppState).toOption.getD .null)
        "form" = some form ∧
      jget form "ui" = some (.obj [])) :=
  ⟨⟨_, rfl⟩,
   format_config_ui_empty [] defaultAppState _ (by decide)⟩

/-! ## Round trip of the whole document (claim C1) -/

/-- Token-bearing output spec state, as constructed by loading
`tokenSpecEntry` (columns and name defaulted, concat parsed from the
source tokens). -/
def cxOut1 : OutputState :=
  { file_config := .obj [("command", .str hotParquet),
      ("params", .obj [("source",
          .str "$data_directory/[Sample]/counts.csv"),
        ("cols", .arr []), ("name", .str "Output File")])]
    deleted := false
    delimiter := .str ","
    colDeleted := []
    melt := ⟨false, none, none, none, none⟩
    concat := [⟨"Sample", .str "Sample", .str "Sample"⟩] }

/-- Concrete output spec state with the source `sample1/counts.csv`. -/
def cxOut2 : OutputState :=
  { file_config := .obj [("command", .str hotParquet),
      ("params", .obj [("source",
          .str "$data_directory/sample1/counts.csv"),
        ("cols", .arr []), ("name", .str "Output File")])]
    deleted := false
    delimiter := .str ","
    colDeleted := []
    melt := ⟨false, none, none, none, none⟩
    concat := [] }

/-- Element state holding both output specs. -/
def cxState : AppState :=
  { source := default_source
    params := []
    outputs := [cxOut1, cxOut2]
    preprocess := .str ""
    compute := .str "" }

def cxD : Json := (format_config [] cxState).toOption.getD .null

def cxS2 : AppState := (load_all cxD).toOption.getD cxState

def cxD2 : Json := (format_config [] cxS2).toOption.getD .null

set_option maxHeartbeats 4000000 in
/-- C1 counterexample: dumping an element state whose outputs contain a
token-bearing spec (`[Sample]/counts.csv`) and a concrete spec
(`sample1/counts.csv`) yields a document D; loading D back removes the
concrete spec through the overlap filter of `OutputsConfig.load`, so
dumping again yields a document different from D - the load/dump cycle
is not idempotent on all dump-produced documents. -/
theorem format_load_format_not_roundtrip :
    format_config [] cxState = .ok cxD ∧
    load_all cxD = .ok cxS2 ∧
    format_config [] cxS2 = .ok cxD2 ∧
    cxD2 ≠ cxD := by
  decide

/-! ## Dump/load/dump round trip (C1 amended): helper lemmas -/

theorem lookup_isSome_of_mem {fs : List (String × Json)} {q : String × Json}
    (hq : q ∈ fs) : (fs.lookup q.1).isSome = true := by
  induction fs with
  | nil => cases hq
  | cons p rest ih =>
    rcases List.mem_cons.mp hq with h | h
    · subst h
      simp [List.lookup]
    · obtain ⟨k1, v1⟩ := p
      cases hb : (q.1 == k1) with
      | true => simp only [List.lookup, hb, Option.isSome_some]
      | false =>
        simp only [List.lookup, hb]
        exact ih h

theorem keys_ne_of_lookup_none {fs : List (String × Json)} {k : String}
    (h : fs.lookup k = none) : ∀ q ∈ fs, q.1 ≠ k := by
  intro q hq he
  have hs := lookup_isSome_of_mem hq
  rw [he, h] at hs
  simp at hs

theorem lookup_none_keys {k : String} :
    ∀ {fs : List (String × Json)}, (∀ q ∈ fs, q.1 ≠ k) → fs.lookup k = none
  | [], _ => rfl
  | (k1, v1) :: rest, h => by
    have hk : k1 ≠ k := h (k1, v1) (List.mem_cons_self _ _)
    have hb : (k == k1) = false := beq_eq_false_iff_ne.mpr (Ne.symm hk)
    simp only [List.lookup, hb]
    exact lookup_none_keys (fun q hq => h q (List.mem_cons_of_mem _ hq))

theorem setA_id {k : String} {v : Json} :
    ∀ {fs : List (String × Json)}, fs.lookup k = some v → setA fs k v = fs
  | [], h => by simp [List.lookup] at h
  | (k1, v1) :: rest, h => by
    by_cases hk : k1 = k
    · have hb : (k == k1) = true := beq_iff_eq.mpr hk.symm
      simp only [List.lookup, hb, Option.some.injEq] at h
      simp [setA, hk, h]
    · have hb : (k == k1) = false := beq_eq_false_iff_ne.mpr (Ne.symm hk)
      simp only [List.lookup, hb] at h
      simp [setA, hk, setA_id h]

theorem jset_id {j : Json} {k : String} {v : Json}
    (h : jget j k = some v) : jset j k v = j := by
  cases j with
  | obj fs =>
    simp only [jget] at h
    simp [jset, setA_id h]
  | null => rfl
  | bool b => rfl
  | num n => rfl
  | str s => rfl
  | arr l => rfl

theorem setA_append {k : String} {v : Json} :
    ∀ {fs : List (String × Json)}, (∀ q ∈ fs, q.1 ≠ k) →
      setA fs k v = fs ++ [(k, v)]
  | [], _ => rfl
  | (k1, v1) :: rest, h => by
    have hk : k1 ≠ k := h (k1, v1) (List.mem_cons_self _ _)
    simp [setA, hk, setA_append (fun q hq => h q (List.mem_cons_of_mem _ hq))]

theorem lookup_append_none {gs : List (String × Json)} {k : String} :
    ∀ {fs : List (String × Json)}, fs.lookup k = none →
      (fs ++ gs).lookup k = gs.lookup k
  | [], _ => rfl
  | (k1, v1) :: rest, h => by
    cases hb : (k == k1) with
    | true =>
      simp only [List.lookup, hb] at h
      exact Option.noConfusion h
    | false =>
      simp only [List.cons_append, List.lookup, hb] at h ⊢
      exact lookup_append_none h

theorem lookup_append_some {gs : List (String × Json)} {k : String} {v : Json} :
    ∀ {fs : List (String × Json)}, fs.lookup k = some v →
      (fs ++ gs).lookup k = some v
  | [], h => by simp [List.lookup] at h
  | (k1, v1) :: rest, h => by
    cases hb : (k == k1) with
    | true => simpa only [List.cons_append, List.lookup, hb] using h
    | false =>
      simp only [List.cons_append, List.lookup, hb] at h ⊢
      exact lookup_append_some h

theorem jhas_jset_ne {f : Json} (k k' : String) (v : Json) (h : k' ≠ k) :
    jhas (jset f k v) k' = jhas f k' := by
  simp [jhas, jget_jset_ne f k k' v h]

theorem jhas_jset_self (fs : List (String × Json)) (k : String) (v : Json) :
    jhas (jset (.obj fs) k v) k = true := by
  simp [jhas, jget_jset_self]

theorem filter_ne_key {k : String} :
    ∀ {fs : List (String × Json)}, (∀ q ∈ fs, q.1 ≠ k) →
      fs.filter (fun p => p.1 ≠ k) = fs
  | [], _ => rfl
  | (k1, v1) :: rest, h => by
    have hk : k1 ≠ k := h (k1, v1) (List.mem_cons_self _ _)
    have ih := filter_ne_key (fun q hq => h q (List.mem_cons_of_mem _ hq))
    have hpa : (decide ¬(k1 = k)) = true := decide_eq_true hk
    simp only [List.filter, hpa, ih]

theorem strip_no_properties {vf : List (String × Json)}
    (h : jhas (.obj vf) "properties" = false) :
    strip_properties (.obj vf) = .ok (.obj vf) := by
  have hl : vf.lookup "properties" = none := by
    cases hcase : vf.lookup "properties" with
    | none => rfl
    | some x => simp [jhas, jget, hcase] at h
  have hk := keys_ne_of_lookup_none hl
  have hfilter : vf.filter (fun p => p.1 ≠ "properties") = vf :=
    filter_ne_key hk
  simp only [strip_properties]
  rw [hfilter]

theorem strip_jset_properties {vf : List (String × Json)} {X : Json}
    (h : jhas (.obj vf) "properties" = false) :
    strip_properties (jset (.obj vf) "properties" X) = .ok (.obj vf) := by
  have hl : vf.lookup "properties" = none := by
    cases hcase : vf.lookup "properties" with
    | none => rfl
    | some x => simp [jhas, jget, hcase] at h
  have hk := keys_ne_of_lookup_none hl
  have happ : setA vf "properties" X = vf ++ [("properties", X)] :=
    setA_append hk
  have h1 : vf.filter (fun p => p.1 ≠ "properties") = vf :=
    filter_ne_key hk
  have hfilter : (vf ++ [("properties", X)]).filter
      (fun p => p.1 ≠ "properties") = vf := by
    rw [List.filter_append, h1]
    simp
  simp only [jset, happ, strip_properties]
  rw [hfilter]

theorem toUpper_idem (c : Char) : c.toUpper.toUpper = c.toUpper := by
  show (let n := c.toUpper.toNat;
    if n ≥ 97 ∧ n ≤ 122 then Char.ofNat (n - 32) else c.toUpper) = c.toUpper
  by_cases h : c.toNat ≥ 97 ∧ c.toNat ≤ 122
  · have h1 : c.toUpper = Char.ofNat (c.toNat - 32) := by
      show (let n := c.toNat;
        if n ≥ 97 ∧ n ≤ 122 then Char.ofNat (n - 32) else c) = _
      simp [h]
    have hvalid : (c.toNat - 32).isValidChar := by
      left
      omega
    have h2 : (Char.ofNat (c.toNat - 32)).toNat = c.toNat - 32 := by
      unfold Char.ofNat
      rw [dif_pos hvalid]
      rfl
    have hn : ¬(c.toNat - 32 ≥ 97 ∧ c.toNat - 32 ≤ 122) := by omega
    simp only [h1, h2]
    rw [if_neg hn]
  · have h1 : c.toUpper = c := by
      show (let n := c.toNat;
        if n ≥ 97 ∧ n ≤ 122 then Char.ofNat (n - 32) else c) = _
      simp [h]
    rw [h1]
    simp [h]

theorem pyUpper_idem (s : String) : pyUpper (pyUpper s) = pyUpper s := by
  show String.mk ((s.data.map Char.toUpper).map Char.toUpper) =
    String.mk (s.data.map Char.toUpper)
  rw [List.map_map]
  congr 1
  apply List.map_congr_left
  intro c _
  exact toUpper_idem c

theorem zip_replicate_false_filterMap :
    ∀ (l : List Json),
      ((List.replicate l.length false).zip l).filterMap
        (fun p => if p.1 then none else some p.2) = l
  | [] => rfl
  | x :: xs => by
    simp only [List.length_cons, List.replicate_succ, List.zip_cons_cons,
      List.filterMap_cons]
    simp [zip_replicate_false_filterMap xs]

theorem pyStartsWith_append (m t : String) : pyStartsWith (m ++ t) m = true := by
  simp only [pyStartsWith, String.data_append]
  exact List.isPrefixOf_iff_prefix.mpr (List.prefix_append m.data t.data)

theorem pyDrop_append (m t : String) : pyDrop (m ++ t) m.data.length = t := by
  simp [pyDrop, String.data_append, List.drop_left]

theorem splitOnChar_no_sep {sep : Char} :
    ∀ {cs : List Char}, (∀ c ∈ cs, c ≠ sep) →
      splitOnChar sep cs = [String.mk cs]
  | [], _ => rfl
  | c :: rest, h => by
    have hc : c ≠ sep := h c (List.mem_cons_self _ _)
    rw [splitOnChar]
    simp [hc, splitOnChar_no_sep (fun d hd => h d (List.mem_cons_of_mem _ hd))]

theorem splitOnChar_sep_append {sep : Char} (rest : List Char) :
    ∀ (pre : List Char), (∀ c ∈ pre, c ≠ sep) →
      splitOnChar sep (pre ++ sep :: rest) =
        String.mk pre :: splitOnChar sep rest
  | [], _ => by
    rw [List.nil_append, splitOnChar]
    simp
  | c :: pre', h => by
    have hc : c ≠ sep := h c (List.mem_cons_self _ _)
    have ih := splitOnChar_sep_append rest pre'
      (fun d hd => h d (List.mem_cons_of_mem _ hd))
    rw [List.cons_append, splitOnChar]
    simp [hc, ih]

def dotFreeB (s : String) : Bool := s.data.all (· ≠ '.')

def slashFreeB (s : String) : Bool := s.data.all (· ≠ '/')

theorem findIdx?_get {α : Type} {p : α → Bool} {l : List α} {i : Nat}
    (h : l.findIdx? p = some i) : ∃ x, l.get? i = some x ∧ p x = true := by
  induction l generalizing i with
  | nil => simp [List.findIdx?] at h
  | cons a as ih =>
    rw [List.findIdx?_cons] at h
    by_cases hp : p a = true
    · simp [hp] at h
      subst h
      exact ⟨a, rfl, hp⟩
    · rw [Bool.not_eq_true] at hp
      simp [hp] at h
      obtain ⟨j, hj, hji⟩ := h
      obtain ⟨x, hx, hpx⟩ := ih hj
      exact ⟨x, by simpa [← hji] using hx, hpx⟩

theorem findIdx?_mem {α : Type} {p : α → Bool} {l : List α} {x : α}
    (hx : x ∈ l) (hp : p x = true) : ∃ i, l.findIdx? p = some i := by
  induction l with
  | nil => cases hx
  | cons a as ih =>
    rw [List.findIdx?_cons]
    by_cases hpa : p a = true
    · exact ⟨0, by simp [hpa]⟩
    · rcases List.mem_cons.mp hx with h | h
      · subst h
        exact absurd hp hpa
      · rw [Bool.not_eq_true] at hpa
        obtain ⟨i, hi⟩ := ih h
        exact ⟨i + 1, by simp [hpa, hi]⟩

/-! ### Output spec round trip -/

theorem jget_jdel_ne {f : Json} (k k' : String) (h : k' ≠ k) :
    jget (jdel f k) k' = jget f k' := by
  cases f with
  | obj fs =>
    simp only [jdel, jget]
    induction fs with
    | nil => rfl
    | cons q rest ih =>
      obtain ⟨k1, v1⟩ := q
      by_cases h1 : k1 = k
      · have hpa : (decide ¬(k1 = k)) = false := by simp [h1]
        have hb : (k' == k1) = false := beq_eq_false_iff_ne.mpr (by
          rw [h1]
          exact h)
        simp only [List.filter, hpa, List.lookup, hb]
        exact ih
      · have hpa : (decide ¬(k1 = k)) = true := decide_eq_true h1
        simp only [List.filter, hpa, List.lookup]
        cases hb : (k' == k1) with
        | true => rfl
        | false => exact ih
  | null => rfl
  | bool b => rfl
  | num n => rfl
  | str s => rfl
  | arr l => rfl

theorem jget_jdel_self {fs : List (String × Json)} (k : String) :
    jget (jdel (.obj fs) k) k = none := by
  simp only [jdel, jget]
  apply lookup_none_keys
  intro q hq
  have := List.of_mem_filter hq
  simpa using this

theorem obj_jset {f : Json} (h : ∃ fs, f = .obj fs) (k : String) (v : Json) :
    ∃ gs, jset f k v = .obj gs := by
  obtain ⟨fs, rfl⟩ := h
  exact ⟨_, rfl⟩

theorem obj_jdel {f : Json} (h : ∃ fs, f = .obj fs) (k : String) :
    ∃ gs, jdel f k = .obj gs := by
  obtain ⟨fs, rfl⟩ := h
  exact ⟨_, rfl⟩

theorem load_melt_dump (m : MeltState) :
    load_melt (some (dump_melt m)) = .ok
      ⟨true, some (m.key_name.getD (.str "")), some (m.key_desc.getD (.str "")),
       some (m.value_name.getD (.str "")),
       some (m.value_desc.getD (.str ""))⟩ := rfl

theorem dump_melt_load (m : MeltState) :
    dump_melt ⟨true, some (m.key_name.getD (.str "")),
      some (m.key_desc.getD (.str "")), some (m.value_name.getD (.str "")),
      some (m.value_desc.getD (.str ""))⟩ = dump_melt m := rfl

theorem output_source_ok {fc p : Json}
    (h : jget fc "params" = some p) (hobj : ∃ l, p = .obj l)
    (hsrc : (match jget p "source" with
             | some (.str _) => true
             | none => true
             | _ => false) = true) :
    ∃ s0, output_source fc = .ok s0 := by
  obtain ⟨l, rfl⟩ := hobj
  cases hs : jget (Json.obj l) "source" with
  | none =>
    refine ⟨pyDrop source_prefix_value 16, ?_⟩
    simp only [output_source, h, except_ok_bind, pyGetAttr, jgetD, hs,
      Option.getD_none]
  | some v =>
    cases v with
    | str t =>
      refine ⟨pyDrop t 16, ?_⟩
      simp only [output_source, h, except_ok_bind, pyGetAttr, jgetD, hs,
        Option.getD_some]
    | null => rw [hs] at hsrc; simp at hsrc
    | bool b => rw [hs] at hsrc; simp at hsrc
    | num n => rw [hs] at hsrc; simp at hsrc
    | arr a => rw [hs] at hsrc; simp at hsrc
    | obj o => rw [hs] at hsrc; simp at hsrc

theorem output_source_eq {fc fc' p p' : Json}
    (h : jget fc "params" = some p) (h' : jget fc' "params" = some p')
    (hobj : ∃ l, p = .obj l) (hobj' : ∃ l, p' = .obj l)
    (hsrc : jget p "source" = jget p' "source") :
    output_source fc = output_source fc' := by
  obtain ⟨l, rfl⟩ := hobj
  obtain ⟨l', rfl⟩ := hobj'
  simp only [output_source, h, h', except_ok_bind, pyGetAttr, jgetD, hsrc]

theorem parse_concat_congr {fc fc' : Json}
    (hsrc : output_source fc = output_source fc')
    (hconcat : jgetD (jgetD fc "params" (.obj [])) "concat" (.arr []) =
               jgetD (jgetD fc' "params" (.obj [])) "concat" (.arr [])) :
    parse_concat_tokens fc = parse_concat_tokens fc' := by
  simp only [parse_concat_tokens, hsrc, hconcat]

theorem matchingIdx_congr {src : String} {i : Nat} :
    ∀ {j : Nat} {l l' : List OutputState}, l.map sourceD = l'.map sourceD →
      matchingIdx src i j l = matchingIdx src i j l'
  | _, [], [], _ => rfl
  | j, o :: r, o' :: r', h => by
    simp only [List.map_cons, List.cons.injEq] at h
    simp only [matchingIdx, h.1, matchingIdx_congr h.2]
  | _, [], _ :: _, h => by simp at h
  | _, _ :: _, [], h => by simp at h

theorem matching_regex_from_congr {outs outs' : List OutputState}
    (houts : outs.map sourceD = outs'.map sourceD) :
    ∀ {i : Nat} {l l' : List OutputState}, l.map sourceD = l'.map sourceD →
      matching_regex_from outs i l = matching_regex_from outs' i l'
  | _, [], [], _ => rfl
  | i, o :: r, o' :: r', h => by
    simp only [List.map_cons, List.cons.injEq] at h
    simp only [matching_regex_from, h.1, matchingIdx_congr houts,
      matching_regex_from_congr houts h.2]
  | _, [], _ :: _, h => by simp at h
  | _, _ :: _, [], h => by simp at h

theorem matching_regex_congr {outs outs' : List OutputState}
    (h : outs.map sourceD = outs'.map sourceD) :
    matching_regex outs = matching_regex outs' :=
  matching_regex_from_congr h h

theorem overlap_filter_noconflict {outs : List OutputState}
    (h : matching_regex outs = []) : overlap_filter outs = outs := by
  unfold overlap_filter
  cases hl : outs.length with
  | zero => rfl
  | succ n => simp [overlap_filter_go, h]

/-- The columns kept by `OutputConfig.dump` (deleted flags dropped). -/
def keptCols (o : OutputState) (colsL : List Json) : List Json :=
  (o.colDeleted.zip colsL).filterMap (fun p => if p.1 then none else some p.2)

/-- The params dict written by `OutputConfig.dump`. -/
def dump_params_of (o : OutputState) (pf : List (String × Json))
    (s0 : String) : List (String × Json) :=
  setA (setA (setA pf "target" (.str (output_target s0)))
    "read_csv" (.obj [("parse", .obj [("delimiter", o.delimiter)])]))
    "cols" (.arr (keptCols o
      ((jget (.obj pf) "cols").getD (.arr []) |> fun j =>
        match j with
        | .arr l => l
        | _ => [])))

/-- The melt write/delete step of `OutputConfig.dump`. -/
def dump_melt_step (o : OutputState) (fc : Json) : Json :=
  if o.melt.enabled then jset fc "melt" (dump_melt o.melt)
  else if jhas fc "melt" then jdel fc "melt" else fc

/-- The concat write step of `OutputConfig.dump`. -/
def dump_concat_step (o : OutputState) (fc : Json) : Json :=
  if o.concat ≠ [] then jset fc "concat" (.arr (o.concat.map dump_concat))
  else fc

theorem dump_melt_step_jget_ne (o : OutputState) {fc : Json} (k : String)
    (h : k ≠ "melt") : jget (dump_melt_step o fc) k = jget fc k := by
  unfold dump_melt_step
  cases hm : o.melt.enabled
  · simp only [Bool.false_eq_true, if_false]
    by_cases hh : jhas fc "melt" = true
    · simp only [hh, if_true]
      exact jget_jdel_ne "melt" k h
    · simp only [Bool.not_eq_true] at hh
      simp [hh]
  · simp only [if_true]
    exact jget_jset_ne fc "melt" k _ h

theorem dump_concat_step_jget_ne (o : OutputState) {fc : Json} (k : String)
    (h : k ≠ "concat") : jget (dump_concat_step o fc) k = jget fc k := by
  unfold dump_concat_step
  by_cases hc : o.concat = []
  · simp [hc]
  · simp only [ne_eq, hc, not_false_iff, if_true]
    exact jget_jset_ne fc "concat" k _ h

theorem dump_melt_step_obj (o : OutputState) {fc : Json}
    (h : ∃ l, fc = .obj l) : ∃ l, dump_melt_step o fc = .obj l := by
  unfold dump_melt_step
  cases hm : o.melt.enabled
  · simp only [Bool.false_eq_true, if_false]
    by_cases hh : jhas fc "melt" = true
    · simp only [hh, if_true]
      exact obj_jdel h "melt"
    · simp only [Bool.not_eq_true] at hh
      simp only [hh, Bool.false_eq_true, if_false]
      exact h
  · simp only [if_true]
    exact obj_jset h "melt" _

theorem dump_concat_step_obj (o : OutputState) {fc : Json}
    (h : ∃ l, fc = .obj l) : ∃ l, dump_concat_step o fc = .obj l := by
  unfold dump_concat_step
  by_cases hc : o.concat = []
  · simp only [ne_eq, hc, not_true, if_false]
    exact h
  · simp only [ne_eq, hc, not_false_iff, if_true]
    exact obj_jset h "concat" _

theorem dump_melt_step_jget_melt (o : OutputState) {fs : List (String × Json)} :
    jget (dump_melt_step o (.obj fs)) "melt" =
      (if o.melt.enabled then some (dump_melt o.melt) else none) := by
  unfold dump_melt_step
  cases hm : o.melt.enabled
  · simp only [Bool.false_eq_true, if_false]
    by_cases hh : jhas (.obj fs) "melt" = true
    · simp [hh, jget_jdel_self]
    · simp only [Bool.not_eq_true] at hh
      have hnone : jget (.obj fs) "melt" = none := by
        cases hx : jget (.obj fs) "melt" with
        | none => rfl
        | some v => simp [jhas, hx] at hh
      simp [hh, hnone]
  · simp [jget_jset_self]

theorem dump_concat_step_jget_concat (o : OutputState)
    {fs : List (String × Json)} (hc : o.concat ≠ []) :
    jget (dump_concat_step o (.obj fs)) "concat" =
      some (.arr (o.concat.map dump_concat)) := by
  unfold dump_concat_step
  simp only [ne_eq, hc, not_false_iff, if_true]
  exact jget_jset_self _ _ _

/-- The melt state produced by reloading a dumped melt block. -/
def melt_reload (m : MeltState) : MeltState :=
  if m.enabled then
    ⟨true, some (m.key_name.getD (.str "")), some (m.key_desc.getD (.str "")),
     some (m.value_name.getD (.str "")), some (m.value_desc.getD (.str ""))⟩
  else ⟨false, none, none, none, none⟩

theorem dump_output_eq {o : OutputState} {fs pf : List (String × Json)}
    {s0 : String} {colsL : List Json}
    (hfc : o.file_config = .obj fs)
    (hcmd : jget (.obj fs) "command" = some (.str hotParquet))
    (hpf : jget (.obj fs) "params" = some (.obj pf))
    (hs0 : output_source (.obj fs) = .ok s0)
    (hcols : jget (.obj pf) "cols" = some (.arr colsL)) :
    dump_output o = .ok (dump_concat_step o (dump_melt_step o
      (jset (.obj fs) "params" (.obj (dump_params_of o pf s0))))) := by
  have hc2 : jget (jset (jset (.obj pf) "target" (.str (output_target s0)))
      "read_csv" (.obj [("parse", .obj [("delimiter", o.delimiter)])]))
      "cols" = some (.arr colsL) := by
    rw [jget_jset_ne _ _ _ _ (by decide), jget_jset_ne _ _ _ _ (by decide),
      hcols]
  simp only [jset] at hc2
  simp only [dump_output, hfc, hcmd, except_ok_bind, eq_self_iff_true, if_true,
    hs0, hpf, dump_params_of, keptCols, hcols, Option.getD_some,
    dump_melt_step, dump_concat_step, jset, hc2]

/-- The output state produced by reloading a dumped output entry. -/
def output_reload (o : OutputState) (gsE : List (String × Json))
    (colsL : List Json) : OutputState :=
  { file_config := .obj gsE
    deleted := false
    delimiter := o.delimiter
    colDeleted := List.replicate (keptCols o colsL).length false
    melt := melt_reload o.melt
    concat := o.concat }

theorem load_output_eq {o : OutputState} {fs pf : List (String × Json)}
    {s0 : String} {colsL : List Json} {gsE : List (String × Json)}
    (hfc : o.file_config = .obj fs)
    (hcmd : jget (.obj fs) "command" = some (.str hotParquet))
    (hpf : jget (.obj fs) "params" = some (.obj pf))
    (hs0 : output_source (.obj fs) = .ok s0)
    (hname : jhas (.obj pf) "name" = true)
    (hpcat : parse_concat_tokens (.obj fs) = .ok o.concat)
    (hcols : jget (.obj pf) "cols" = some (.arr colsL))
    (hE : dump_concat_step o (dump_melt_step o
      (jset (.obj fs) "params" (.obj (dump_params_of o pf s0)))) = .obj gsE) :
    load_output (.obj gsE) = .ok (output_reload o gsE colsL) ∧
    jget (.obj gsE) "command" = some (.str hotParquet) ∧
    output_source (.obj gsE) = .ok s0 ∧
    jget (.obj gsE) "params" = some (.obj (dump_params_of o pf s0)) ∧
    jget (.obj gsE) "melt" =
      (if o.melt.enabled then some (dump_melt o.melt) else none) ∧
    parse_concat_tokens (.obj gsE) = .ok o.concat := by
  have h3cols : jget (.obj (dump_params_of o pf s0)) "cols"
      = some (.arr (keptCols o colsL)) := by
    show (dump_params_of o pf s0).lookup "cols" = _
    simp only [dump_params_of, hcols, Option.getD_some, setA_lookup_self]
  have h3name : jget (.obj (dump_params_of o pf s0)) "name"
      = jget (.obj pf) "name" := by
    simp only [dump_params_of, jget]
    rw [setA_lookup_ne _ _ _ _ (by decide), setA_lookup_ne _ _ _ _ (by decide),
      setA_lookup_ne _ _ _ _ (by decide)]
  have h3rc : jget (.obj (dump_params_of o pf s0)) "read_csv"
      = some (.obj [("parse", .obj [("delimiter", o.delimiter)])]) := by
    simp only [dump_params_of, jget]
    rw [setA_lookup_ne _ _ _ _ (by decide), setA_lookup_self]
  have h3src : jget (.obj (dump_params_of o pf s0)) "source"
      = jget (.obj pf) "source" := by
    simp only [dump_params_of, jget]
    rw [setA_lookup_ne _ _ _ _ (by decide), setA_lookup_ne _ _ _ _ (by decide),
      setA_lookup_ne _ _ _ _ (by decide)]
  have h3cat : jget (.obj (dump_params_of o pf s0)) "concat"
      = jget (.obj pf) "concat" := by
    simp only [dump_params_of, jget]
    rw [setA_lookup_ne _ _ _ _ (by decide), setA_lookup_ne _ _ _ _ (by decide),
      setA_lookup_ne _ _ _ _ (by decide)]
  have hgcmd : jget (.obj gsE) "command" = some (.str hotParquet) := by
    rw [← hE, dump_concat_step_jget_ne _ _ (by decide),
      dump_melt_step_jget_ne _ _ (by decide),
      jget_jset_ne _ _ _ _ (by decide), hcmd]
  have hP3 : jget (.obj gsE) "params"
      = some (.obj (dump_params_of o pf s0)) := by
    rw [← hE, dump_concat_step_jget_ne _ _ (by decide),
      dump_melt_step_jget_ne _ _ (by decide), jget_jset_self]
  have hEmelt : jget (.obj gsE) "melt" =
      (if o.melt.enabled then some (dump_melt o.melt) else none) := by
    rw [← hE, dump_concat_step_jget_ne _ _ (by decide)]
    have hjs : jset (.obj fs) "params" (.obj (dump_params_of o pf s0))
        = .obj (setA fs "params" (.obj (dump_params_of o pf s0))) := rfl
    rw [hjs, dump_melt_step_jget_melt]
  have hEos : output_source (.obj gsE) = .ok s0 := by
    rw [output_source_eq hP3 hpf ⟨_, rfl⟩ ⟨pf, rfl⟩ h3src, hs0]
  have hsrceq : output_source (.obj gsE) = output_source (.obj fs) := by
    rw [hEos, hs0]
  have hcateq : jgetD (jgetD (.obj gsE) "params" (.obj [])) "concat" (.arr [])
      = jgetD (jgetD (.obj fs) "params" (.obj [])) "concat" (.arr []) := by
    simp only [jgetD, hP3, hpf, Option.getD_some, h3cat]
  have hEpcat : parse_concat_tokens (.obj gsE) = .ok o.concat := by
    rw [parse_concat_congr hsrceq hcateq, hpcat]
  have hsetid : jset (.obj gsE) "params" (.obj (dump_params_of o pf s0))
      = .obj gsE := jset_id hP3
  have hhasP : jhas (.obj gsE) "params" = true := by simp [jhas, hP3]
  have hhasC : jhas (.obj (dump_params_of o pf s0)) "cols" = true := by
    simp [jhas, h3cols]
  have hhasN : jhas (.obj (dump_params_of o pf s0)) "name" = true := by
    unfold jhas at hname ⊢
    rw [h3name]
    exact hname
  refine ⟨?_, hgcmd, hEos, hP3, hEmelt, hEpcat⟩
  have hpgetD : jgetD (.obj gsE) "params" (.obj [])
      = .obj (dump_params_of o pf s0) := by
    simp only [jgetD, hP3, Option.getD_some]
  have hrc2 : pyGetAttr (.obj (dump_params_of o pf s0)) "read_csv" (.obj [])
      = .ok (.obj [("parse", .obj [("delimiter", o.delimiter)])]) := by
    simp only [pyGetAttr, jgetD, h3rc, Option.getD_some]
  have hps : pyGetAttr (.obj [("parse", .obj [("delimiter", o.delimiter)])])
      "parse" (.obj []) = .ok (.obj [("delimiter", o.delimiter)]) := rfl
  have hdelim : pyGetAttr (.obj [("delimiter", o.delimiter)])
      "delimiter" (.str ",") = .ok o.delimiter := rfl
  cases hm : o.melt.enabled with
  | true =>
    have hEmelt2 : jget (.obj gsE) "melt" = some (dump_melt o.melt) := by
      simp [hm] at hEmelt
      exact hEmelt
    have hmr : melt_reload o.melt = ⟨true,
        some (o.melt.key_name.getD (.str "")),
        some (o.melt.key_desc.getD (.str "")),
        some (o.melt.value_name.getD (.str "")),
        some (o.melt.value_desc.getD (.str ""))⟩ := by
      simp [melt_reload, hm]
    simp only [load_output, except_ok_bind, hgcmd, ne_eq, eq_self_iff_true,
      not_true, Bool.false_eq_true, if_false, if_true, ite_true, ite_false,
      hhasP, hpgetD, hhasC, hhasN, hsetid, hrc2, hps, hdelim, h3cols,
      hEmelt2, load_melt_dump, hEpcat, hmr, output_reload]
  | false =>
    have hEmelt2 : jget (.obj gsE) "melt" = none := by
      simp [hm] at hEmelt
      exact hEmelt
    have hmr : melt_reload o.melt = ⟨false, none, none, none, none⟩ := by
      simp [melt_reload, hm]
    simp only [load_output, except_ok_bind, hgcmd, ne_eq, eq_self_iff_true,
      not_true, Bool.false_eq_true, if_false, if_true, ite_true, ite_false,
      hhasP, hpgetD, hhasC, hhasN, hsetid, hrc2, hps, hdelim, h3cols,
      hEmelt2, load_melt, hEpcat, hmr, output_reload]

/-- Well-formedness of one output spec state for the dump/load/dump round
trip: not deleted, the underlying entry is a dict whose `command` is
`hot.Parquet`, whose `params` is a dict holding a `name` and a list-valued
`cols` and at most a string `source`, and whose concat state is exactly
what `parse_concat_tokens` reads back from the entry. -/
def wf_output (o : OutputState) : Bool :=
  !o.deleted &&
  (match o.file_config with
   | .obj _ =>
     decide (jget o.file_config "command" = some (.str hotParquet)) &&
     (match jget o.file_config "params" with
      | some (.obj pf) =>
        jhas (.obj pf) "name" &&
        (match jget (.obj pf) "cols" with
         | some (.arr _) => true
         | _ => false) &&
        (match jget (.obj pf) "source" with
         | some (.str _) => true
         | none => true
         | _ => false)
      | _ => false) &&
     decide (parse_concat_tokens o.file_config = Except.ok o.concat)
   | _ => false)

theorem dump_params_of_eval {o : OutputState} {pf : List (String × Json)}
    {s0 : String} {l : List Json}
    (h : jget (.obj pf) "cols" = some (.arr l)) :
    dump_params_of o pf s0 = setA (setA (setA pf "target"
      (.str (output_target s0))) "read_csv"
      (.obj [("parse", .obj [("delimiter", o.delimiter)])]))
      "cols" (.arr (keptCols o l)) := by
  simp only [dump_params_of, h, Option.getD_some]

theorem output_round_trip {o : OutputState} (hwf : wf_output o = true) :
    ∃ gsE o', dump_output o = .ok (.obj gsE) ∧
      load_output (.obj gsE) = .ok o' ∧
      jget (.obj gsE) "command" = some (.str hotParquet) ∧
      sourceD o' = sourceD o ∧ o'.deleted = false ∧ o.deleted = false ∧
      dump_output o' = .ok (.obj gsE) := by
  unfold wf_output at hwf
  simp only [Bool.and_eq_true] at hwf
  obtain ⟨hdel, hwf⟩ := hwf
  rw [Bool.not_eq_true'] at hdel
  cases hfcase : o.file_config with
  | null => rw [hfcase] at hwf; simp at hwf
  | bool b => rw [hfcase] at hwf; simp at hwf
  | num n => rw [hfcase] at hwf; simp at hwf
  | str s => rw [hfcase] at hwf; simp at hwf
  | arr l => rw [hfcase] at hwf; simp at hwf
  | obj fs =>
  rw [hfcase] at hwf
  simp only [Bool.and_eq_true] at hwf
  obtain ⟨⟨hcmd, hwfp⟩, hpcat⟩ := hwf
  replace hcmd := of_decide_eq_true hcmd
  replace hpcat := of_decide_eq_true hpcat
  cases hpcase : jget (.obj fs) "params" with
  | none => rw [hpcase] at hwfp; simp at hwfp
  | some pv =>
  cases pv with
  | null => rw [hpcase] at hwfp; simp at hwfp
  | bool b => rw [hpcase] at hwfp; simp at hwfp
  | num n => rw [hpcase] at hwfp; simp at hwfp
  | str s => rw [hpcase] at hwfp; simp at hwfp
  | arr l => rw [hpcase] at hwfp; simp at hwfp
  | obj pf =>
  rw [hpcase] at hwfp
  simp only [Bool.and_eq_true] at hwfp
  obtain ⟨⟨hname, hcolsM⟩, hsrcM⟩ := hwfp
  obtain ⟨colsL, hcols⟩ : ∃ l, jget (.obj pf) "cols" = some (.arr l) := by
    cases hccase : jget (.obj pf) "cols" with
    | none => rw [hccase] at hcolsM; simp at hcolsM
    | some cv =>
      cases cv with
      | arr l => exact ⟨l, rfl⟩
      | null => rw [hccase] at hcolsM; simp at hcolsM
      | bool b => rw [hccase] at hcolsM; simp at hcolsM
      | num n => rw [hccase] at hcolsM; simp at hcolsM
      | str s => rw [hccase] at hcolsM; simp at hcolsM
      | obj l => rw [hccase] at hcolsM; simp at hcolsM
  obtain ⟨s0, hs0⟩ := output_source_ok hpcase ⟨pf, rfl⟩ hsrcM
  have hobjJ : ∃ l, jset (.obj fs) "params"
      (.obj (dump_params_of o pf s0)) = .obj l := ⟨_, rfl⟩
  obtain ⟨gsM, hgsM⟩ := dump_melt_step_obj o hobjJ
  have hobjM : ∃ l, dump_melt_step o (jset (.obj fs) "params"
      (.obj (dump_params_of o pf s0))) = .obj l := ⟨gsM, hgsM⟩
  obtain ⟨gsE, hE⟩ := dump_concat_step_obj o hobjM
  have hdump := dump_output_eq hfcase hcmd hpcase hs0 hcols
  rw [hE] at hdump
  obtain ⟨hload, hEcmd, hEos, hEparams, hEmelt, hEpcat⟩ :=
    load_output_eq hfcase hcmd hpcase hs0 hname hpcat hcols hE
  have h3cols : jget (.obj (dump_params_of o pf s0)) "cols"
      = some (.arr (keptCols o colsL)) := by
    show (dump_params_of o pf s0).lookup "cols" = _
    simp only [dump_params_of, hcols, Option.getD_some, setA_lookup_self]
  refine ⟨gsE, _, hdump, hload, hEcmd, ?_, rfl, hdel, ?_⟩
  · show sourceD _ = sourceD o
    simp only [sourceD, output_reload, hfcase, hs0, hEos]
  · have hlt : (dump_params_of o pf s0).lookup "target"
        = some (.str (output_target s0)) := by
      simp only [dump_params_of]
      rw [setA_lookup_ne _ _ _ _ (by decide),
        setA_lookup_ne _ _ _ _ (by decide), setA_lookup_self]
    have hlr : (dump_params_of o pf s0).lookup "read_csv"
        = some (.obj [("parse", .obj [("delimiter", o.delimiter)])]) := by
      simp only [dump_params_of]
      rw [setA_lookup_ne _ _ _ _ (by decide), setA_lookup_self]
    have hdump2 := dump_output_eq (o := output_reload o gsE colsL)
      rfl hEcmd hEparams hEos h3cols
    have hpp : dump_params_of (output_reload o gsE colsL)
        (dump_params_of o pf s0) s0 = dump_params_of o pf s0 := by
      rw [dump_params_of_eval h3cols]
      have hk2 : keptCols (output_reload o gsE colsL) (keptCols o colsL)
          = keptCols o colsL := zip_replicate_false_filterMap _
      have hdelim2 : (output_reload o gsE colsL).delimiter = o.delimiter := rfl
      rw [hk2, hdelim2, setA_id hlt, setA_id hlr, setA_id h3cols]
    rw [hpp] at hdump2
    have hsetid : jset (.obj gsE) "params" (.obj (dump_params_of o pf s0))
        = .obj gsE := jset_id hEparams
    rw [hsetid] at hdump2
    have hms : dump_melt_step (output_reload o gsE colsL) (.obj gsE)
        = .obj gsE := by
      unfold dump_melt_step
      have hmelt2 : (output_reload o gsE colsL).melt = melt_reload o.melt := rfl
      rw [hmelt2]
      cases hm : o.melt.enabled with
      | false =>
        have hmen : (melt_reload o.melt).enabled = false := by
          simp [melt_reload, hm]
        have hEmelt2 : jget (.obj gsE) "melt" = none := by
          simp [hm] at hEmelt
          exact hEmelt
        have hhasM : jhas (.obj gsE) "melt" = false := by
          simp [jhas, hEmelt2]
        simp only [hmen, Bool.false_eq_true, if_false, hhasM]
      | true =>
        have hmen : (melt_reload o.melt).enabled = true := by
          simp [melt_reload, hm]
        have hEmelt2 : jget (.obj gsE) "melt" = some (dump_melt o.melt) := by
          simp [hm] at hEmelt
          exact hEmelt
        have hmr : melt_reload o.melt = ⟨true,
            some (o.melt.key_name.getD (.str "")),
            some (o.melt.key_desc.getD (.str "")),
            some (o.melt.value_name.getD (.str "")),
            some (o.melt.value_desc.getD (.str ""))⟩ := by
          simp [melt_reload, hm]
        simp only [hmen, if_true, hmr, dump_melt_load]
        exact jset_id hEmelt2
    rw [hms] at hdump2
    have hcs : dump_concat_step (output_reload o gsE colsL) (.obj gsE)
        = .obj gsE := by
      unfold dump_concat_step
      have hcat2 : (output_reload o gsE colsL).concat = o.concat := rfl
      rw [hcat2]
      by_cases hcc : o.concat = []
      · simp [hcc]
      · have hEcat : jget (.obj gsE) "concat"
            = some (.arr (o.concat.map dump_concat)) := by
          rw [← hE, hgsM]
          exact dump_concat_step_jget_concat o hcc
        simp only [ne_eq, hcc, not_false_iff, if_true]
        exact jset_id hEcat
    rw [hcs] at hdump2
    exact hdump2

theorem output_list_round_trip :
    ∀ {outs : List OutputState}, (∀ o ∈ outs, wf_output o = true) →
      ∃ es os', dump_output_list outs = .ok es ∧
        pick_outputs (es ++ [manifestCommand]) = .ok os' ∧
        os'.map sourceD = outs.map sourceD ∧
        dump_output_list os' = .ok es
  | [], _ => ⟨[], [], rfl, by decide, rfl, rfl⟩
  | o :: rest, h => by
    obtain ⟨gsE, o', hdump, hload, hEcmd, hsrc, hodel2, hodel, hdump2⟩ :=
      output_round_trip (h o (List.mem_cons_self _ _))
    obtain ⟨es, os', hdl, hpick, hmap, hdl2⟩ :=
      output_list_round_trip (fun q hq => h q (List.mem_cons_of_mem _ hq))
    refine ⟨.obj gsE :: es, o' :: os', ?_, ?_, ?_, ?_⟩
    · simp only [dump_output_list, hodel, Bool.false_eq_true, if_false,
        hdump, except_ok_bind, hdl]
    · simp only [List.cons_append, pick_outputs, except_ok_bind, hEcmd,
        eq_self_iff_true, if_true, hload, List.append_eq, hpick]
    · simp only [List.map_cons, hsrc, hmap]
    · simp only [dump_output_list, hodel2, Bool.false_eq_true, if_false,
        hdump2, except_ok_bind, hdl2]

/-! ### Form-key strings and the form tree chain -/

theorem joinDot_cons_ne (y : String) {M : List String} (h : M ≠ []) :
    joinDot (y :: M) = y ++ "." ++ joinDot M := by
  cases M with
  | nil => exact absurd rfl h
  | cons z zs => rfl

theorem splitOnChar_joinDot :
    ∀ {fk : List String}, fk ≠ [] → (∀ s ∈ fk, dotFreeB s = true) →
      splitOnChar '.' (joinDot fk).data = fk
  | [], hne, _ => absurd rfl hne
  | [x], _, hd => by
    have hx : ∀ c ∈ x.data, c ≠ '.' := by
      intro c hc
      have hh := hd x (List.mem_cons_self _ _)
      simp only [dotFreeB, List.all_eq_true] at hh
      have := hh c hc
      simpa using this
    simp [joinDot, splitOnChar_no_sep hx]
  | x :: y :: xs, _, hd => by
    have hx : ∀ c ∈ x.data, c ≠ '.' := by
      intro c hc
      have hh := hd x (List.mem_cons_self _ _)
      simp only [dotFreeB, List.all_eq_true] at hh
      have := hh c hc
      simpa using this
    have ih := splitOnChar_joinDot (show (y :: xs : List String) ≠ [] by simp)
      (fun s hs => hd s (List.mem_cons_of_mem _ hs))
    rw [joinDot_cons_ne x (by simp)]
    have hdata : (x ++ "." ++ joinDot (y :: xs)).data
        = x.data ++ '.' :: (joinDot (y :: xs)).data := by
      rw [String.data_append, String.data_append, List.append_assoc]
      rfl
    rw [hdata, splitOnChar_sep_append _ _ hx, ih]

theorem marker_value_drop (t : String) :
    pyDrop (paramJsonMarker ++ t) 27 = t := by
  have h27 : paramJsonMarker.data.length = 27 := by decide
  rw [← h27]
  exact pyDrop_append _ _

theorem marker_ne_outdir (t : String) :
    paramJsonMarker ++ t ≠ outputDirectoryValue := by
  intro he
  have h := classify_fixed_distinct.2.2.2.1
  rw [← he] at h
  exact h (pyStartsWith_append _ _)

theorem marker_ne_indir (t : String) :
    paramJsonMarker ++ t ≠ inputDirectoryValue := by
  intro he
  have h := classify_fixed_distinct.2.2.2.2.1
  rw [← he] at h
  exact h (pyStartsWith_append _ _)

theorem marker_ne_dsname (t : String) :
    paramJsonMarker ++ t ≠ datasetNameValue := by
  intro he
  have h := classify_fixed_distinct.2.2.2.2.2
  rw [← he] at h
  exact h (pyStartsWith_append _ _)

/-- The subtree that `Param.dump` builds under a fresh form-key chain: at
each prefix the stored form element, carrying a `properties` entry that
holds the next level. -/
def chain_node (fes : List (String × Json)) : List String → List String → Json
  | pre, [] => (fes.lookup (joinDot pre)).getD .null
  | pre, k :: rest =>
      jset ((fes.lookup (joinDot pre)).getD .null) "properties"
        (.obj [(k, chain_node fes (pre ++ [k]) rest)])

/-- One stored form element is a dict without a `properties` entry. -/
def fes_entry_ok (fes : List (String × Json)) (pre : List String) : Bool :=
  match fes.lookup (joinDot pre) with
  | some (.obj vf) => !jhas (.obj vf) "properties"
  | _ => false

/-- Every stored form element strictly below `pre` along the remaining
path is a dict without a `properties` entry. -/
def fes_path_ok (fes : List (String × Json)) : List String → List String → Bool
  | _, [] => true
  | pre, k :: rest =>
      fes_entry_ok fes (pre ++ [k]) && fes_path_ok fes (pre ++ [k]) rest

theorem fes_entry_ok_elim {fes : List (String × Json)} {pre : List String}
    (h : fes_entry_ok fes pre = true) :
    ∃ vf, fes.lookup (joinDot pre) = some (.obj vf) ∧
      jhas (.obj vf) "properties" = false := by
  unfold fes_entry_ok at h
  cases hc : fes.lookup (joinDot pre) with
  | none => rw [hc] at h; simp at h
  | some v =>
    cases v with
    | obj vf =>
      rw [hc] at h
      simp only [Bool.not_eq_true'] at h
      exact ⟨vf, rfl, h⟩
    | null => rw [hc] at h; simp at h
    | bool b => rw [hc] at h; simp at h
    | num n => rw [hc] at h; simp at h
    | str s => rw [hc] at h; simp at h
    | arr l => rw [hc] at h; simp at h

theorem pointer_walk_fresh (fes : List (String × Json)) :
    ∀ (rest pre : List String) {vf : List (String × Json)},
      fes.lookup (joinDot pre) = some (.obj vf) →
      jhas (.obj vf) "properties" = false →
      fes_path_ok fes pre rest = true →
      pointer_walk fes pre (.obj vf) rest = .ok (chain_node fes pre rest)
  | [], pre, vf, hl, hp, _ => by
    simp [pointer_walk, chain_node, hl]
  | k :: rest, pre, vf, hl, hp, hok => by
    simp only [fes_path_ok, Bool.and_eq_true] at hok
    obtain ⟨hek, hrest⟩ := hok
    obtain ⟨vf', hl', hp'⟩ := fes_entry_ok_elim hek
    have hih := pointer_walk_fresh fes rest (pre ++ [k]) hl' hp' hrest
    have h1 : jgetD (jset (.obj vf) "properties" (.obj [])) "properties"
        (.obj []) = .obj [] := by
      simp [jgetD, jget_jset_self]
    have h3 : jgetD (jset (.obj ([] : List (String × Json))) k (.obj vf'))
        k .null = .obj vf' := by
      simp [jgetD, jget_jset_self]
    simp only [pointer_walk, hp, Bool.false_eq_true, if_false, h1, hl',
      except_ok_bind, h3, hih, jset_jset_same]
    have h2 : jhas (jset (.obj ([] : List (String × Json))) k (.obj vf'))
        k = true := jhas_jset_self _ _ _
    simp only [jhas, jgetD, jget, List.lookup] at h2 ⊢
    simp only [chain_node, hl, Option.getD_some]
    simp only [jset, setA, Option.isSome_none, Bool.false_eq_true, if_false,
      jget, List.lookup, beq_self_eq_true, Option.getD_some,
      eq_self_iff_true, if_true, ite_true]
    rw [hih]
    simp [except_ok_bind]

/-- The root of the dumped form tree: empty when no form element was
inserted, otherwise a single `properties` dict of root-level chains. -/
def rootP (P : List (String × Json)) : Json :=
  if P = [] then .obj [] else .obj [("properties", .obj P)]

theorem setA_append_last {k : String} (x y : Json) :
    ∀ {P : List (String × Json)}, (∀ q ∈ P, q.1 ≠ k) →
      setA (P ++ [(k, x)]) k y = P ++ [(k, y)]
  | [], _ => by simp [setA]
  | q :: rest, h => by
    have hq : q.1 ≠ k := h q (List.mem_cons_self _ _)
    obtain ⟨k1, v1⟩ := q
    simp only [List.cons_append, setA, hq, if_false, List.append_eq]
    rw [setA_append_last x y (fun r hr => h r (List.mem_cons_of_mem _ hr))]

theorem pointer_walk_root {fes : List (String × Json)}
    {P : List (String × Json)} {h1 : String} {tail : List String}
    (hP : P.lookup h1 = none)
    (hek : fes_entry_ok fes [h1] = true)
    (hok : fes_path_ok fes [h1] tail = true) :
    pointer_walk fes [] (rootP P) (h1 :: tail)
      = .ok (rootP (P ++ [(h1, chain_node fes [h1] tail)])) := by
  obtain ⟨vf, hl, hp⟩ := fes_entry_ok_elim hek
  have hfresh := pointer_walk_fresh fes tail [h1] hl hp hok
  by_cases hPe : P = []
  · subst hPe
    simp only [List.lookup] at hP
    simp only [rootP, if_pos rfl, List.nil_append]
    have hne : ([(h1, chain_node fes [h1] tail)] : List (String × Json))
        ≠ [] := by simp
    simp only [ne_eq, hne, if_false]
    simp only [pointer_walk, jhas, jget, List.lookup, Option.isSome_none,
      Bool.false_eq_true, if_false, jset, setA, jgetD, List.nil_append]
    simp only [hl, except_ok_bind, Option.isSome_none, Bool.false_eq_true,
      if_false, Option.getD_some, Option.getD_none, List.lookup,
      beq_self_eq_true, Option.isSome_some, eq_self_iff_true, if_true,
      ite_true]
    rw [hfresh]
    simp [setA]
  · have hkeys := keys_ne_of_lookup_none hP
    have happ : setA P h1 (.obj vf) = P ++ [(h1, .obj vf)] := setA_append hkeys
    have hchild : (P ++ [(h1, Json.obj vf)]).lookup h1
        = some (.obj vf) := by
      rw [lookup_append_none hP]
      simp [List.lookup]
    have hset2 : setA (P ++ [(h1, Json.obj vf)]) h1 (chain_node fes [h1] tail)
        = P ++ [(h1, chain_node fes [h1] tail)] := setA_append_last _ _ hkeys
    have hne2 : P ++ [(h1, chain_node fes [h1] tail)] ≠ [] := by simp
    simp only [rootP, if_neg hPe, ne_eq, hne2, if_false]
    simp only [pointer_walk, jhas, jget, List.lookup, beq_self_eq_true,
      Option.isSome_some, if_true, ite_true, jgetD, Option.getD_some,
      List.nil_append]
    simp only [hl, except_ok_bind]
    have hPs : (P.lookup h1).isSome = false := by simp [hP]
    simp only [jset, hPs, Bool.false_eq_true, if_false, happ, hchild,
      Option.getD_some]
    rw [hfresh]
    simp only [except_ok_bind, hset2, setA]
    simp [setA]

theorem gfe_chain (fes : List (String × Json)) (fkLen pathLen : Nat) :
    ∀ (restpath ext pre : List String) (ix : Nat)
      {vf : List (String × Json)},
      fes.lookup (joinDot pre) = some (.obj vf) →
      jhas (.obj vf) "properties" = false →
      fes_path_ok fes pre (restpath ++ ext) = true →
      get_form_element_go fkLen pathLen ix
        (chain_node fes pre (restpath ++ ext)) restpath
        = .ok (chain_node fes pre (restpath ++ ext),
               (fes.lookup (joinDot (pre ++ restpath))).getD .null)
  | [], ext, pre, ix, vf, hl, hp, hok => by
    cases ext with
    | nil =>
      simp only [List.nil_append, List.append_nil, chain_node, hl,
        Option.getD_some, get_form_element_go]
      rw [strip_no_properties hp]
      simp [except_ok_bind, hl]
    | cons e ext' =>
      simp only [List.nil_append, List.append_nil, chain_node, hl,
        Option.getD_some, get_form_element_go]
      rw [strip_jset_properties hp]
      simp [except_ok_bind, hl]
  | kp :: restpath', ext, pre, ix, vf, hl, hp, hok => by
    rw [List.cons_append] at hok ⊢
    simp only [fes_path_ok, Bool.and_eq_true] at hok
    obtain ⟨hek, hrest⟩ := hok
    obtain ⟨vf', hl', hp'⟩ := fes_entry_ok_elim hek
    have hih := gfe_chain fes fkLen pathLen restpath' ext (pre ++ [kp])
      (ix + 1) hl' hp' hrest
    simp only [chain_node, hl, Option.getD_some]
    simp only [get_form_element_go, jget_jset_self, except_ok_bind]
    have hhas : jhas (.obj [(kp, chain_node fes (pre ++ [kp])
        (restpath' ++ ext))]) kp = true := by
      simp [jhas, jget, List.lookup]
    simp only [hhas, if_true, ite_true, jgetD, jget, List.lookup,
      beq_self_eq_true, Option.getD_some]
    rw [hih]
    simp only [except_ok_bind, jset, setA, eq_self_iff_true, if_true,
      ite_true]
    rw [setA_setA_same, List.append_assoc]
    simp

theorem gfe_root (fes : List (String × Json)) (fkLen pathLen : Nat)
    {P : List (String × Json)} {h1 : String} {restpath ext : List String}
    (hQ : P.lookup h1 = some (chain_node fes [h1] (restpath ++ ext)))
    (hek : fes_entry_ok fes [h1] = true)
    (hok : fes_path_ok fes [h1] (restpath ++ ext) = true) :
    get_form_element_go fkLen pathLen 0
      (.obj [("properties", .obj P)]) (h1 :: restpath)
      = .ok (.obj [("properties", .obj P)],
             (fes.lookup (joinDot ([h1] ++ restpath))).getD .null) := by
  obtain ⟨vf, hl, hp⟩ := fes_entry_ok_elim hek
  have hchain := gfe_chain fes fkLen pathLen restpath ext [h1] 1 hl hp hok
  have hhas : jhas (.obj P) h1 = true := by simp [jhas, jget, hQ]
  simp only [get_form_element_go, jget, List.lookup, beq_self_eq_true,
    except_ok_bind, hhas, if_true, ite_true, jgetD, hQ, Option.getD_some]
  rw [hchain]
  simp only [except_ok_bind, jset, setA_id hQ, setA, beq_self_eq_true,
    eq_self_iff_true, if_true, ite_true]

/-- Generic composition of `build_form_elements` from per-prefix runs that
leave the document unchanged. -/
theorem build_form_elements_of_stable {fkLen : Nat} {config : Json}
    {f : List String → Json} :
    ∀ {prefixes : List (List String)},
      (∀ pre ∈ prefixes, get_form_element fkLen config pre
        = .ok (config, f pre)) →
      build_form_elements fkLen prefixes config
        = .ok (prefixes.map (fun pre => (joinDot pre, f pre)), config)
  | [], _ => rfl
  | pre :: rest, h => by
    have h1 := h pre (List.mem_cons_self _ _)
    have ih := build_form_elements_of_stable
      (fun q hq => h q (List.mem_cons_of_mem _ hq))
    simp only [build_form_elements, h1, except_ok_bind, ih, List.map_cons]

/-- Shape of every document handled by `format_config`: the six fixed
top-level sections of `empty_config`, with the form tree and the input
section exposed. -/
def DOC (dyn : Json) (I P : List (String × Json))
    (out comp prep : Json) : Json :=
  .obj [("dynamo", dyn),
        ("form", .obj [("form", rootP P), ("ui", .obj [])]),
        ("input", .obj I),
        ("output", out),
        ("compute", comp),
        ("preprocess", prep)]

theorem gfe_doc {fkLen : Nat} {dyn : Json} {I P : List (String × Json)}
    {out comp prep : Json} {fes : List (String × Json)} {h1 : String}
    {restpath ext : List String}
    (hQ : P.lookup h1 = some (chain_node fes [h1] (restpath ++ ext)))
    (hek : fes_entry_ok fes [h1] = true)
    (hok : fes_path_ok fes [h1] (restpath ++ ext) = true)
    (hPne : P ≠ []) :
    get_form_element fkLen (DOC dyn I P out comp prep) (h1 :: restpath)
      = .ok (DOC dyn I P out comp prep,
             (fes.lookup (joinDot ([h1] ++ restpath))).getD .null) := by
  have hroot := gfe_root fes fkLen (h1 :: restpath).length hQ hek hok
  have hform : jget (DOC dyn I P out comp prep) "form"
      = some (.obj [("form", rootP P), ("ui", .obj [])]) := rfl
  have hff : jget (.obj [("form", rootP P), ("ui", .obj [])]) "form"
      = some (rootP P) := rfl
  have hrootPne : rootP P = .obj [("properties", .obj P)] := by
    simp [rootP, hPne]
  simp only [get_form_element, hform, except_ok_bind, hff]
  rw [hrootPne, hroot]
  simp only [except_ok_bind]
  rw [← hrootPne]
  rfl

theorem key_prefixes_mem {fk : List String} {pre : List String}
    (h : pre ∈ key_prefixes fk) : ∃ i, i < fk.length ∧ pre = fk.take (i + 1) := by
  simp only [key_prefixes, List.mem_map, List.mem_range] at h
  obtain ⟨i, hi, hpre⟩ := h
  exact ⟨i, hi, hpre.symm⟩

theorem joinDot_append_length :
    ∀ {l : List String}, l ≠ [] → ∀ (x : String),
      (joinDot (l ++ [x])).data.length
        = (joinDot l).data.length + 1 + x.data.length
  | [], h, _ => absurd rfl h
  | [y], _, x => by
    simp [joinDot, String.data_append]
    omega
  | y :: z :: zs, _, x => by
    rw [List.cons_append, joinDot_cons_ne y (by simp),
      joinDot_cons_ne y (by simp)]
    have ih := joinDot_append_length (l := z :: zs) (by simp) x
    simp only [String.data_append, List.length_append]
    simp only [String.data_append, List.length_append] at ih
    omega

theorem joinDot_take_succ_length {fk : List String} {m : Nat}
    (h1 : 1 ≤ m) (h2 : m < fk.length) :
    (joinDot (fk.take m)).data.length
      < (joinDot (fk.take (m + 1))).data.length := by
  obtain ⟨x, hx⟩ : ∃ x, fk[m]? = some x := by
    cases hg : fk[m]? with
    | none =>
      rw [List.getElem?_eq_none_iff] at hg
      omega
    | some y => exact ⟨y, rfl⟩
  have htk : fk.take (m + 1) = fk.take m ++ [x] := by
    rw [List.take_succ, hx]
    rfl
  have hlen : (fk.take m).length = m := by
    rw [List.length_take]
    omega
  have hne : fk.take m ≠ [] := by
    intro hnil
    rw [hnil] at hlen
    simp at hlen
    omega
  rw [htk, joinDot_append_length hne]
  omega

theorem joinDot_take_mono {fk : List String} :
    ∀ {n m : Nat}, 1 ≤ m → m < n → n ≤ fk.length →
      (joinDot (fk.take m)).data.length
        < (joinDot (fk.take n)).data.length := by
  intro n
  induction n with
  | zero => intro m _ h2 _; omega
  | succ k ih =>
    intro m h1 h2 h3
    by_cases hk : m = k
    · subst hk
      exact joinDot_take_succ_length h1 (by omega)
    · have hlt := ih h1 (by omega) (by omega)
      have hstep := @joinDot_take_succ_length fk k
        (by omega) (by omega)
      exact Nat.lt_trans hlt hstep

theorem joinDot_take_ne {fk : List String} {m n : Nat}
    (h1 : 1 ≤ m) (hmn : m < n) (hn : n ≤ fk.length) :
    joinDot (fk.take m) ≠ joinDot (fk.take n) := by
  intro he
  have := joinDot_take_mono h1 hmn hn
  rw [he] at this
  omega

theorem fes_path_ok_intro {fes : List (String × Json)} :
    ∀ {rest pre : List String},
      (∀ q : List String, q ≠ [] → q.isPrefixOf rest = true →
        fes_entry_ok fes (pre ++ q) = true) →
      fes_path_ok fes pre rest = true
  | [], _, _ => rfl
  | k :: rest, pre, h => by
    simp only [fes_path_ok, Bool.and_eq_true]
    refine ⟨h [k] (by simp) (by simp [List.isPrefixOf]), ?_⟩
    exact fes_path_ok_intro (fun q hq hpre => by
      have := h (k :: q) (by simp) (by simp [List.isPrefixOf, hpre])
      simpa [List.append_assoc] using this)

theorem fes_path_ok_elim {fes : List (String × Json)} :
    ∀ {rest pre : List String}, fes_path_ok fes pre rest = true →
      ∀ q : List String, q ≠ [] → q.isPrefixOf rest = true →
        fes_entry_ok fes (pre ++ q) = true
  | [], pre, _, q, hq, hpre => by
    cases q with
    | nil => exact absurd rfl hq
    | cons a as => simp [List.isPrefixOf] at hpre
  | k :: rest, pre, h, q, hq, hpre => by
    simp only [fes_path_ok, Bool.and_eq_true] at h
    obtain ⟨hek, hrest⟩ := h
    cases q with
    | nil => exact absurd rfl hq
    | cons a as =>
      simp only [List.isPrefixOf, Bool.and_eq_true] at hpre
      obtain ⟨hak, has⟩ := hpre
      have ha : a = k := by simpa using hak
      subst ha
      cases has2 : as with
      | nil => simpa using hek
      | cons b bs =>
        have := fes_path_ok_elim hrest as (by simp [has2]) has
        rw [has2] at this
        simpa [List.append_assoc] using this

/-- The traversal value of a stored form element. -/
def valF (fes : List (String × Json)) (pre : List String) : Json :=
  (fes.lookup (joinDot pre)).getD .null

/-- The form-element map rebuilt by reloading a parameter: one entry per
form-key prefix, in order, holding the stripped traversal results. -/
def prefMap (fes : List (String × Json)) (fk : List String) :
    List (String × Json) :=
  (key_prefixes fk).map (fun pre => (joinDot pre, valF fes pre))

theorem lookup_of_get :
    ∀ {fs : List (String × Json)} {j : Nat} {k : String} {v : Json},
      fs[j]? = some (k, v) →
      (∀ i, i < j → ∀ p : String × Json, fs[i]? = some p → p.1 ≠ k) →
      fs.lookup k = some v
  | [], j, k, v, hget, _ => by simp at hget
  | q :: rest, 0, k, v, hget, _ => by
    simp at hget
    rw [hget]
    simp [List.lookup]
  | q :: rest, j + 1, k, v, hget, hne => by
    have hq : q.1 ≠ k := hne 0 (by omega) q (by simp)
    have hb : (k == q.1) = false := beq_eq_false_iff_ne.mpr (Ne.symm hq)
    simp only [List.lookup, hb]
    exact lookup_of_get (by simpa using hget)
      (fun i hi p hp => hne (i + 1) (by omega) p (by simpa using hp))

theorem prefMap_lookup {fes : List (String × Json)} {fk : List String}
    {j : Nat} (hj : j < fk.length) :
    (prefMap fes fk).lookup (joinDot (fk.take (j + 1)))
      = some (valF fes (fk.take (j + 1))) := by
  apply lookup_of_get (j := j)
  · simp only [prefMap, key_prefixes, List.getElem?_map, List.getElem?_range,
      hj]
    rfl
  · intro i hi p hp
    simp only [prefMap, key_prefixes, List.getElem?_map, List.getElem?_range,
      (by omega : i < fk.length)] at hp
    have hp2 : (joinDot (fk.take (i + 1)), valF fes (fk.take (i + 1))) = p := by
      simpa using hp
    rw [← hp2]
    show joinDot (fk.take (i + 1)) ≠ joinDot (fk.take (j + 1))
    exact joinDot_take_ne (by omega) (by omega) (by omega)

/-- The binding expression `Param.dump` writes into `config["input"]`. -/
def dump_value (p : ParamState) : Json :=
  match p.input_type with
  | .outputDirectory => .str outputDirectoryValue
  | .inputDirectory => .str inputDirectoryValue
  | .datasetName => .str datasetNameValue
  | _ => p.value

def fkOf (p : ParamState) : List String := p.form_key.getD []

def refIdx (refs : List RefEntry) (rid : String) : Option Nat :=
  refs.findIdx? (fun r => r.directory == rid || r.name == rid)

/-- The reference file name selected by `Param.dump` for a Cirro
Reference parameter. -/
def refPick (refs : List RefEntry) (rid rfile : String) : String :=
  match refIdx refs rid with
  | some i =>
    match refs.get? i with
    | some r => (r.validation.get? ((r.validation.findIdx?
        (· == rfile)).getD 0)).getD ""
    | none => ""
  | none => ""

/-- The reference `file` attribute re-derived by `Param.dump`. -/
def file_str_of (refs : List RefEntry) (p : ParamState) : String :=
  "**/" ++ (p.reference_id.getD "") ++ "/**/" ++
    refPick refs (p.reference_id.getD "") (p.reference_file.getD "")

/-- The form elements actually written by `Param.dump`: the stored ones,
with the `file` attribute of the terminal element re-derived for a Cirro
Reference parameter. -/
def fes1 (refs : List RefEntry) (p : ParamState) : List (String × Json) :=
  if p.form_type = some .cirroReference then
    setA (p.form_elements.getD []) (joinDot (fkOf p))
      (jset (valF (p.form_elements.getD []) (fkOf p)) "file"
        (.str (file_str_of refs p)))
  else p.form_elements.getD []

theorem slashFreeB_elim {s : String} (h : slashFreeB s = true) :
    ∀ c ∈ s.data, c ≠ '/' := by
  intro c hc
  simp only [slashFreeB, List.all_eq_true] at h
  have := h c hc
  simpa using this

theorem file_str_data (rid fn : String) :
    ("**/" ++ rid ++ "/**/" ++ fn).data
      = '*' :: '*' :: '/' :: (rid.data ++ '/' :: ('*' :: '*' :: '/' :: fn.data)) := by
  simp only [String.data_append, List.append_assoc]
  rfl

theorem file_str_startswith (rid fn : String) :
    pyStartsWith ("**/" ++ rid ++ "/**/" ++ fn) "**/" = true := by
  unfold pyStartsWith
  rw [file_str_data]
  show List.isPrefixOf ['*', '*', '/'] _ = true
  simp [List.isPrefixOf]

theorem split_file_str_full {rid fn : String} (hr : slashFreeB rid = true)
    (hf : slashFreeB fn = true) :
    splitOnChar '/' ("**/" ++ rid ++ "/**/" ++ fn).data
      = ["**", rid, "**", fn] := by
  rw [file_str_data]
  have h1 : ('*' :: '*' :: '/' ::
        (rid.data ++ '/' :: ('*' :: '*' :: '/' :: fn.data)))
      = ['*', '*'] ++ '/' :: (rid.data ++ '/' :: (['*', '*'] ++ '/' :: fn.data)) := rfl
  rw [h1, splitOnChar_sep_append _ _ (by decide),
    splitOnChar_sep_append _ _ (slashFreeB_elim hr),
    splitOnChar_sep_append _ _ (by decide),
    splitOnChar_no_sep (slashFreeB_elim hf)]

theorem split_file_str_drop {rid fn : String} (hr : slashFreeB rid = true)
    (hf : slashFreeB fn = true) :
    splitOnChar '/' (pyDrop ("**/" ++ rid ++ "/**/" ++ fn) 3).data
      = [rid, "**", fn] := by
  unfold pyDrop
  rw [file_str_data]
  show splitOnChar '/' (rid.data ++ '/' :: ('*' :: '*' :: '/' :: fn.data)) = _
  have h1 : (rid.data ++ '/' :: ('*' :: '*' :: '/' :: fn.data))
      = rid.data ++ '/' :: (['*', '*'] ++ '/' :: fn.data) := rfl
  rw [h1, splitOnChar_sep_append _ _ (slashFreeB_elim hr),
    splitOnChar_sep_append _ _ (by decide),
    splitOnChar_no_sep (slashFreeB_elim hf)]

/-! ### Parameter well-formedness and the reloaded parameter state -/

def nodupB : List String → Bool
  | [] => true
  | x :: xs => xs.all (fun y => y != x) && nodupB xs

def liveParams (ps : List ParamState) : List ParamState :=
  ps.filter (fun p => !p.deleted)

def liveIds (ps : List ParamState) : List String :=
  (liveParams ps).map (fun p => p.id)

def formHeads (ps : List ParamState) : List String :=
  ((liveParams ps).filter (fun p => p.input_type == .formEntry)).map
    (fun p => (fkOf p).headD "")

/-- The input-section entries contributed by a parameter list. -/
def inputDelta : List ParamState → List (String × Json)
  | [] => []
  | p :: ps =>
    (if p.deleted then [] else [(p.id, dump_value p)]) ++ inputDelta ps

/-- The root form-tree entries contributed by a parameter list. -/
def formDelta (refs : List RefEntry) : List ParamState → List (String × Json)
  | [] => []
  | p :: ps =>
    (if !p.deleted && p.input_type == .formEntry then
      [((fkOf p).headD "", chain_node (fes1 refs p) [(fkOf p).headD ""]
        (fkOf p).tail)]
     else []) ++ formDelta refs ps

/-- Form-type specific conditions on the terminal form element of a
Form-Entry parameter, mirroring the classification of `Param.__init__`
and the catalog lookups of `Param.dump`. -/
def wf_form_branch (refs : List RefEntry) (p : ParamState)
    (fk : List String) (fes : List (String × Json)) : Bool :=
  let fcEl := valF fes fk
  match p.form_type with
  | some .cirroDataset =>
      decide (jget fcEl "pathType" = some (.str "dataset")) &&
      jhas fcEl "process"
  | some .inputFile =>
      decide (jget fcEl "pathType" = some (.str "dataset")) &&
      !jhas fcEl "process" && jhas fcEl "file"
  | some .userProvidedValue =>
      decide (jget fcEl "pathType" ≠ some (.str "dataset")) &&
      decide (jget fcEl "pathType" ≠ some (.str "references"))
  | some .cirroReference =>
      decide (jget fcEl "pathType" = some (.str "references")) &&
      (match p.reference_id, p.reference_file with
       | some rid, some rfile =>
         slashFreeB rid &&
         (match refIdx refs rid with
          | some i =>
            (match refs.get? i with
             | some r =>
               (match r.validation.get? ((r.validation.findIdx?
                   (· == rfile)).getD 0) with
                | some fn => slashFreeB fn
                | none => false)
             | none => false)
          | none => false)
       | _, _ => false)
  | none => false

/-- Well-formedness of one parameter state for the dump/load/dump round
trip: a deleted parameter needs nothing; the three fixed kinds need
nothing; a hardcoded value must be a string that re-classifies as
hardcoded; a Form Entry must carry a form key matching its binding
expression, stored form elements (dicts without `properties`) for every
prefix, and a form type consistent with the terminal element. -/
def wf_param (refs : List RefEntry) (p : ParamState) : Bool :=
  p.deleted ||
  (match p.input_type with
   | .outputDirectory => true
   | .inputDirectory => true
   | .datasetName => true
   | .hardcodedValue =>
     (match p.value with
      | .str s => decide (classify_input_type s = .hardcodedValue)
      | _ => false)
   | .formEntry =>
     (match p.form_key, p.form_elements with
      | some fk, some fes =>
        decide (fk ≠ []) && fk.all dotFreeB &&
        decide (p.value = .str (paramJsonMarker ++ joinDot fk)) &&
        fes_entry_ok fes (fk.take 1) &&
        fes_path_ok fes (fk.take 1) fk.tail &&
        wf_form_branch refs p fk fes
      | _, _ => false))

/-- The parameter state produced by reloading a dumped parameter. -/
def loaded_param (refs : List RefEntry) (p : ParamState) : ParamState :=
  match p.input_type with
  | .outputDirectory =>
    { id := p.id, value := .str outputDirectoryValue
      input_type := .outputDirectory, form_key := none, form_elements := none
      form_type := none, reference_id := none, reference_file := none
      deleted := false }
  | .inputDirectory =>
    { id := p.id, value := .str inputDirectoryValue
      input_type := .inputDirectory, form_key := none, form_elements := none
      form_type := none, reference_id := none, reference_file := none
      deleted := false }
  | .datasetName =>
    { id := p.id, value := .str datasetNameValue
      input_type := .datasetName, form_key := none, form_elements := none
      form_type := none, reference_id := none, reference_file := none
      deleted := false }
  | .hardcodedValue =>
    { id := p.id, value := p.value
      input_type := .hardcodedValue, form_key := none, form_elements := none
      form_type := none, reference_id := none, reference_file := none
      deleted := false }
  | .formEntry =>
    { id := p.id, value := p.value
      input_type := .formEntry
      form_key := some (fkOf p)
      form_elements := some (prefMap (fes1 refs p) (fkOf p))
      form_type := p.form_type
      reference_id :=
        if p.form_type = some .cirroReference
        then some (p.reference_id.getD "") else none
      reference_file :=
        if p.form_type = some .cirroReference
        then some (refPick refs (p.reference_id.getD "")
          (p.reference_file.getD "")) else none
      deleted := false }

theorem wf_param_form_elim {refs : List RefEntry} {p : ParamState}
    (hwf : wf_param refs p = true) (hlive : p.deleted = false)
    (hform : p.input_type = .formEntry) :
    ∃ h1 tail fes,
      p.form_key = some (h1 :: tail) ∧
      p.form_elements = some fes ∧
      (∀ s ∈ h1 :: tail, dotFreeB s = true) ∧
      p.value = .str (paramJsonMarker ++ joinDot (h1 :: tail)) ∧
      fes_entry_ok fes [h1] = true ∧
      fes_path_ok fes [h1] tail = true ∧
      wf_form_branch refs p (h1 :: tail) fes = true := by
  unfold wf_param at hwf
  rw [hlive, hform] at hwf
  simp only [Bool.false_or] at hwf
  cases hfk : p.form_key with
  | none => rw [hfk] at hwf; simp at hwf
  | some fk =>
  cases hfes : p.form_elements with
  | none => rw [hfk, hfes] at hwf; simp at hwf
  | some fes =>
  rw [hfk, hfes] at hwf
  simp only [Bool.and_eq_true, decide_eq_true_eq, List.all_eq_true] at hwf
  obtain ⟨⟨⟨⟨⟨hne, hdot⟩, hval⟩, hek⟩, hpath⟩, hbr⟩ := hwf
  cases fk with
  | nil => exact absurd rfl hne
  | cons h1 tail =>
    exact ⟨h1, tail, fes, rfl, rfl, hdot, hval, hek, hpath, hbr⟩

theorem isPrefixOf_self (l : List String) : l.isPrefixOf l = true :=
  List.isPrefixOf_iff_prefix.mpr (List.prefix_refl l)

theorem fes_entry_ok_full {fes : List (String × Json)} {h1 : String}
    {tail : List String}
    (hek : fes_entry_ok fes [h1] = true)
    (hpath : fes_path_ok fes [h1] tail = true) :
    fes_entry_ok fes (h1 :: tail) = true := by
  cases tail with
  | nil => exact hek
  | cons t ts =>
    have := fes_path_ok_elim hpath (t :: ts) (by simp)
      (isPrefixOf_self (t :: ts))
    simpa using this

theorem wf_ref_elim {refs : List RefEntry} {p : ParamState}
    {fk : List String} {fes : List (String × Json)}
    (hbr : wf_form_branch refs p fk fes = true)
    (hft : p.form_type = some .cirroReference) :
    ∃ rid rfile i r fn,
      p.reference_id = some rid ∧ p.reference_file = some rfile ∧
      slashFreeB rid = true ∧
      refIdx refs rid = some i ∧ refs.get? i = some r ∧
      r.validation.get? ((r.validation.findIdx? (· == rfile)).getD 0)
        = some fn ∧
      slashFreeB fn = true ∧
      jget (valF fes fk) "pathType" = some (.str "references") ∧
      refPick refs rid rfile = fn ∧
      file_str_of refs p = "**/" ++ rid ++ "/**/" ++ fn := by
  unfold wf_form_branch at hbr
  rw [hft] at hbr
  simp only [Bool.and_eq_true, decide_eq_true_eq] at hbr
  obtain ⟨hpt, hrest⟩ := hbr
  cases hrid : p.reference_id with
  | none => rw [hrid] at hrest; simp at hrest
  | some rid =>
  cases hrfile : p.reference_file with
  | none => rw [hrid, hrfile] at hrest; simp at hrest
  | some rfile =>
  rw [hrid, hrfile] at hrest
  simp only [Bool.and_eq_true] at hrest
  obtain ⟨hsr, hrest⟩ := hrest
  cases hidx : refIdx refs rid with
  | none =>
    simp only [hidx] at hrest
    exact absurd hrest (by simp)
  | some i =>
  simp only [hidx] at hrest
  cases hr : refs.get? i with
  | none =>
    simp only [hr] at hrest
    exact absurd hrest (by simp)
  | some r =>
  simp only [hr] at hrest
  cases hfn : r.validation.get? ((r.validation.findIdx? (· == rfile)).getD 0)
    with
  | none =>
    simp only [hfn] at hrest
    exact absurd hrest (by simp)
  | some fn =>
  simp only [hfn] at hrest
  have hpick : refPick refs rid rfile = fn := by
    unfold refPick
    simp only [hidx, hr, hfn, Option.getD_some]
  refine ⟨rid, rfile, i, r, fn, rfl, rfl, hsr, hidx, hr, hfn, hrest, hpt,
    hpick, ?_⟩
  unfold file_str_of
  rw [hrid, hrfile]
  simp only [Option.getD_some, hpick]

theorem reference_form_elements_eq {refs : List RefEntry} {p : ParamState}
    {fk : List String} {fes : List (String × Json)} {fcEl : Json}
    (hfk : p.form_key = some fk) (hfes : p.form_elements = some fes)
    (hfcEl : fes.lookup (joinDot fk) = some fcEl)
    (hft : p.form_type = some .cirroReference)
    (hbr : wf_form_branch refs p fk fes = true) :
    reference_form_elements refs p = .ok (fes1 refs p) := by
  obtain ⟨rid, rfile, i, r, fn, hrid, hrfile, hsr, hidx, hr, hfn, hsf, hpt,
    hpick, hfstr⟩ := wf_ref_elim hbr hft
  unfold reference_form_elements
  simp only [hfk, except_ok_bind]
  simp only [hfes, except_ok_bind]
  simp only [hfcEl, except_ok_bind]
  simp only [hrid, except_ok_bind]
  simp only [hrfile, except_ok_bind]
  unfold refIdx at hidx
  simp only [hidx, except_ok_bind]
  simp only [hr, except_ok_bind]
  simp only [hfn, except_ok_bind, Option.getD_some]
  unfold fes1
  rw [if_pos hft]
  unfold fkOf valF
  rw [hfk, hfes]
  simp only [Option.getD_some, hfcEl, hfstr]

theorem joinDot_take_ne_full {fk : List String} {m : Nat}
    (hm1 : 1 ≤ m) (hm : m < fk.length) :
    joinDot (fk.take m) ≠ joinDot fk := by
  have h := joinDot_take_ne hm1 hm (Nat.le_refl fk.length)
  rwa [List.take_length] at h

theorem fes1_eq_of_not_ref {refs : List RefEntry} {p : ParamState}
    {fes : List (String × Json)} (hfes : p.form_elements = some fes)
    (hft : p.form_type ≠ some .cirroReference) :
    fes1 refs p = fes := by
  unfold fes1
  rw [if_neg hft, hfes]
  rfl

theorem fes1_lookup_full {refs : List RefEntry} {p : ParamState}
    {fk : List String} {fes : List (String × Json)}
    (hfk : p.form_key = some fk) (hfes : p.form_elements = some fes)
    (hft : p.form_type = some .cirroReference) :
    (fes1 refs p).lookup (joinDot fk)
      = some (jset (valF fes fk) "file" (.str (file_str_of refs p))) := by
  unfold fes1
  rw [if_pos hft, hfes]
  unfold fkOf
  rw [hfk]
  simp only [Option.getD_some]
  exact setA_lookup_self _ _ _

theorem fes1_lookup_take {refs : List RefEntry} {p : ParamState}
    {fk : List String} {fes : List (String × Json)}
    (hfk : p.form_key = some fk) (hfes : p.form_elements = some fes)
    {m : Nat} (hm1 : 1 ≤ m) (hm : m < fk.length) :
    (fes1 refs p).lookup (joinDot (fk.take m))
      = fes.lookup (joinDot (fk.take m)) := by
  unfold fes1
  by_cases hft : p.form_type = some .cirroReference
  · rw [if_pos hft, hfes]
    unfold fkOf
    rw [hfk]
    simp only [Option.getD_some]
    exact setA_lookup_ne _ _ _ _ (joinDot_take_ne_full hm1 hm)
  · rw [if_neg hft, hfes]
    rfl

theorem fes1_path_facts {refs : List RefEntry} {p : ParamState}
    {h1 : String} {tail : List String} {fes : List (String × Json)}
    (hfk : p.form_key = some (h1 :: tail))
    (hfes : p.form_elements = some fes)
    (hek : fes_entry_ok fes [h1] = true)
    (hpath : fes_path_ok fes [h1] tail = true)
    (hft : p.form_type = some .cirroReference) :
    fes_entry_ok (fes1 refs p) [h1] = true ∧
    fes_path_ok (fes1 refs p) [h1] tail = true := by
  have hterm := fes_entry_ok_full hek hpath
  obtain ⟨vfT, hlT, hpT⟩ := fes_entry_ok_elim hterm
  have hflT := @fes1_lookup_full refs p (h1 :: tail) fes hfk hfes hft
  have hvalT : valF fes (h1 :: tail) = .obj vfT := by
    unfold valF
    rw [hlT]
    rfl
  have hXobj : jset (valF fes (h1 :: tail)) "file"
      (.str (file_str_of refs p))
      = .obj (setA vfT "file" (.str (file_str_of refs p))) := by
    rw [hvalT]
    rfl
  have hXprop : jhas (.obj (setA vfT "file" (.str (file_str_of refs p))))
      "properties" = false := by
    rw [← hXobj, jhas_jset_ne _ _ _ (by decide), hvalT]
    exact hpT
  have hfullEntry : fes_entry_ok (fes1 refs p) (h1 :: tail) = true := by
    unfold fes_entry_ok
    rw [hflT, hXobj]
    simp [hXprop]
  constructor
  · cases htail : tail with
    | nil =>
      rw [htail] at hfullEntry
      exact hfullEntry
    | cons t ts =>
      unfold fes_entry_ok
      have hkey : ([h1] : List String) = (h1 :: tail).take 1 := rfl
      rw [hkey, fes1_lookup_take hfk hfes (by omega) (by simp [htail])]
      have hek2 := hek
      unfold fes_entry_ok at hek2
      rw [← hkey]
      exact hek2
  · apply fes_path_ok_intro
    intro q hq hqpre
    have hqtake : q = tail.take q.length :=
      List.prefix_iff_eq_take.mp (List.isPrefixOf_iff_prefix.mp hqpre)
    have hqlen : q.length ≤ tail.length := by
      have := List.IsPrefix.length_le (List.isPrefixOf_iff_prefix.mp hqpre)
      exact this
    have hkey : [h1] ++ q = (h1 :: tail).take (q.length + 1) := by
      rw [List.take_succ_cons, ← hqtake]
      rfl
    by_cases hfull : q.length = tail.length
    · have hqt : q = tail := by
        rw [hqtake, hfull, List.take_length]
      rw [hqt]
      exact hfullEntry
    · unfold fes_entry_ok
      rw [hkey, fes1_lookup_take hfk hfes (by omega)
        (by simp; omega)]
      have helim := fes_path_ok_elim hpath q hq hqpre
      unfold fes_entry_ok at helim
      rw [← hkey]
      exact helim

theorem load_param_doc {refs : List RefEntry} {p : ParamState} {dyn : Json}
    {I P : List (String × Json)} {out comp prep : Json}
    (hwf : wf_param refs p = true) (hlive : p.deleted = false)
    (hIv : I.lookup p.id = some (dump_value p))
    (hPh : p.input_type = .formEntry →
      P.lookup ((fkOf p).headD "")
        = some (chain_node (fes1 refs p) [(fkOf p).headD ""] (fkOf p).tail)) :
    load_param p.id (DOC dyn I P out comp prep)
      = .ok (loaded_param refs p, DOC dyn I P out comp prep) := by
  have hd := classify_fixed_distinct
  have hInput : jget (DOC dyn I P out comp prep) "input" = some (.obj I) := rfl
  have hIv2 : jget (Json.obj I) p.id = some (dump_value p) := hIv
  cases hit : p.input_type with
  | outputDirectory =>
    have hv : dump_value p = .str outputDirectoryValue := by
      simp [dump_value, hit]
    rw [hv] at hIv2
    simp only [load_param, hInput, except_ok_bind, hIv2]
    simp [loaded_param, hit]
  | inputDirectory =>
    have hv : dump_value p = .str inputDirectoryValue := by
      simp [dump_value, hit]
    rw [hv] at hIv2
    have hne1 : (Json.str inputDirectoryValue)
        ≠ (Json.str outputDirectoryValue) := by
      simpa using Ne.symm hd.1
    simp only [load_param, hInput, except_ok_bind, hIv2]
    rw [if_neg hne1]
    simp [loaded_param, hit]
  | datasetName =>
    have hv : dump_value p = .str datasetNameValue := by
      simp [dump_value, hit]
    rw [hv] at hIv2
    have hne1 : (Json.str datasetNameValue)
        ≠ (Json.str outputDirectoryValue) := by
      simpa using Ne.symm hd.2.1
    have hne2 : (Json.str datasetNameValue)
        ≠ (Json.str inputDirectoryValue) := by
      simpa using Ne.symm hd.2.2.1
    simp only [load_param, hInput, except_ok_bind, hIv2]
    rw [if_neg hne1, if_neg hne2]
    simp [loaded_param, hit]
  | hardcodedValue =>
    unfold wf_param at hwf
    rw [hlive, hit] at hwf
    simp only [Bool.false_or] at hwf
    obtain ⟨s, hs, hcl⟩ : ∃ s, p.value = .str s ∧
        classify_input_type s = .hardcodedValue := by
      cases hv : p.value with
      | str s =>
        rw [hv] at hwf
        simp only [decide_eq_true_eq] at hwf
        exact ⟨s, rfl, hwf⟩
      | null => rw [hv] at hwf; simp at hwf
      | bool b => rw [hv] at hwf; simp at hwf
      | num n => rw [hv] at hwf; simp at hwf
      | arr l => rw [hv] at hwf; simp at hwf
      | obj l => rw [hv] at hwf; simp at hwf
    obtain ⟨hno, hni, hnd, hnm⟩ :=
      ((classify_input_type_total_and_roundtrip s).2.2.2.2.1).mp hcl
    have hv : dump_value p = .str s := by
      simp [dump_value, hit, hs]
    rw [hv] at hIv2
    have hne1 : (Json.str s) ≠ (Json.str outputDirectoryValue) := by
      simpa using hno
    have hne2 : (Json.str s) ≠ (Json.str inputDirectoryValue) := by
      simpa using hni
    have hne3 : (Json.str s) ≠ (Json.str datasetNameValue) := by
      simpa using hnd
    have hnm2 : pyStartsWith s paramJsonMarker = false :=
      Bool.not_eq_true _ ▸ (by simpa using hnm)
    simp only [load_param, hInput, except_ok_bind, hIv2]
    rw [if_neg hne1, if_neg hne2, if_neg hne3]
    simp only [hnm2, Bool.false_eq_true, if_false]
    simp [loaded_param, hit, hs]
  | formEntry =>
    obtain ⟨h1, tail, fes, hfk, hfes, hdot, hval, hek, hpath, hbr⟩ :=
      wf_param_form_elim hwf hlive hit
    have hfkOf : fkOf p = h1 :: tail := by
      unfold fkOf
      rw [hfk]
      rfl
    have hPh2 := hPh hit
    rw [hfkOf] at hPh2
    have hv : dump_value p = .str (paramJsonMarker ++ joinDot (h1 :: tail)) := by
      simp [dump_value, hit, hval]
    rw [hv] at hIv2
    have hne1 := marker_ne_outdir (joinDot (h1 :: tail))
    have hne2 := marker_ne_indir (joinDot (h1 :: tail))
    have hne3 := marker_ne_dsname (joinDot (h1 :: tail))
    have hsw : pyStartsWith (paramJsonMarker ++ joinDot (h1 :: tail))
        paramJsonMarker = true := pyStartsWith_append _ _
    have hsplit : splitOnChar '.'
        (pyDrop (paramJsonMarker ++ joinDot (h1 :: tail)) 27).data
        = h1 :: tail := by
      rw [marker_value_drop]
      exact splitOnChar_joinDot (by simp) hdot
    -- fes1 entry/path facts
    have hf1facts : fes_entry_ok (fes1 refs p) [h1] = true ∧
        fes_path_ok (fes1 refs p) [h1] tail = true := by
      by_cases hft : p.form_type = some .cirroReference
      · exact fes1_path_facts hfk hfes hek hpath hft
      · rw [fes1_eq_of_not_ref hfes hft]
        exact ⟨hek, hpath⟩
    have hPne : P ≠ [] := by
      intro hPe
      rw [hPe] at hPh2
      simp [List.lookup] at hPh2
    -- stable traversal of every prefix
    have hstable : ∀ pre ∈ key_prefixes (h1 :: tail),
        get_form_element (h1 :: tail).length (DOC dyn I P out comp prep) pre
          = .ok (DOC dyn I P out comp prep, valF (fes1 refs p) pre) := by
      intro pre hpre
      obtain ⟨i, hi, hpre2⟩ := key_prefixes_mem hpre
      rw [hpre2, List.take_succ_cons]
      have htad : tail.take i ++ tail.drop i = tail := List.take_append_drop _ _
      have hQ : P.lookup h1 = some (chain_node (fes1 refs p) [h1]
          (tail.take i ++ tail.drop i)) := by
        rw [htad]
        exact hPh2
      have hok : fes_path_ok (fes1 refs p) [h1]
          (tail.take i ++ tail.drop i) = true := by
        rw [htad]
        exact hf1facts.2
      exact @gfe_doc (h1 :: tail).length dyn I P out comp prep
        (fes1 refs p) h1 (tail.take i) (tail.drop i) hQ hf1facts.1 hok hPne
    have hbuild := build_form_elements_of_stable hstable
    -- terminal element of the rebuilt map
    have hterm : (prefMap (fes1 refs p) (h1 :: tail)).lookup
        (joinDot (h1 :: tail)) = some (valF (fes1 refs p) (h1 :: tail)) := by
      have := @prefMap_lookup (fes1 refs p) (h1 :: tail) tail.length (by simp)
      rwa [show (h1 :: tail).take (tail.length + 1) = h1 :: tail by
        simp [List.take_succ_cons]] at this
    simp only [load_param, hInput, except_ok_bind, hIv2]
    rw [if_neg (by simpa using hne1), if_neg (by simpa using hne2),
      if_neg (by simpa using hne3)]
    simp only [hsw, if_true, ite_true, hsplit, hbuild, except_ok_bind, hterm]
    obtain ⟨vfT, hlT, hpT⟩ := fes_entry_ok_elim (fes_entry_ok_full hek hpath)
    have hvalT2 : valF fes (h1 :: tail) = .obj vfT := by
      unfold valF
      rw [hlT]
      rfl
    have hterm2 : List.lookup (joinDot (h1 :: tail))
        (List.map (fun pre => (joinDot pre, valF (fes1 refs p) pre))
          (key_prefixes (h1 :: tail)))
        = some (valF (fes1 refs p) (h1 :: tail)) := by
      simpa [prefMap] using hterm
    cases hft2 : p.form_type with
    | none =>
      unfold wf_form_branch at hbr
      rw [hft2] at hbr
      simp at hbr
    | some ft =>
    cases ft with
    | cirroDataset =>
      unfold wf_form_branch at hbr
      rw [hft2] at hbr
      simp only [Bool.and_eq_true, decide_eq_true_eq] at hbr
      obtain ⟨hpt, hproc⟩ := hbr
      have hfeq : fes1 refs p = fes :=
        fes1_eq_of_not_ref hfes (by simp [hft2])
      have hpt2 : jget (valF (fes1 refs p) (h1 :: tail)) "pathType"
          = some (.str "dataset") := by
        rw [hfeq]
        exact hpt
      have hproc2 : jhas (valF (fes1 refs p) (h1 :: tail)) "process"
          = true := by
        rw [hfeq]
        exact hproc
      simp only [hterm2]
      rw [if_pos hpt2]
      simp only [hproc2, if_true, ite_true]
      simp [loaded_param, hit, hfkOf, hft2, prefMap, hval]
    | inputFile =>
      unfold wf_form_branch at hbr
      rw [hft2] at hbr
      simp only [Bool.and_eq_true, decide_eq_true_eq,
        Bool.not_eq_true'] at hbr
      obtain ⟨⟨hpt, hproc⟩, hfile⟩ := hbr
      have hfeq : fes1 refs p = fes :=
        fes1_eq_of_not_ref hfes (by simp [hft2])
      have hpt2 : jget (valF (fes1 refs p) (h1 :: tail)) "pathType"
          = some (.str "dataset") := by
        rw [hfeq]
        exact hpt
      have hproc2 : jhas (valF (fes1 refs p) (h1 :: tail)) "process"
          = false := by
        rw [hfeq]
        exact hproc
      have hfile2 : jhas (valF (fes1 refs p) (h1 :: tail)) "file" = true := by
        rw [hfeq]
        exact hfile
      simp only [hterm2]
      rw [if_pos hpt2]
      simp only [hproc2, Bool.false_eq_true, if_false, hfile2, if_true,
        ite_true]
      simp [loaded_param, hit, hfkOf, hft2, prefMap, hval]
    | userProvidedValue =>
      unfold wf_form_branch at hbr
      rw [hft2] at hbr
      simp only [Bool.and_eq_true, decide_eq_true_eq] at hbr
      obtain ⟨hpt1, hpt2⟩ := hbr
      have hfeq : fes1 refs p = fes :=
        fes1_eq_of_not_ref hfes (by simp [hft2])
      have hpt1b : jget (valF (fes1 refs p) (h1 :: tail)) "pathType"
          ≠ some (.str "dataset") := by
        rw [hfeq]
        exact hpt1
      have hpt2b : jget (valF (fes1 refs p) (h1 :: tail)) "pathType"
          ≠ some (.str "references") := by
        rw [hfeq]
        exact hpt2
      simp only [hterm2]
      rw [if_neg hpt1b, if_neg hpt2b]
      simp [loaded_param, hit, hfkOf, hft2, prefMap, hval]
    | cirroReference =>
      obtain ⟨rid, rfile, i2, r, fn, hrid, hrfile, hsr, hidx, hr, hfn, hsf,
        hpt, hpick, hfstr⟩ := wf_ref_elim hbr hft2
      have hflT := @fes1_lookup_full refs p (h1 :: tail) fes hfk hfes hft2
      have hvalT : valF (fes1 refs p) (h1 :: tail)
          = jset (valF fes (h1 :: tail)) "file"
              (.str (file_str_of refs p)) := by
        unfold valF
        rw [hflT]
        rfl
      have hptT : jget (valF (fes1 refs p) (h1 :: tail)) "pathType"
          = some (.str "references") := by
        rw [hvalT, jget_jset_ne _ _ _ _ (by decide)]
        exact hpt
      have hnotds : jget (valF (fes1 refs p) (h1 :: tail)) "pathType"
          ≠ some (.str "dataset") := by
        rw [hptT]
        simp
      have hfile : jget (valF (fes1 refs p) (h1 :: tail)) "file"
          = some (.str (file_str_of refs p)) := by
        rw [hvalT, hvalT2]
        exact jget_jset_self _ _ _
      have hsw2 : pyStartsWith (file_str_of refs p) "**/" = true := by
        rw [hfstr]
        exact file_str_startswith rid fn
      have hdropsplit : splitOnChar '/'
          (pyDrop (file_str_of refs p) 3).data = [rid, "**", fn] := by
        rw [hfstr]
        exact split_file_str_drop hsr hsf
      have hfullsplit : splitOnChar '/' (file_str_of refs p).data
          = ["**", rid, "**", fn] := by
        rw [hfstr]
        exact split_file_str_full hsr hsf
      simp only [hterm2]
      rw [if_neg hnotds, if_pos hptT]
      simp only [hfile, except_ok_bind, hsw2, if_true, ite_true,
        hdropsplit, hfullsplit]
      simp only [loaded_param, hit, hfkOf, hft2, prefMap, hrid, hrfile,
        Option.getD_some, hpick]
      simp [List.getLastD, hval]

theorem jset_doc_input {dyn : Json} {I P : List (String × Json)}
    {out comp prep : Json} (X : List (String × Json)) :
    jset (DOC dyn I P out comp prep) "input" (.obj X)
      = DOC dyn X P out comp prep := rfl

theorem jset_doc_form_then_input {dyn : Json} {I P : List (String × Json)}
    {out comp prep : Json} (P2 X : List (String × Json)) :
    jset (jset (DOC dyn I P out comp prep) "form"
        (jset (.obj [("form", rootP P), ("ui", .obj [])]) "form" (rootP P2)))
      "input" (.obj X)
      = DOC dyn X P2 out comp prep := rfl

theorem dump_param_doc {refs : List RefEntry} {p : ParamState} {dyn : Json}
    {I P : List (String × Json)} {out comp prep : Json}
    (hwf : wf_param refs p = true)
    (hid : p.deleted = false → I.lookup p.id = none)
    (hhead : p.deleted = false → p.input_type = .formEntry →
      P.lookup ((fkOf p).headD "") = none) :
    dump_param refs p (DOC dyn I P out comp prep)
      = .ok (DOC dyn (I ++ inputDelta [p]) (P ++ formDelta refs [p])
          out comp prep) := by
  by_cases hdel : p.deleted = true
  · simp only [dump_param, hdel, if_true, ite_true]
    simp [inputDelta, formDelta, hdel]
  rw [Bool.not_eq_true] at hdel
  have hI := hid hdel
  have hIkeys := keys_ne_of_lookup_none hI
  have hsetI : ∀ w : Json, jset (Json.obj I) p.id w
      = .obj (I ++ [(p.id, w)]) := by
    intro w
    simp only [jset, setA_append hIkeys]
  have hInput : jget (DOC dyn I P out comp prep) "input"
      = some (.obj I) := rfl
  cases hit : p.input_type with
  | hardcodedValue =>
    have hdelta : inputDelta [p] = [(p.id, p.value)] := by
      simp [inputDelta, hdel, dump_value, hit]
    have hfdelta : formDelta refs [p] = [] := by
      simp [formDelta, hdel, hit]
    simp only [dump_param, hdel, Bool.false_eq_true, if_false, hit,
      write_input, hInput, except_ok_bind, hsetI, jset_doc_input, hdelta,
      hfdelta, List.append_nil]
  | outputDirectory =>
    have hdelta : inputDelta [p] = [(p.id, .str outputDirectoryValue)] := by
      simp [inputDelta, hdel, dump_value, hit]
    have hfdelta : formDelta refs [p] = [] := by
      simp [formDelta, hdel, hit]
    simp only [dump_param, hdel, Bool.false_eq_true, if_false, hit,
      write_input, hInput, except_ok_bind, hsetI, jset_doc_input, hdelta,
      hfdelta, List.append_nil]
  | inputDirectory =>
    have hdelta : inputDelta [p] = [(p.id, .str inputDirectoryValue)] := by
      simp [inputDelta, hdel, dump_value, hit]
    have hfdelta : formDelta refs [p] = [] := by
      simp [formDelta, hdel, hit]
    simp only [dump_param, hdel, Bool.false_eq_true, if_false, hit,
      write_input, hInput, except_ok_bind, hsetI, jset_doc_input, hdelta,
      hfdelta, List.append_nil]
  | datasetName =>
    have hdelta : inputDelta [p] = [(p.id, .str datasetNameValue)] := by
      simp [inputDelta, hdel, dump_value, hit]
    have hfdelta : formDelta refs [p] = [] := by
      simp [formDelta, hdel, hit]
    simp only [dump_param, hdel, Bool.false_eq_true, if_false, hit,
      write_input, hInput, except_ok_bind, hsetI, jset_doc_input, hdelta,
      hfdelta, List.append_nil]
  | formEntry =>
    obtain ⟨h1, tail, fes, hfk, hfes, hdot, hval, hek, hpath, hbr⟩ :=
      wf_param_form_elim hwf hdel hit
    have hfkOf : fkOf p = h1 :: tail := by
      unfold fkOf
      rw [hfk]
      rfl
    have hPh := hhead hdel hit
    rw [hfkOf] at hPh
    simp only [List.headD_cons] at hPh
    have hf1facts : fes_entry_ok (fes1 refs p) [h1] = true ∧
        fes_path_ok (fes1 refs p) [h1] tail = true := by
      by_cases hft : p.form_type = some .cirroReference
      · exact fes1_path_facts hfk hfes hek hpath hft
      · rw [fes1_eq_of_not_ref hfes hft]
        exact ⟨hek, hpath⟩
    have hpw := pointer_walk_root hPh hf1facts.1 hf1facts.2
    have hdelta : inputDelta [p] = [(p.id, p.value)] := by
      simp [inputDelta, hdel, dump_value, hit]
    have hfdelta : formDelta refs [p]
        = [(h1, chain_node (fes1 refs p) [h1] tail)] := by
      simp [formDelta, hdel, hit, hfkOf]
    have hform : jget (DOC dyn I P out comp prep) "form"
        = some (.obj [("form", rootP P), ("ui", .obj [])]) := rfl
    have hff : jget (.obj [("form", rootP P), ("ui", .obj [])]) "form"
        = some (rootP P) := rfl
    have hWI : ∀ F : Json, jget (jset (DOC dyn I P out comp prep) "form" F)
        "input" = some (.obj I) := by
      intro F
      rfl
    cases hft2 : p.form_type with
    | none =>
      unfold wf_form_branch at hbr
      rw [hft2] at hbr
      simp at hbr
    | some ft =>
      have hfes0 : (if ft = FormType.cirroReference then
            (reference_form_elements refs p).map some
          else Except.ok p.form_elements) = .ok (some (fes1 refs p)) := by
        by_cases hrefc : ft = .cirroReference
        · subst hrefc
          obtain ⟨vfT, hlT, hpT⟩ :=
            fes_entry_ok_elim (fes_entry_ok_full hek hpath)
          rw [if_pos rfl,
            reference_form_elements_eq hfk hfes hlT hft2 hbr]
          rfl
        · rw [if_neg hrefc, fes1_eq_of_not_ref hfes (by
            rw [hft2]
            simp [hrefc]), hfes]
      simp only [dump_param, hdel, Bool.false_eq_true, if_false, hit, hft2,
        except_ok_bind, hfes0, dump_param_form, hfk, Option.getD_some,
        hform, hff, hWI, write_input, hsetI, hdelta, hfdelta]
      rw [hpw]
      simp only [except_ok_bind, jset_doc_form_then_input]

theorem liveParams_cons_deleted {p : ParamState} {ps : List ParamState}
    (h : p.deleted = true) : liveParams (p :: ps) = liveParams ps := by
  simp [liveParams, List.filter_cons, h]

theorem liveParams_cons_live {p : ParamState} {ps : List ParamState}
    (h : p.deleted = false) : liveParams (p :: ps) = p :: liveParams ps := by
  simp [liveParams, List.filter_cons, h]

theorem liveIds_cons_deleted {p : ParamState} {ps : List ParamState}
    (h : p.deleted = true) : liveIds (p :: ps) = liveIds ps := by
  simp [liveIds, liveParams_cons_deleted h]

theorem liveIds_cons_live {p : ParamState} {ps : List ParamState}
    (h : p.deleted = false) : liveIds (p :: ps) = p.id :: liveIds ps := by
  simp [liveIds, liveParams_cons_live h]

theorem formHeads_cons_deleted {p : ParamState} {ps : List ParamState}
    (h : p.deleted = true) : formHeads (p :: ps) = formHeads ps := by
  simp [formHeads, liveParams_cons_deleted h]

theorem formHeads_cons_live_form {p : ParamState} {ps : List ParamState}
    (h : p.deleted = false) (hf : p.input_type = .formEntry) :
    formHeads (p :: ps) = (fkOf p).headD "" :: formHeads ps := by
  simp [formHeads, liveParams_cons_live h, List.filter_cons, hf]

theorem formHeads_cons_live_notform {p : ParamState} {ps : List ParamState}
    (h : p.deleted = false) (hf : p.input_type ≠ .formEntry) :
    formHeads (p :: ps) = formHeads ps := by
  have hb : (p.input_type == InputType.formEntry) = false :=
    beq_eq_false_iff_ne.mpr hf
  simp [formHeads, liveParams_cons_live h, List.filter_cons, hb]

theorem inputDelta_cons (p : ParamState) (ps : List ParamState) :
    inputDelta (p :: ps) = inputDelta [p] ++ inputDelta ps := by
  simp [inputDelta]

theorem formDelta_cons (refs : List RefEntry) (p : ParamState)
    (ps : List ParamState) :
    formDelta refs (p :: ps) = formDelta refs [p] ++ formDelta refs ps := by
  simp [formDelta]

theorem nodup_append_mid {A B : List String} {a : String}
    (h : (A ++ a :: B).Nodup) :
    (∀ q ∈ A, q ≠ a) ∧ ((A ++ [a]) ++ B).Nodup := by
  constructor
  · intro q hq he
    subst he
    have hd := List.disjoint_of_nodup_append h
    exact hd hq (List.mem_cons_self _ _)
  · simpa [List.append_assoc] using h

theorem nodupB_iff : ∀ l : List String, nodupB l = true ↔ l.Nodup
  | [] => by simp [nodupB]
  | x :: xs => by
    simp only [nodupB, Bool.and_eq_true, List.nodup_cons, nodupB_iff xs,
      List.all_eq_true]
    constructor
    · rintro ⟨h1, h2⟩
      refine ⟨fun hm => ?_, h2⟩
      have := h1 x hm
      simp at this
    · rintro ⟨h1, h2⟩
      refine ⟨fun y hy => ?_, h2⟩
      simp only [bne_iff_ne, ne_eq]
      intro he
      subst he
      exact h1 hy

theorem dump_params_doc {refs : List RefEntry} :
    ∀ {ps : List ParamState} {dyn : Json} {I P : List (String × Json)}
      {out comp prep : Json},
      (∀ p ∈ ps, wf_param refs p = true) →
      (I.map Prod.fst ++ liveIds ps).Nodup →
      (P.map Prod.fst ++ formHeads ps).Nodup →
      dump_params refs ps (DOC dyn I P out comp prep)
        = .ok (DOC dyn (I ++ inputDelta ps) (P ++ formDelta refs ps)
            out comp prep)
  | [], dyn, I, P, out, comp, prep, _, _, _ => by
    simp [dump_params, inputDelta, formDelta]
  | p :: ps, dyn, I, P, out, comp, prep, hwf, hIn, hPn => by
    have hwfp := hwf p (List.mem_cons_self _ _)
    have hwfps := fun q hq => hwf q (List.mem_cons_of_mem p hq)
    by_cases hdel : p.deleted = true
    · have hid0 : p.deleted = false → I.lookup p.id = none := by
        intro hlf
        rw [hlf] at hdel
        cases hdel
      have hhead0 : p.deleted = false → p.input_type = .formEntry →
          P.lookup ((fkOf p).headD "") = none := by
        intro hlf
        rw [hlf] at hdel
        cases hdel
      have hIn2 : (I.map Prod.fst ++ liveIds ps).Nodup := by
        rwa [liveIds_cons_deleted hdel] at hIn
      have hPn2 : (P.map Prod.fst ++ formHeads ps).Nodup := by
        rwa [formHeads_cons_deleted hdel] at hPn
      have hdI : inputDelta [p] = [] := by
        simp [inputDelta, hdel]
      have hdP : formDelta refs [p] = [] := by
        simp [formDelta, hdel]
      simp only [dump_params]
      rw [dump_param_doc hwfp hid0 hhead0]
      simp only [except_ok_bind, hdI, hdP, List.append_nil]
      rw [dump_params_doc hwfps hIn2 hPn2]
      rw [inputDelta_cons, formDelta_cons, hdI, hdP]
      simp
    · rw [Bool.not_eq_true] at hdel
      have hIda := nodup_append_mid
        (by rwa [liveIds_cons_live hdel] at hIn)
      have hid0 : p.deleted = false → I.lookup p.id = none := fun hlf =>
        lookup_none_keys (fun q hq => hIda.1 q.1 (List.mem_map_of_mem _ hq))
      have hdI : inputDelta [p] = [(p.id, dump_value p)] := by
        simp [inputDelta, hdel]
      have hIn2 : ((I ++ inputDelta [p]).map Prod.fst ++ liveIds ps).Nodup
        := by
        rw [hdI]
        simpa using hIda.2
      by_cases hform : p.input_type = .formEntry
      · have hPda := nodup_append_mid
          (by rwa [formHeads_cons_live_form hdel hform] at hPn)
        have hhead0 : p.deleted = false → p.input_type = .formEntry →
            P.lookup ((fkOf p).headD "") = none := fun hlf hf =>
          lookup_none_keys
            (fun q hq => hPda.1 q.1 (List.mem_map_of_mem _ hq))
        have hdP : formDelta refs [p] = [((fkOf p).headD "",
            chain_node (fes1 refs p) [(fkOf p).headD ""] (fkOf p).tail)]
          := by
          simp [formDelta, hdel, hform]
        have hPn2 : ((P ++ formDelta refs [p]).map Prod.fst
            ++ formHeads ps).Nodup := by
          rw [hdP]
          simpa using hPda.2
        simp only [dump_params]
        rw [dump_param_doc hwfp hid0 hhead0]
        simp only [except_ok_bind]
        rw [dump_params_doc hwfps hIn2 hPn2]
        conv_rhs => rw [inputDelta_cons, formDelta_cons]
        simp [List.append_assoc]
      · have hPn2 : (P.map Prod.fst ++ formHeads ps).Nodup := by
          rwa [formHeads_cons_live_notform hdel hform] at hPn
        have hhead0 : p.deleted = false → p.input_type = .formEntry →
            P.lookup ((fkOf p).headD "") = none := fun hlf hf =>
          absurd hf hform
        have hdP : formDelta refs [p] = [] := by
          simp [formDelta, hdel, beq_eq_false_iff_ne.mpr hform]
        have hPn3 : ((P ++ formDelta refs [p]).map Prod.fst
            ++ formHeads ps).Nodup := by
          rw [hdP]
          simpa using hPn2
        simp only [dump_params]
        rw [dump_param_doc hwfp hid0 hhead0]
        simp only [except_ok_bind]
        rw [dump_params_doc hwfps hIn2 hPn3]
        conv_rhs => rw [inputDelta_cons, formDelta_cons]
        simp [List.append_assoc]

/-! ## Reloading the dumped parameter list -/

theorem inputDelta_keys :
    ∀ ps : List ParamState, (inputDelta ps).map Prod.fst = liveIds ps
  | [] => rfl
  | p :: ps => by
    by_cases hdel : p.deleted = true
    · have hstep : inputDelta (p :: ps) = inputDelta ps := by
        simp [inputDelta, hdel]
      rw [hstep, liveIds_cons_deleted hdel]
      exact inputDelta_keys ps
    · rw [Bool.not_eq_true] at hdel
      have hstep : inputDelta (p :: ps)
          = (p.id, dump_value p) :: inputDelta ps := by
        simp [inputDelta, hdel]
      rw [hstep, liveIds_cons_live hdel]
      simp only [List.map_cons]
      rw [inputDelta_keys ps]

theorem inputDelta_lookup :
    ∀ {ps : List ParamState}, (liveIds ps).Nodup →
      ∀ p ∈ liveParams ps,
        (inputDelta ps).lookup p.id = some (dump_value p)
  | [], _, p, hp => by simp [liveParams] at hp
  | q :: ps, hnd, p, hp => by
    by_cases hdel : q.deleted = true
    · rw [liveParams_cons_deleted hdel] at hp
      rw [liveIds_cons_deleted hdel] at hnd
      have hstep : inputDelta (q :: ps) = inputDelta ps := by
        simp [inputDelta, hdel]
      rw [hstep]
      exact inputDelta_lookup hnd p hp
    · rw [Bool.not_eq_true] at hdel
      rw [liveParams_cons_live hdel] at hp
      rw [liveIds_cons_live hdel, List.nodup_cons] at hnd
      have hstep : inputDelta (q :: ps)
          = (q.id, dump_value q) :: inputDelta ps := by
        simp [inputDelta, hdel]
      rw [hstep]
      rcases List.mem_cons.mp hp with hpq | hp2
      · subst hpq
        simp [List.lookup]
      · have hmem : p.id ∈ liveIds ps :=
          List.mem_map_of_mem (fun r => r.id) hp2
        have hne : p.id ≠ q.id := fun he => hnd.1 (he ▸ hmem)
        have hb : (p.id == q.id) = false := beq_eq_false_iff_ne.mpr hne
        simp only [List.lookup, hb]
        exact inputDelta_lookup hnd.2 p hp2

theorem formDelta_lookup {refs : List RefEntry} :
    ∀ {ps : List ParamState}, (formHeads ps).Nodup →
      ∀ p ∈ liveParams ps, p.input_type = .formEntry →
        (formDelta refs ps).lookup ((fkOf p).headD "")
          = some (chain_node (fes1 refs p) [(fkOf p).headD ""] (fkOf p).tail)
  | [], _, p, hp, _ => by simp [liveParams] at hp
  | q :: ps, hnd, p, hp, hf => by
    by_cases hdel : q.deleted = true
    · rw [liveParams_cons_deleted hdel] at hp
      rw [formHeads_cons_deleted hdel] at hnd
      have hstep : formDelta refs (q :: ps) = formDelta refs ps := by
        simp [formDelta, hdel]
      rw [hstep]
      exact formDelta_lookup hnd p hp hf
    · rw [Bool.not_eq_true] at hdel
      rw [liveParams_cons_live hdel] at hp
      by_cases hqf : q.input_type = .formEntry
      · rw [formHeads_cons_live_form hdel hqf, List.nodup_cons] at hnd
        have hstep : formDelta refs (q :: ps)
            = ((fkOf q).headD "", chain_node (fes1 refs q)
                [(fkOf q).headD ""] (fkOf q).tail) :: formDelta refs ps := by
          simp [formDelta, hdel, hqf]
        rw [hstep]
        rcases List.mem_cons.mp hp with hpq | hp2
        · subst hpq
          simp [List.lookup]
        · have hmem : (fkOf p).headD "" ∈ formHeads ps :=
            List.mem_map_of_mem (fun r => (fkOf r).headD "")
              (List.mem_filter.mpr ⟨hp2, by simp [hf]⟩)
          have hne : (fkOf p).headD "" ≠ (fkOf q).headD "" :=
            fun he => hnd.1 (he ▸ hmem)
          have hb : ((fkOf p).headD "" == (fkOf q).headD "") = false :=
            beq_eq_false_iff_ne.mpr hne
          simp only [List.lookup, hb]
          exact formDelta_lookup hnd.2 p hp2 hf
      · rw [formHeads_cons_live_notform hdel hqf] at hnd
        have hstep : formDelta refs (q :: ps) = formDelta refs ps := by
          simp [formDelta, hdel, beq_eq_false_iff_ne.mpr hqf]
        rw [hstep]
        rcases List.mem_cons.mp hp with hpq | hp2
        · exact absurd (hpq ▸ hf) hqf
        · exact formDelta_lookup hnd p hp2 hf

theorem load_params_go_of {refs : List RefEntry} :
    ∀ {qs : List ParamState} {D : Json},
      (∀ p ∈ qs, load_param p.id D = .ok (loaded_param refs p, D)) →
      load_params_go (qs.map (fun p => p.id)) D
        = .ok (qs.map (loaded_param refs), D)
  | [], D, _ => rfl
  | q :: qs, D, hall => by
    have hq := hall q (List.mem_cons_self _ _)
    have hrest :=
      load_params_go_of (fun p hp => hall p (List.mem_cons_of_mem _ hp))
    simp only [List.map_cons, load_params_go, hq, except_ok_bind, hrest]

theorem loaded_param_id (refs : List RefEntry) (p : ParamState) :
    (loaded_param refs p).id = p.id := by
  cases h : p.input_type <;> simp [loaded_param, h]

theorem loaded_param_deleted (refs : List RefEntry) (p : ParamState) :
    (loaded_param refs p).deleted = false := by
  cases h : p.input_type <;> simp [loaded_param, h]

theorem loaded_param_input_type (refs : List RefEntry) (p : ParamState) :
    (loaded_param refs p).input_type = p.input_type := by
  cases h : p.input_type <;> simp [loaded_param, h]

theorem loaded_param_dump_value (refs : List RefEntry) (p : ParamState) :
    dump_value (loaded_param refs p) = dump_value p := by
  cases h : p.input_type <;> simp [loaded_param, dump_value, h]

theorem loaded_param_fkOf {refs : List RefEntry} {p : ParamState}
    (hf : p.input_type = .formEntry) :
    fkOf (loaded_param refs p) = fkOf p := by
  simp [loaded_param, hf, fkOf]

/-! ## The reloaded form elements agree with the dumped ones on every
form-key prefix -/

theorem valF_prefMap {fes : List (String × Json)} {fk : List String} {m : Nat}
    (hm1 : 1 ≤ m) (hm : m ≤ fk.length) :
    valF (prefMap fes fk) (fk.take m) = valF fes (fk.take m) := by
  obtain ⟨j, rfl⟩ : ∃ j, m = j + 1 := ⟨m - 1, by omega⟩
  have hj : j < fk.length := by omega
  unfold valF
  rw [prefMap_lookup hj]
  rfl

theorem valF_prefMap_full {fes : List (String × Json)} {fk : List String}
    (hne : fk ≠ []) : valF (prefMap fes fk) fk = valF fes fk := by
  have h1 : 1 ≤ fk.length := List.length_pos.mpr hne
  have := @valF_prefMap fes fk fk.length h1 (Nat.le_refl _)
  rwa [List.take_length] at this

theorem validation_pick_self {l : List String} {fn : String} (hmem : fn ∈ l) :
    l.get? ((l.findIdx? (· == fn)).getD 0) = some fn := by
  obtain ⟨i, hi⟩ := @findIdx?_mem String (fun x => x == fn) l fn hmem
    (beq_self_eq_true fn)
  obtain ⟨x, hx, hpx⟩ := findIdx?_get hi
  rw [hi]
  simp only [Option.getD_some]
  rw [hx]
  have hxe : x = fn := by simpa using hpx
  rw [hxe]

theorem refPick_self {refs : List RefEntry} {rid : String} {i : Nat}
    {r : RefEntry} {fn : String}
    (hidx : refIdx refs rid = some i) (hr : refs.get? i = some r)
    (hmem : fn ∈ r.validation) :
    refPick refs rid fn = fn := by
  have hr2 : refs[i]? = some r := by
    rw [← List.get?_eq_getElem?]
    exact hr
  have hv2 : r.validation[(List.findIdx?
      (fun x => x == fn) r.validation).getD 0]? = some fn := by
    rw [← List.get?_eq_getElem?]
    exact validation_pick_self hmem
  unfold refPick
  simp [hidx, hr2, hv2]

theorem take_of_pre {tail q : List String} (h1 : String)
    (hq : q.isPrefixOf tail = true) :
    (h1 :: tail).take (q.length + 1) = h1 :: q := by
  have hpre : q <+: tail := List.isPrefixOf_iff_prefix.mp hq
  rw [List.take_succ_cons, ← List.prefix_iff_eq_take.mp hpre]

theorem chain_node_congr {fes' fes : List (String × Json)} :
    ∀ {rest pre : List String},
      (∀ q : List String, q.isPrefixOf rest = true →
        valF fes' (pre ++ q) = valF fes (pre ++ q)) →
      chain_node fes' pre rest = chain_node fes pre rest
  | [], pre, h => by
    have h0 := h [] rfl
    simp only [List.append_nil] at h0
    exact h0
  | k :: rest, pre, h => by
    have h0 : ((fes'.lookup (joinDot pre)).getD .null : Json)
        = (fes.lookup (joinDot pre)).getD .null := by
      have h00 := h [] rfl
      simpa [valF] using h00
    simp only [chain_node]
    rw [h0, chain_node_congr (fun q hq => by
      have hkq := h (k :: q) (by simp [List.isPrefixOf, hq])
      simpa [List.append_assoc] using hkq)]

theorem fes_entry_ok_prefMap {fes : List (String × Json)} {fk : List String}
    {m : Nat} (hm1 : 1 ≤ m) (hm : m ≤ fk.length)
    (h : fes_entry_ok fes (fk.take m) = true) :
    fes_entry_ok (prefMap fes fk) (fk.take m) = true := by
  obtain ⟨vf, hl, hp⟩ := fes_entry_ok_elim h
  obtain ⟨j, rfl⟩ : ∃ j, m = j + 1 := ⟨m - 1, by omega⟩
  unfold fes_entry_ok
  rw [prefMap_lookup (by omega)]
  have hv : valF fes (fk.take (j + 1)) = .obj vf := by
    unfold valF
    rw [hl]
    rfl
  rw [hv]
  simp [hp]

theorem fes1_loaded_valF {refs : List RefEntry} {p : ParamState}
    (hwf : wf_param refs p = true) (hlive : p.deleted = false)
    (hform : p.input_type = .formEntry) :
    ∀ m, 1 ≤ m → m ≤ (fkOf p).length →
      valF (fes1 refs (loaded_param refs p)) ((fkOf p).take m)
        = valF (fes1 refs p) ((fkOf p).take m) := by
  obtain ⟨h1, tail, fes, hfk, hfes, hdot, hval, hek, hpath, hbr⟩ :=
    wf_param_form_elim hwf hlive hform
  have hfkOf : fkOf p = h1 :: tail := by simp [fkOf, hfk]
  have hqfes : (loaded_param refs p).form_elements
      = some (prefMap (fes1 refs p) (fkOf p)) := by
    simp [loaded_param, hform]
  have hqft : (loaded_param refs p).form_type = p.form_type := by
    simp [loaded_param, hform]
  by_cases hft : p.form_type = some .cirroReference
  · obtain ⟨rid, rfile, i, r, fn, hrid, hrfile, hsr, hidx, hr, hfn, hsf,
      hpt, hpick, hfstr⟩ := @wf_ref_elim refs p (h1 :: tail) fes hbr hft
    have hlookT := @fes1_lookup_full refs p (h1 :: tail) fes hfk hfes hft
    have hqrid : (loaded_param refs p).reference_id = some rid := by
      simp [loaded_param, hform, hft, hrid]
    have hqrfile : (loaded_param refs p).reference_file = some fn := by
      simp [loaded_param, hform, hft, hrid, hrfile, hpick]
    have hmemfn : fn ∈ r.validation := List.get?_mem hfn
    have hpick2 : refPick refs rid fn = fn := refPick_self hidx hr hmemfn
    have hfsQ : file_str_of refs (loaded_param refs p)
        = file_str_of refs p := by
      unfold file_str_of
      rw [hqrid, hqrfile, hrid, hrfile]
      simp only [Option.getD_some]
      rw [hpick2, hpick]
    have hne : fkOf p ≠ [] := by rw [hfkOf]; simp
    have hTm := @valF_prefMap_full (fes1 refs p) (fkOf p) hne
    have hT : valF (fes1 refs p) (fkOf p)
        = jset (valF fes (fkOf p)) "file" (.str (file_str_of refs p)) := by
      unfold valF
      rw [hfkOf, hlookT]
      rfl
    have hq1 : fes1 refs (loaded_param refs p)
        = setA (prefMap (fes1 refs p) (fkOf p)) (joinDot (fkOf p))
            (valF (fes1 refs p) (fkOf p)) := by
      conv_lhs => rw [fes1]
      rw [if_pos (by rw [hqft]; exact hft), hqfes]
      simp only [Option.getD_some]
      rw [loaded_param_fkOf hform]
      rw [hTm, hfsQ, hT, jset_jset_same]
    intro m hm1 hm
    by_cases hmf : m = (fkOf p).length
    · subst hmf
      rw [List.take_length, hq1]
      unfold valF
      rw [setA_lookup_self]
      rfl
    · have hmlt : m < (fkOf p).length := lt_of_le_of_ne hm hmf
      rw [hq1]
      unfold valF
      rw [setA_lookup_ne _ _ _ _ (joinDot_take_ne_full hm1 hmlt)]
      have hvp := @valF_prefMap (fes1 refs p) (fkOf p) m hm1 hm
      unfold valF at hvp
      exact hvp
  · have hq2 : fes1 refs (loaded_param refs p)
        = prefMap (fes1 refs p) (fkOf p) :=
      fes1_eq_of_not_ref hqfes (by rw [hqft]; exact hft)
    intro m hm1 hm
    rw [hq2]
    exact valF_prefMap hm1 hm

theorem chain_node_loaded {refs : List RefEntry} {p : ParamState}
    (hwf : wf_param refs p = true) (hlive : p.deleted = false)
    (hform : p.input_type = .formEntry) :
    chain_node (fes1 refs (loaded_param refs p)) [(fkOf p).headD ""]
        (fkOf p).tail
      = chain_node (fes1 refs p) [(fkOf p).headD ""] (fkOf p).tail := by
  obtain ⟨h1, tail, fes, hfk, hfes, hdot, hval, hek, hpath, hbr⟩ :=
    wf_param_form_elim hwf hlive hform
  have hfkOf : fkOf p = h1 :: tail := by simp [fkOf, hfk]
  have hvals := fes1_loaded_valF hwf hlive hform
  rw [hfkOf] at hvals ⊢
  simp only [List.headD_cons, List.tail_cons]
  apply chain_node_congr
  intro q hq
  have hpre : q <+: tail := List.isPrefixOf_iff_prefix.mp hq
  have hlen : q.length ≤ tail.length := hpre.length_le
  have hv := hvals (q.length + 1) (by omega) (by simp; omega)
  rw [take_of_pre h1 hq] at hv
  simpa using hv

/-! ## Reloaded parameters are themselves well-formed -/

theorem wf_param_loaded {refs : List RefEntry} {p : ParamState}
    (hwf : wf_param refs p = true) (hlive : p.deleted = false) :
    wf_param refs (loaded_param refs p) = true := by
  cases hit : p.input_type with
  | outputDirectory => simp [wf_param, loaded_param, hit]
  | inputDirectory => simp [wf_param, loaded_param, hit]
  | datasetName => simp [wf_param, loaded_param, hit]
  | hardcodedValue =>
    unfold wf_param at hwf
    rw [hlive, hit] at hwf
    simp only [Bool.false_or] at hwf
    unfold wf_param
    simp only [loaded_param, hit]
    simpa using hwf
  | formEntry =>
    obtain ⟨h1, tail, fes, hfk, hfes, hdot, hval, hek, hpath, hbr⟩ :=
      wf_param_form_elim hwf hlive hit
    have hfkOf : fkOf p = h1 :: tail := by simp [fkOf, hfk]
    have hfes1 : fes_entry_ok (fes1 refs p) [h1] = true ∧
        fes_path_ok (fes1 refs p) [h1] tail = true := by
      by_cases hft : p.form_type = some .cirroReference
      · exact fes1_path_facts hfk hfes hek hpath hft
      · rw [fes1_eq_of_not_ref hfes hft]
        exact ⟨hek, hpath⟩
    have hqdel := loaded_param_deleted refs p
    have hqit : (loaded_param refs p).input_type = .formEntry := by
      simp [loaded_param, hit]
    have hqfk : (loaded_param refs p).form_key = some (h1 :: tail) := by
      simp [loaded_param, hit, fkOf, hfk]
    have hqfes : (loaded_param refs p).form_elements
        = some (prefMap (fes1 refs p) (h1 :: tail)) := by
      simp [loaded_param, hit, fkOf, hfk]
    have hqval : (loaded_param refs p).value = p.value := by
      simp [loaded_param, hit]
    have hqft : (loaded_param refs p).form_type = p.form_type := by
      simp [loaded_param, hit]
    unfold wf_param
    rw [hqdel, hqit]
    simp only [hqfk, hqfes, Bool.false_or, Bool.and_eq_true,
      decide_eq_true_eq, List.all_eq_true]
    refine ⟨⟨⟨⟨⟨by simp, hdot⟩, by rw [hqval, hval]⟩, ?_⟩, ?_⟩, ?_⟩
    · exact @fes_entry_ok_prefMap (fes1 refs p) (h1 :: tail) 1 (by omega)
        (by simp) hfes1.1
    · apply fes_path_ok_intro
      intro q' hq'ne hq'pre
      have hpre : q' <+: tail := List.isPrefixOf_iff_prefix.mp hq'pre
      have hlen : q'.length ≤ tail.length := hpre.length_le
      have hek2 : fes_entry_ok (fes1 refs p) ([h1] ++ q') = true :=
        fes_path_ok_elim hfes1.2 q' hq'ne hq'pre
      have htk : (h1 :: tail).take (q'.length + 1) = h1 :: q' :=
        take_of_pre h1 hq'pre
      have h6 := @fes_entry_ok_prefMap (fes1 refs p) (h1 :: tail)
        (q'.length + 1) (by omega) (by simp; omega)
        (by rw [htk]; simpa using hek2)
      rw [htk] at h6
      simpa using h6
    · have hfull : valF (prefMap (fes1 refs p) (h1 :: tail)) (h1 :: tail)
          = valF (fes1 refs p) (h1 :: tail) := valF_prefMap_full (by simp)
      unfold wf_form_branch
      rw [hqft]
      cases hftc : p.form_type with
      | none =>
        unfold wf_form_branch at hbr
        rw [hftc] at hbr
        cases hbr
      | some ft =>
        cases ft with
        | cirroDataset =>
          have hE : fes1 refs p = fes :=
            fes1_eq_of_not_ref hfes (by rw [hftc]; simp)
          unfold wf_form_branch at hbr
          simp only [hftc] at hbr
          rw [hfull, hE]
          exact hbr
        | inputFile =>
          have hE : fes1 refs p = fes :=
            fes1_eq_of_not_ref hfes (by rw [hftc]; simp)
          unfold wf_form_branch at hbr
          simp only [hftc] at hbr
          rw [hfull, hE]
          exact hbr
        | userProvidedValue =>
          have hE : fes1 refs p = fes :=
            fes1_eq_of_not_ref hfes (by rw [hftc]; simp)
          unfold wf_form_branch at hbr
          simp only [hftc] at hbr
          rw [hfull, hE]
          exact hbr
        | cirroReference =>
          obtain ⟨rid, rfile, i, r, fn, hrid, hrfile, hsr, hidx, hr, hfn,
            hsf, hpt, hpick, hfstr⟩ :=
            @wf_ref_elim refs p (h1 :: tail) fes hbr hftc
          have hqrid : (loaded_param refs p).reference_id = some rid := by
            simp [loaded_param, hit, hftc, hrid]
          have hqrfile : (loaded_param refs p).reference_file = some fn := by
            simp [loaded_param, hit, hftc, hrid, hrfile, hpick]
          have hmemfn : fn ∈ r.validation := List.get?_mem hfn
          have hlookT :=
            @fes1_lookup_full refs p (h1 :: tail) fes hfk hfes hftc
          have hT : valF (fes1 refs p) (h1 :: tail)
              = jset (valF fes (h1 :: tail)) "file"
                  (.str (file_str_of refs p)) := by
            unfold valF
            rw [hlookT]
            rfl
          have hptQ : jget (valF (fes1 refs p) (h1 :: tail)) "pathType"
              = some (.str "references") := by
            rw [hT, jget_jset_ne _ _ _ _ (by decide), hpt]
          simp only [hfull, hqrid, hqrfile, Bool.and_eq_true,
            decide_eq_true_eq]
          refine ⟨hptQ, ?_⟩
          have hr2 : refs[i]? = some r := by
            rw [← List.get?_eq_getElem?]
            exact hr
          have hv2 : r.validation[(List.findIdx?
              (fun x => x == fn) r.validation).getD 0]? = some fn := by
            rw [← List.get?_eq_getElem?]
            exact validation_pick_self hmemfn
          simp [hsr, hidx, hr2, hv2, hsf]

/-! ## Loading the whole parameter section of a dumped document -/

theorem liveParams_live {ps : List ParamState} :
    ∀ p ∈ liveParams ps, p.deleted = false := by
  intro p hp
  have hf := List.of_mem_filter hp
  simpa using hf

theorem load_params_doc {refs : List RefEntry} {ps : List ParamState}
    {dyn out comp prep : Json}
    (hwf : ∀ p ∈ ps, wf_param refs p = true)
    (hIn : (liveIds ps).Nodup) (hPn : (formHeads ps).Nodup) :
    load_params (DOC dyn (inputDelta ps) (formDelta refs ps) out comp prep)
      = .ok ((liveParams ps).map (loaded_param refs),
          DOC dyn (inputDelta ps) (formDelta refs ps) out comp prep) := by
  have hall : ∀ p ∈ liveParams ps,
      load_param p.id
          (DOC dyn (inputDelta ps) (formDelta refs ps) out comp prep)
        = .ok (loaded_param refs p,
            DOC dyn (inputDelta ps) (formDelta refs ps) out comp prep) := by
    intro p hp
    have hmem : p ∈ ps := List.mem_of_mem_filter hp
    exact load_param_doc (hwf p hmem) (liveParams_live p hp)
      (inputDelta_lookup hIn p hp)
      (fun hf => formDelta_lookup hPn p hp hf)
  have h0 : load_params
      (DOC dyn (inputDelta ps) (formDelta refs ps) out comp prep)
      = load_params_go ((inputDelta ps).map Prod.fst)
          (DOC dyn (inputDelta ps) (formDelta refs ps) out comp prep) := rfl
  rw [h0, inputDelta_keys ps]
  have h1 : liveIds ps = (liveParams ps).map (fun p => p.id) := rfl
  rw [h1]
  exact load_params_go_of hall

/-! ## The reloaded parameter list dumps to the same deltas -/

theorem inputDelta_live :
    ∀ ps : List ParamState, inputDelta (liveParams ps) = inputDelta ps
  | [] => rfl
  | p :: ps => by
    by_cases hdel : p.deleted = true
    · rw [liveParams_cons_deleted hdel]
      have hstep : inputDelta (p :: ps) = inputDelta ps := by
        simp [inputDelta, hdel]
      rw [hstep]
      exact inputDelta_live ps
    · rw [Bool.not_eq_true] at hdel
      rw [liveParams_cons_live hdel, inputDelta_cons p (liveParams ps),
        inputDelta_cons p ps, inputDelta_live ps]

theorem formDelta_live (refs : List RefEntry) :
    ∀ ps : List ParamState, formDelta refs (liveParams ps) = formDelta refs ps
  | [] => rfl
  | p :: ps => by
    by_cases hdel : p.deleted = true
    · rw [liveParams_cons_deleted hdel]
      have hstep : formDelta refs (p :: ps) = formDelta refs ps := by
        simp [formDelta, hdel]
      rw [hstep]
      exact formDelta_live refs ps
    · rw [Bool.not_eq_true] at hdel
      rw [liveParams_cons_live hdel, formDelta_cons refs p (liveParams ps),
        formDelta_cons refs p ps, formDelta_live refs ps]

theorem inputDelta_map_loaded {refs : List RefEntry} :
    ∀ qs : List ParamState, (∀ q ∈ qs, q.deleted = false) →
      inputDelta (qs.map (loaded_param refs)) = inputDelta qs
  | [], _ => rfl
  | q :: qs, h => by
    have hq := h q (List.mem_cons_self _ _)
    have hlq := loaded_param_deleted refs q
    simp only [List.map_cons]
    rw [inputDelta_cons (loaded_param refs q), inputDelta_cons q]
    have h1 : inputDelta [loaded_param refs q] = [(q.id, dump_value q)] := by
      simp [inputDelta, hlq, loaded_param_id, loaded_param_dump_value]
    have h2 : inputDelta [q] = [(q.id, dump_value q)] := by
      simp [inputDelta, hq]
    rw [h1, h2,
      inputDelta_map_loaded qs (fun r hr => h r (List.mem_cons_of_mem _ hr))]

theorem formDelta_map_loaded {refs : List RefEntry} :
    ∀ qs : List ParamState,
      (∀ q ∈ qs, wf_param refs q = true ∧ q.deleted = false) →
      formDelta refs (qs.map (loaded_param refs)) = formDelta refs qs
  | [], _ => rfl
  | q :: qs, h => by
    obtain ⟨hwq, hq⟩ := h q (List.mem_cons_self _ _)
    have hlq := loaded_param_deleted refs q
    simp only [List.map_cons]
    rw [formDelta_cons refs (loaded_param refs q), formDelta_cons refs q,
      formDelta_map_loaded qs (fun r hr => h r (List.mem_cons_of_mem _ hr))]
    congr 1
    by_cases hform : q.input_type = .formEntry
    · have hlit : (loaded_param refs q).input_type = .formEntry := by
        rw [loaded_param_input_type]
        exact hform
      have h1 : formDelta refs [loaded_param refs q]
          = [((fkOf q).headD "", chain_node (fes1 refs (loaded_param refs q))
              [(fkOf q).headD ""] (fkOf q).tail)] := by
        simp [formDelta, hlq, hlit, loaded_param_fkOf hform]
      have h2 : formDelta refs [q]
          = [((fkOf q).headD "", chain_node (fes1 refs q)
              [(fkOf q).headD ""] (fkOf q).tail)] := by
        simp [formDelta, hq, hform]
      rw [h1, h2, chain_node_loaded hwq hq hform]
    · have hlit : (loaded_param refs q).input_type ≠ .formEntry := by
        rw [loaded_param_input_type]
        exact hform
      have h1 : formDelta refs [loaded_param refs q] = [] := by
        simp [formDelta, hlq, beq_eq_false_iff_ne.mpr hlit]
      have h2 : formDelta refs [q] = [] := by
        simp [formDelta, hq, beq_eq_false_iff_ne.mpr hform]
      rw [h1, h2]

theorem liveIds_map_loaded {refs : List RefEntry} :
    ∀ qs : List ParamState, (∀ q ∈ qs, q.deleted = false) →
      liveIds (qs.map (loaded_param refs)) = liveIds qs
  | [], _ => rfl
  | q :: qs, h => by
    have hq := h q (List.mem_cons_self _ _)
    have hlq := loaded_param_deleted refs q
    simp only [List.map_cons]
    rw [liveIds_cons_live hlq, liveIds_cons_live hq, loaded_param_id,
      liveIds_map_loaded qs (fun r hr => h r (List.mem_cons_of_mem _ hr))]

theorem formHeads_map_loaded {refs : List RefEntry} :
    ∀ qs : List ParamState, (∀ q ∈ qs, q.deleted = false) →
      formHeads (qs.map (loaded_param refs)) = formHeads qs
  | [], _ => rfl
  | q :: qs, h => by
    have hq := h q (List.mem_cons_self _ _)
    have hlq := loaded_param_deleted refs q
    have hrest := @formHeads_map_loaded refs qs
      (fun r hr => h r (List.mem_cons_of_mem _ hr))
    simp only [List.map_cons]
    by_cases hform : q.input_type = .formEntry
    · have hlit : (loaded_param refs q).input_type = .formEntry := by
        rw [loaded_param_input_type]
        exact hform
      rw [formHeads_cons_live_form hlq hlit,
        formHeads_cons_live_form hq hform, loaded_param_fkOf hform, hrest]
    · have hlit : (loaded_param refs q).input_type ≠ .formEntry := by
        rw [loaded_param_input_type]
        exact hform
      rw [formHeads_cons_live_notform hlq hlit,
        formHeads_cons_live_notform hq hform, hrest]

/-! ## Source element and the remaining sections over the document
skeleton -/

theorem jset_doc_output {dyn : Json} {I P : List (String × Json)}
    {out comp prep : Json} (w : Json) :
    jset (DOC dyn I P out comp prep) "output" w
      = DOC dyn I P w comp prep := rfl

theorem jset_doc_preprocess {dyn : Json} {I P : List (String × Json)}
    {out comp prep : Json} (w : Json) :
    jset (DOC dyn I P out comp prep) "preprocess" w
      = DOC dyn I P out comp w := rfl

theorem jset_doc_compute {dyn : Json} {I P : List (String × Json)}
    {out comp prep : Json} (w : Json) :
    jset (DOC dyn I P out comp prep) "compute" w
      = DOC dyn I P out w prep := rfl

theorem load_preprocess_doc {dyn : Json} {I P : List (String × Json)}
    {out comp prep : Json} :
    load_preprocess (DOC dyn I P out comp prep) = .ok prep := rfl

theorem load_compute_doc {dyn : Json} {I P : List (String × Json)}
    {out comp prep : Json} :
    load_compute (DOC dyn I P out comp prep) = .ok comp := rfl

theorem dump_outputs_doc {outs : List OutputState} {ds : List Json}
    {dyn : Json} {I P : List (String × Json)} {out comp prep : Json}
    (h : dump_output_list outs = .ok ds) :
    dump_outputs outs (DOC dyn I P out comp prep)
      = .ok (DOC dyn I P
          (.obj [("commands", .arr (ds ++ [manifestCommand]))]) comp prep)
    := by
  unfold dump_outputs
  simp only [h, except_ok_bind]
  rfl

theorem load_outputs_doc {es : List Json} {os' : List OutputState}
    {dyn : Json} {I P : List (String × Json)} {comp prep : Json}
    (hpick : pick_outputs es = .ok os')
    (hnc : matching_regex os' = []) :
    load_outputs (DOC dyn I P (.obj [("commands", .arr es)]) comp prep)
      = .ok os' := by
  have h0 : load_outputs (DOC dyn I P (.obj [("commands", .arr es)])
        comp prep)
      = (do
          let picked ← pick_outputs es
          .ok (overlap_filter picked)) := rfl
  rw [h0]
  simp only [hpick, except_ok_bind]
  rw [overlap_filter_noconflict hnc]

/-- The `dynamo` section written by `SourceConfig.dump` into a fresh
document, given the executor string. -/
def dynOf (s : SourceState) (e : String) : Json :=
  .obj [("code", .obj [("repository", s.repository), ("script", s.script),
          ("uri", s.uri), ("version", s.version)]),
        ("id", s.id), ("name", s.name), ("desc", s.desc),
        ("executor", .str (pyUpper e)),
        ("documentationUrl", s.documentationUrl),
        ("childProcessIds", s.childProcessIds),
        ("parentProcessIds", s.parentProcessIds)]

theorem dump_source_empty {s : SourceState} {e : String}
    (hex : s.executor = .str e) :
    dump_source s empty_config
      = .ok (DOC (dynOf s e) [] [] (.obj []) (.str "") (.str "")) := by
  unfold dump_source
  simp only [hex]
  rfl

/-- The source state produced by reloading a dumped source. -/
def source_reload (s : SourceState) (e : String) : SourceState :=
  { id := s.id, name := s.name, desc := s.desc,
    executor := .str (pyUpper e),
    documentationUrl := s.documentationUrl,
    childProcessIds := s.childProcessIds,
    parentProcessIds := s.parentProcessIds,
    repository := s.repository, script := s.script, uri := s.uri,
    version := s.version }

theorem load_source_doc {s : SourceState} {e : String}
    {I P : List (String × Json)} {out comp prep : Json} :
    load_source (DOC (dynOf s e) I P out comp prep)
      = .ok (source_reload s e) := rfl

theorem dynOf_reload (s : SourceState) (e : String) :
    dynOf (source_reload s e) (pyUpper e) = dynOf s e := by
  simp [dynOf, source_reload, pyUpper_idem]

theorem liveParams_idem (ps : List ParamState) :
    liveParams (liveParams ps) = liveParams ps := by
  simp [liveParams, List.filter_filter]

theorem liveIds_liveParams (ps : List ParamState) :
    liveIds (liveParams ps) = liveIds ps := by
  simp [liveIds, liveParams_idem]

theorem formHeads_liveParams (ps : List ParamState) :
    formHeads (liveParams ps) = formHeads ps := by
  simp [formHeads, liveParams_idem]

theorem format_config_eq {refs : List RefEntry} {s : AppState} {e : String}
    {ds : List Json}
    (hex : s.source.executor = .str e)
    (hwf : ∀ p ∈ s.params, wf_param refs p = true)
    (hIn : (liveIds s.params).Nodup) (hPn : (formHeads s.params).Nodup)
    (hdl : dump_output_list s.outputs = .ok ds) :
    format_config refs s = .ok (DOC (dynOf s.source e)
      (inputDelta s.params) (formDelta refs s.params)
      (.obj [("commands", .arr (ds ++ [manifestCommand]))])
      s.compute s.preprocess) := by
  have h1 := dump_source_empty hex
  have h2 := @dump_params_doc refs s.params (dynOf s.source e) [] []
    (.obj []) (.str "") (.str "") hwf (by simpa using hIn)
    (by simpa using hPn)
  rw [List.nil_append, List.nil_append] at h2
  have h3 := @dump_outputs_doc s.outputs ds (dynOf s.source e)
    (inputDelta s.params) (formDelta refs s.params) (.obj [])
    (.str "") (.str "") hdl
  unfold format_config
  simp only [h1, h2, h3, except_ok_bind]
  rfl

/-! ## Well-formed application states and the full round trip -/

/-- The executor attribute must be a string for `.upper()` to exist. -/
def is_str : Json → Bool
  | .str _ => true
  | _ => false

/-- Well-formedness of the whole application state for the
dump/load/dump round trip: string executor, well-formed parameters with
distinct live ids and distinct root form-key heads, well-formed outputs
whose sources have no overlap conflict. -/
def wfAppState (refs : List RefEntry) (s : AppState) : Bool :=
  is_str s.source.executor &&
  s.params.all (fun p => wf_param refs p) &&
  nodupB (liveIds s.params) && nodupB (formHeads s.params) &&
  s.outputs.all wf_output &&
  decide (matching_regex s.outputs = [])

/-- C1 (amended): for a well-formed application state — string executor,
well-formed parameters whose live ids and root form-key heads are
pairwise distinct, well-formed outputs whose sources have no overlap
conflict — dumping every configuration element into a fresh empty
document, loading the document back into the elements, and dumping again
yields exactly the same document.  The plain, unconditional round trip of
the spec fails (see the counterexample): the dump writes the concat
tokens to a top-level `concat` key while the loader reads
`params.concat`, and the overlap filter can drop specs on reload. -/
theorem format_load_format_roundtrip {refs : List RefEntry}
    {s : AppState} (h : wfAppState refs s = true) :
    ∃ D s', format_config refs s = .ok D ∧ load_all D = .ok s' ∧
      format_config refs s' = .ok D := by
  unfold wfAppState at h
  simp only [Bool.and_eq_true, decide_eq_true_eq, List.all_eq_true] at h
  obtain ⟨⟨⟨⟨⟨hexB, hwf⟩, hIdB⟩, hHdB⟩, hout⟩, hnc⟩ := h
  obtain ⟨e, hex⟩ : ∃ e, s.source.executor = .str e := by
    cases hv : s.source.executor with
    | str e => exact ⟨e, rfl⟩
    | null => simp [is_str, hv] at hexB
    | bool b => simp [is_str, hv] at hexB
    | num n => simp [is_str, hv] at hexB
    | arr l => simp [is_str, hv] at hexB
    | obj fs => simp [is_str, hv] at hexB
  have hIn : (liveIds s.params).Nodup := (nodupB_iff _).mp hIdB
  have hPn : (formHeads s.params).Nodup := (nodupB_iff _).mp hHdB
  obtain ⟨ds, os', hdl, hpick, hmap, hdl2⟩ := output_list_round_trip hout
  have hnc2 : matching_regex os' = [] := by
    rw [matching_regex_congr hmap]
    exact hnc
  refine ⟨DOC (dynOf s.source e) (inputDelta s.params)
      (formDelta refs s.params)
      (.obj [("commands", .arr (ds ++ [manifestCommand]))])
      s.compute s.preprocess,
    ⟨source_reload s.source e,
      (liveParams s.params).map (loaded_param refs),
      os', s.preprocess, s.compute⟩, ?_, ?_, ?_⟩
  · exact format_config_eq hex hwf hIn hPn hdl
  · have hL2 := @load_params_doc refs s.params (dynOf s.source e)
      (.obj [("commands", .arr (ds ++ [manifestCommand]))])
      s.compute s.preprocess hwf hIn hPn
    have hL3 := @load_outputs_doc (ds ++ [manifestCommand]) os'
      (dynOf s.source e) (inputDelta s.params) (formDelta refs s.params)
      s.compute s.preprocess hpick hnc2
    unfold load_all
    simp only [load_source_doc, hL2, hL3, except_ok_bind]
    rfl
  · have hallLive : ∀ p ∈ liveParams s.params, p.deleted = false :=
      liveParams_live
    have hwf2 : ∀ p ∈ (liveParams s.params).map (loaded_param refs),
        wf_param refs p = true := by
      intro q hq
      obtain ⟨p, hp, rfl⟩ := List.mem_map.mp hq
      exact wf_param_loaded (hwf p (List.mem_of_mem_filter hp))
        (liveParams_live p hp)
    have hIn2 : (liveIds ((liveParams s.params).map
        (loaded_param refs))).Nodup := by
      rw [liveIds_map_loaded _ hallLive, liveIds_liveParams]
      exact hIn
    have hPn2 : (formHeads ((liveParams s.params).map
        (loaded_param refs))).Nodup := by
      rw [formHeads_map_loaded _ hallLive, formHeads_liveParams]
      exact hPn
    have hIeq : inputDelta ((liveParams s.params).map (loaded_param refs))
        = inputDelta s.params := by
      rw [inputDelta_map_loaded _ hallLive, inputDelta_live]
    have hPeq : formDelta refs ((liveParams s.params).map
        (loaded_param refs)) = formDelta refs s.params := by
      rw [formDelta_map_loaded (liveParams s.params) (fun q hq =>
          ⟨hwf q (List.mem_of_mem_filter hq), liveParams_live q hq⟩),
        formDelta_live]
    have hex2 : (source_reload s.source e).executor = .str (pyUpper e) :=
      rfl
    have h4 := @format_config_eq refs
      ⟨source_reload s.source e,
        (liveParams s.params).map (loaded_param refs),
        os', s.preprocess, s.compute⟩ (pyUpper e) ds hex2 hwf2 hIn2 hPn2
      hdl2
    simp only [h4, dynOf_reload, hIeq, hPeq]

/-- Concrete state for the round-trip witness: a hardcoded parameter, an
output-directory parameter and a user-provided Form Entry parameter. -/
def rtState : AppState :=
  { source := default_source,
    params := [
      { id := "threads", value := .str "4", input_type := .hardcodedValue,
        form_key := none, form_elements := none, form_type := none,
        reference_id := none, reference_file := none, deleted := false },
      { id := "outdir", value := .str outputDirectoryValue,
        input_type := .outputDirectory, form_key := none,
        form_elements := none, form_type := none, reference_id := none,
        reference_file := none, deleted := false },
      { id := "mode_param",
        value := .str (paramJsonMarker ++ "opts.mode"),
        input_type := .formEntry, form_key := some ["opts", "mode"],
        form_elements := some
          [("opts", .obj [("title", .str "Options")]),
           ("opts.mode", .obj [("type", .str "string")])],
        form_type := some .userProvidedValue, reference_id := none,
        reference_file := none, deleted := false }],
    outputs := [],
    preprocess := .str "",
    compute := .str "" }

theorem format_load_format_roundtrip_witness :
    wfAppState [] rtState = true ∧
    (∃ D s', format_config [] rtState = .ok D ∧ load_all D = .ok s' ∧
      format_config [] s' = .ok D) :=
  ⟨by decide, format_load_format_roundtrip (by decide)⟩
